import Mathlib

/-!
# Material 3 palette derivation (`chrome_material3.go`)

A shallow embedding of the palette derivation engine.  `float64` values are
rationals, `uint8` values are natural numbers below 256, and a Go
`map[float64]float64` is the list of its entries together with a visiting
order that every `range` loop applies to it.

Each function comes in two versions.  The plain name (`RGBToHCT`, `HCT.ToRGB`,
`sanitizeDegreesDouble`, ...) computes with exact rational arithmetic.  The
name ending in `64` (`RGBToHCT64`, `HCT.ToRGB64`, `sanitizeDegreesDouble64`,
...) rounds the result of every arithmetic operation to binary64, as the
program does.  Properties whose truth depends on the rounding are stated for
the `64` versions.
-/

namespace MaterialGtk

/-! ## Numeric primitives -/

/-- Truncation toward zero, the integer part kept by `math.Mod` and by the
conversion of a float to an integer type. -/
def truncQ (x : ℚ) : ℤ := if 0 ≤ x then ⌊x⌋ else ⌈x⌉

/-- Exact counterpart of `math.Mod(x, y)`: the remainder of the truncated
division, carrying the sign of `x`. -/
def fmod (x y : ℚ) : ℚ := x - y * (truncQ (x / y) : ℚ)

/-- Conversion `uint8(x)` of a float: the fraction is discarded and the low
eight bits are kept. -/
def toUint8 (x : ℚ) : ℕ := (truncQ x % 256).toNat

/-! ## Data model -/

/-- Scheme variants are plain integers in the source (`iota` constants). -/
abbrev SchemeVariant := ℤ

def TonalSpot : SchemeVariant := 0
def Vibrant : SchemeVariant := 1
def Neutral : SchemeVariant := 2
def Expressive : SchemeVariant := 3

/-- Counterpart of `color.RGBA`, four 8-bit channels. -/
structure RGBA where
  R : ℕ
  G : ℕ
  B : ℕ
  A : ℕ
  deriving DecidableEq, Repr

/-- Hue, chroma, tone triple. -/
structure HCT where
  Hue : ℚ
  Chroma : ℚ
  Tone : ℚ
  deriving DecidableEq, Repr

structure TonalPalette where
  hue : ℚ
  chroma : ℚ
  deriving DecidableEq, Repr

structure ChromePalette where
  Primary : TonalPalette
  Secondary : TonalPalette
  Tertiary : TonalPalette
  Neutral : TonalPalette
  NeutralVariant : TonalPalette
  Error : TonalPalette
  deriving DecidableEq, Repr

/-- Entries of a `map[float64]float64`; keys are pairwise distinct. -/
abbrev HueMap := List (ℚ × ℚ)

/-- Visiting order of a `range` loop over a map: the loop sees `ord m`. -/
abbrev RangeOrder := HueMap → HueMap

/-- A visiting order is admissible when it visits every entry exactly once. -/
def RangeOrder.Valid (ord : RangeOrder) : Prop := ∀ m : HueMap, (ord m).Perm m

/-- The map fields are `none` for a nil map. -/
structure Transform where
  HueRotation : ℚ := 0
  Chroma : ℚ := 0
  HuesToRotations : Option HueMap := none
  HuesToChroma : Option HueMap := none

structure Config where
  Primary : Transform := {}
  Secondary : Transform := {}
  Tertiary : Transform := {}
  Neutral : Transform := {}
  NeutralVariant : Transform := {}

/-- Assignment `m[k] = v`: overwrite the entry of an existing key, otherwise
add a new entry. -/
def mapSet : HueMap → ℚ → ℚ → HueMap
  | [], k, v => [(k, v)]
  | (k0, v0) :: rest, k, v =>
    if k0 = k then (k, v) :: rest else (k0, v0) :: mapSet rest k v

/-- The loop `for i, h := range hues { m[h] = values[i] }` on an empty map. -/
def buildMap (hues values : List ℚ) : HueMap :=
  hues.enum.foldl (fun m ih => mapSet m ih.2 (values.getD ih.1 0)) []

/-! ## Colour-space converter -/

/-- Conversion of an 8-bit RGB triple to hue, chroma and tone. -/
def RGBToHCT (r g b : ℕ) : HCT :=
  let rf : ℚ := (r : ℚ) / 255
  let gf : ℚ := (g : ℚ) / 255
  let bf : ℚ := (b : ℚ) / 255
  let maxv := max rf (max gf bf)
  let minv := min rf (min gf bf)
  let delta := maxv - minv
  let hue0 : ℚ :=
    if delta = 0 then 0
    else if maxv = rf then 60 * fmod ((gf - bf) / delta) 6
    else if maxv = gf then 60 * ((bf - rf) / delta + 2)
    else 60 * ((rf - gf) / delta + 4)
  let hue := if hue0 < 0 then hue0 + 360 else hue0
  let saturation : ℚ := if maxv ≠ 0 then delta / maxv else 0
  let chroma := saturation * 120
  let tone := maxv * 100
  { Hue := hue, Chroma := chroma, Tone := tone }

/-- The three values `(component + m) * 255` that `ToRGB` converts to `uint8`. -/
def HCT.channels (h : HCT) : ℚ × ℚ × ℚ :=
  let hue := h.Hue
  let saturation := min (h.Chroma / 120) 1
  let value := h.Tone / 100
  let c := value * saturation
  let x := c * (1 - |fmod (hue / 60) 2 - 1|)
  let m := value - c
  let rgb : ℚ × ℚ × ℚ :=
    if hue < 60 then (c, x, 0)
    else if hue < 120 then (x, c, 0)
    else if hue < 180 then (0, c, x)
    else if hue < 240 then (0, x, c)
    else if hue < 300 then (x, 0, c)
    else (c, 0, x)
  ((rgb.1 + m) * 255, (rgb.2.1 + m) * 255, (rgb.2.2 + m) * 255)

/-- Conversion of hue, chroma and tone back to an opaque 8-bit colour. -/
def HCT.ToRGB (h : HCT) : RGBA :=
  let p := h.channels
  { R := toUint8 p.1, G := toUint8 p.2.1, B := toUint8 p.2.2, A := 255 }

/-! ## Hue normalisation and nearest-breakpoint lookups -/

def sanitizeDegreesDouble (degrees : ℚ) : ℚ :=
  let d := fmod degrees 360
  if d < 0 then d + 360 else d

/-- One iteration of the closest-match loop; the state is `(minDiff, best)`. -/
def scanStep (sourceHue : ℚ) (st : ℚ × ℚ) (e : ℚ × ℚ) : ℚ × ℚ :=
  let diff := |sourceHue - e.1|
  if diff < st.1 then (diff, e.2) else st

/-- The closest-match loop over the entries in the order they are visited,
starting from `minDiff = 360` and a zero best value. -/
def scanClosest (sourceHue : ℚ) (entries : HueMap) : ℚ :=
  (entries.foldl (scanStep sourceHue) (360, 0)).2

def getRotatedHue (ord : RangeOrder) (sourceHue : ℚ) (huesToRotations : HueMap) : ℚ :=
  match (if huesToRotations.length = 1 then (ord huesToRotations).head? else none) with
  | some e => sanitizeDegreesDouble (sourceHue + e.2)
  | none => sanitizeDegreesDouble (sourceHue + scanClosest sourceHue (ord huesToRotations))

def getAdjustedChroma (ord : RangeOrder) (sourceHue : ℚ) (huesToChroma : HueMap) : ℚ :=
  scanClosest sourceHue (ord huesToChroma)

/-! ## Tonal palettes and the generator -/

def newTonalPalette (hue chroma : ℚ) : TonalPalette := { hue := hue, chroma := chroma }

def TonalPalette.Tone (tp : TonalPalette) (tone : ℤ) : RGBA :=
  HCT.ToRGB { Hue := tp.hue, Chroma := tp.chroma, Tone := (tone : ℚ) }

def makePalette (ord : RangeOrder) (hue : ℚ) (transform : Transform) : TonalPalette :=
  let chroma :=
    match transform.HuesToChroma with
    | some m => getAdjustedChroma ord hue m
    | none => transform.Chroma
  let hue1 :=
    match transform.HuesToRotations with
    | some m => getRotatedHue ord hue m
    | none => sanitizeDegreesDouble (hue + transform.HueRotation)
  newTonalPalette hue1 chroma

def vibrantHues : List ℚ := [0, 41, 61, 101, 131, 181, 251, 301, 360]
def vibrantSecondaryRotations : List ℚ := [18, 15, 10, 12, 15, 18, 15, 12, 12]
def vibrantTertiaryRotations : List ℚ := [35, 30, 20, 25, 30, 35, 30, 25, 25]
def neutralHues : List ℚ := [0, 260, 315, 360]
def neutralChromas : List ℚ := [12, 12, 20, 12]
def expressiveHues : List ℚ := [0, 21, 51, 121, 151, 191, 271, 321, 360]
def expressiveSecondaryRotations : List ℚ := [45, 95, 45, 20, 45, 90, 45, 45, 45]
def expressiveTertiaryRotations : List ℚ := [120, 120, 20, 45, 20, 15, 20, 120, 120]

/-- The `switch variant` of `GenerateChromePalette`; a value outside the four
cases leaves the zero `Config`. -/
def variantConfig (variant : SchemeVariant) : Config :=
  if variant = TonalSpot then
    { Primary := { Chroma := 40 }
      Secondary := { Chroma := 16 }
      Tertiary := { HueRotation := 60, Chroma := 24 }
      Neutral := { Chroma := 6 }
      NeutralVariant := { Chroma := 8 } }
  else if variant = Vibrant then
    { Primary := { Chroma := 200 }
      Secondary := { Chroma := 24,
                     HuesToRotations := some (buildMap vibrantHues vibrantSecondaryRotations) }
      Tertiary := { Chroma := 32,
                    HuesToRotations := some (buildMap vibrantHues vibrantTertiaryRotations) }
      Neutral := { Chroma := 8 }
      NeutralVariant := { Chroma := 12 } }
  else if variant = Neutral then
    { Primary := { HuesToChroma := some (buildMap neutralHues neutralChromas) }
      Secondary := { Chroma := 8 }
      Tertiary := { Chroma := 16 }
      Neutral := { Chroma := 2 }
      NeutralVariant := { Chroma := 2 } }
  else if variant = Expressive then
    { Primary := { HueRotation := -90, Chroma := 40 }
      Secondary := { Chroma := 24,
                     HuesToRotations := some (buildMap expressiveHues expressiveSecondaryRotations) }
      Tertiary := { Chroma := 32,
                    HuesToRotations := some (buildMap expressiveHues expressiveTertiaryRotations) }
      Neutral := { Chroma := 8 }
      NeutralVariant := { Chroma := 12 } }
  else {}

def GenerateChromePalette (ord : RangeOrder) (seedColor : RGBA) (variant : SchemeVariant) :
    ChromePalette :=
  let hct := RGBToHCT seedColor.R seedColor.G seedColor.B
  let hue := hct.Hue
  let config := variantConfig variant
  { Primary := makePalette ord hue config.Primary
    Secondary := makePalette ord hue config.Secondary
    Tertiary := makePalette ord hue config.Tertiary
    Neutral := makePalette ord hue config.Neutral
    NeutralVariant := makePalette ord hue config.NeutralVariant
    Error := newTonalPalette 25 84 }

/-! ## Auxiliary definitions used in the proofs -/

/-- The body of `RGBToHCT` once the channels have been scaled to the unit
interval (`rf`, `gf`, `bf` in the source). -/
def unitToHCT (rf gf bf : ℚ) : HCT :=
  let maxv := max rf (max gf bf)
  let minv := min rf (min gf bf)
  let delta := maxv - minv
  let hue0 : ℚ :=
    if delta = 0 then 0
    else if maxv = rf then 60 * fmod ((gf - bf) / delta) 6
    else if maxv = gf then 60 * ((bf - rf) / delta + 2)
    else 60 * ((rf - gf) / delta + 4)
  let hue := if hue0 < 0 then hue0 + 360 else hue0
  let saturation : ℚ := if maxv ≠ 0 then delta / maxv else 0
  let chroma := saturation * 120
  let tone := maxv * 100
  { Hue := hue, Chroma := chroma, Tone := tone }

/-- The local `c` of `ToRGB`. -/
def HCT.cPart (h : HCT) : ℚ := h.Tone / 100 * min (h.Chroma / 120) 1

/-- The local `m` of `ToRGB`. -/
def HCT.mPart (h : HCT) : ℚ := h.Tone / 100 - h.cPart

/-- The local `x` of `ToRGB`. -/
def HCT.xPart (h : HCT) : ℚ := h.cPart * (1 - |fmod (h.Hue / 60) 2 - 1|)

/-- A value that `ToRGB` converts to `uint8` stays inside the 8-bit range. -/
def byteRange (x : ℚ) : Prop := 0 ≤ x ∧ x ≤ 255

/-- All three conversions of `ToRGB` stay in range and the alpha is 255. -/
def HCT.castSafe (h : HCT) : Prop :=
  byteRange h.channels.1 ∧ byteRange h.channels.2.1 ∧ byteRange h.channels.2.2 ∧
    h.ToRGB.A = 255

/-- The Vibrant secondary rotation table as the specification lists it:
breakpoint hue paired with rotation. -/
def vibrantSecondaryTable : HueMap :=
  [(0, 18), (41, 15), (61, 10), (101, 12), (131, 15), (181, 18), (251, 15), (301, 12),
    (360, 12)]

/-- The Neutral chroma table as the specification lists it: breakpoint hue
paired with chroma. -/
def neutralChromaTable : HueMap := [(0, 12), (260, 12), (315, 20), (360, 12)]

/-! ## Division with an explicit failure, and `parseRGB` -/

/-- A float division that records a zero divisor as a failure. -/
def divChecked (a b : ℚ) : Option ℚ := if b = 0 then none else some (a / b)

/-- The body of `RGBToHCT` with every `/` of the source replaced by
`divChecked`; a division is evaluated only on the branch that contains it. -/
def RGBToHCTChecked (r g b : ℕ) : Option HCT := do
  let rf ← divChecked (r : ℚ) 255
  let gf ← divChecked (g : ℚ) 255
  let bf ← divChecked (b : ℚ) 255
  let maxv := max rf (max gf bf)
  let minv := min rf (min gf bf)
  let delta := maxv - minv
  let hue0 ←
    if delta = 0 then some (0 : ℚ)
    else if maxv = rf then (divChecked (gf - bf) delta).map (fun q => 60 * fmod q 6)
    else if maxv = gf then (divChecked (bf - rf) delta).map (fun q => 60 * (q + 2))
    else (divChecked (rf - gf) delta).map (fun q => 60 * (q + 4))
  let hue := if hue0 < 0 then hue0 + 360 else hue0
  let saturation ← if maxv ≠ 0 then divChecked delta maxv else some (0 : ℚ)
  let chroma := saturation * 120
  let tone := maxv * 100
  pure { Hue := hue, Chroma := chroma, Tone := tone }

/-- Counterpart of `strings.Split(s, ",")`: the pieces between commas; the
empty string gives one empty piece. -/
def splitComma : List Char → List (List Char)
  | [] => [[]]
  | c :: cs =>
    if c = ',' then [] :: splitComma cs
    else
      match splitComma cs with
      | [] => [[c]]
      | p :: ps => (c :: p) :: ps

/-- Counterpart of `unicode.IsSpace`, the white space removed by
`strings.TrimSpace`. -/
def isSpace (c : Char) : Bool :=
  let n := c.toNat
  (9 ≤ n && n ≤ 13) || n = 32 || n = 0x85 || n = 0xA0 || n = 0x1680 ||
    (0x2000 ≤ n && n ≤ 0x200A) || n = 0x2028 || n = 0x2029 || n = 0x202F || n = 0x205F ||
    n = 0x3000

/-- Counterpart of `strings.TrimSpace`. -/
def trimSpace (s : List Char) : List Char :=
  ((s.dropWhile isSpace).reverse.dropWhile isSpace).reverse

/-- The value of a run of decimal digits, most significant first. -/
def digitsValue (ds : List Char) : ℕ := ds.foldl (fun n ch => n * 10 + (ch.toNat - 48)) 0

/-- Counterpart of `strconv.Atoi`: an optional sign followed by at least one
decimal digit, with a value that fits a 64-bit `int`; `none` stands for a
non-nil error. -/
def atoi (s : List Char) : Option ℤ :=
  let neg : Bool := s.head? = some '-'
  let ds : List Char := if s.head? = some '-' ∨ s.head? = some '+' then s.tail else s
  if ds = [] then none
  else if ds.all (fun ch => 48 ≤ ch.toNat && ch.toNat ≤ 57) then
    let v : ℤ := if neg then -(digitsValue ds : ℤ) else (digitsValue ds : ℤ)
    if -(2 : ℤ) ^ 63 ≤ v ∧ v ≤ (2 : ℤ) ^ 63 - 1 then some v else none
  else none

/-- The four errors that `parseRGB` builds with `fmt.Errorf`; the payload is
the offending part. -/
inductive RGBError where
  | format : RGBError
  | red : List Char → RGBError
  | green : List Char → RGBError
  | blue : List Char → RGBError
  deriving DecidableEq, Repr

/-- The four results of `parseRGB`; `err = none` is a nil error. -/
structure ParseResult where
  r : ℕ
  g : ℕ
  b : ℕ
  err : Option RGBError
  deriving DecidableEq, Repr

/-- Conversion `uint8(n)` of an `int`. -/
def intToUint8 (n : ℤ) : ℕ := (n % 256).toNat

/-- One `strconv.Atoi(strings.TrimSpace(part))` followed by the range test
`err != nil || v < 0 || v > 255`: the accepted value, if any. -/
def channelOf (part : List Char) : Option ℤ :=
  match atoi (trimSpace part) with
  | some v => if v < 0 ∨ v > 255 then none else some v
  | none => none

def parseRGB (rgbStr : List Char) : ParseResult :=
  match splitComma rgbStr with
  | [p0, p1, p2] =>
    match channelOf p0 with
    | none => { r := 0, g := 0, b := 0, err := some (RGBError.red p0) }
    | some r =>
      match channelOf p1 with
      | none => { r := 0, g := 0, b := 0, err := some (RGBError.green p1) }
      | some g =>
        match channelOf p2 with
        | none => { r := 0, g := 0, b := 0, err := some (RGBError.blue p2) }
        | some b => { r := intToUint8 r, g := intToUint8 g, b := intToUint8 b, err := none }
  | _ => { r := 0, g := 0, b := 0, err := some RGBError.format }

/-! ## The same functions with `float64` rounding

Every arithmetic operation of the source is followed by the rounding of
IEEE-754 binary64 (round to nearest, ties to even).  `math.Mod`, `math.Abs`,
`math.Max`, `math.Min`, comparisons and the conversion of small integers are
exact.  Overflow to infinity is not represented; no value of these functions
comes near it. -/

/-- Exponent of the leading bit: the largest `l` with `2 ^ l ≤ x`, for `x > 0`. -/
def ilog2 (x : ℚ) : ℤ :=
  let e0 : ℤ := (Nat.log2 x.num.natAbs : ℤ) - (Nat.log2 x.den : ℤ)
  if (2 : ℚ) ^ e0 ≤ x then e0 else e0 - 1

/-- Nearest integer, ties to the even one. -/
def roundHalfEven (y : ℚ) : ℤ :=
  if y - (⌊y⌋ : ℚ) < 1 / 2 then ⌊y⌋
  else if 1 / 2 < y - (⌊y⌋ : ℚ) then ⌊y⌋ + 1
  else if ⌊y⌋ % 2 = 0 then ⌊y⌋ else ⌊y⌋ + 1

/-- The binary64 value nearest to `x`: 53 significant bits, and a unit in the
last place of at least `2 ^ (-1074)`. -/
def fl64 (x : ℚ) : ℚ :=
  if x = 0 then 0
  else (roundHalfEven (x / (2 : ℚ) ^ (max (ilog2 |x|) (-1022) - 52)) : ℚ) *
    (2 : ℚ) ^ (max (ilog2 |x|) (-1022) - 52)

/-- `RGBToHCT` with the rounding of each operation. -/
def RGBToHCT64 (r g b : ℕ) : HCT :=
  let rf : ℚ := fl64 ((r : ℚ) / 255)
  let gf : ℚ := fl64 ((g : ℚ) / 255)
  let bf : ℚ := fl64 ((b : ℚ) / 255)
  let maxv := max rf (max gf bf)
  let minv := min rf (min gf bf)
  let delta := fl64 (maxv - minv)
  let hue0 : ℚ :=
    if delta = 0 then 0
    else if maxv = rf then fl64 (60 * fmod (fl64 (fl64 (gf - bf) / delta)) 6)
    else if maxv = gf then fl64 (60 * fl64 (fl64 (fl64 (bf - rf) / delta) + 2))
    else fl64 (60 * fl64 (fl64 (fl64 (rf - gf) / delta) + 4))
  let hue := if hue0 < 0 then fl64 (hue0 + 360) else hue0
  let saturation : ℚ := if maxv ≠ 0 then fl64 (delta / maxv) else 0
  let chroma := fl64 (saturation * 120)
  let tone := fl64 (maxv * 100)
  { Hue := hue, Chroma := chroma, Tone := tone }

/-- The three values that `ToRGB` converts to `uint8`, with the rounding of
each operation. -/
def HCT.channels64 (h : HCT) : ℚ × ℚ × ℚ :=
  let hue := h.Hue
  let saturation := min (fl64 (h.Chroma / 120)) 1
  let value := fl64 (h.Tone / 100)
  let c := fl64 (value * saturation)
  let x := fl64 (c * fl64 (1 - |fl64 (fmod (fl64 (hue / 60)) 2 - 1)|))
  let m := fl64 (value - c)
  let rgb : ℚ × ℚ × ℚ :=
    if hue < 60 then (c, x, 0)
    else if hue < 120 then (x, c, 0)
    else if hue < 180 then (0, c, x)
    else if hue < 240 then (0, x, c)
    else if hue < 300 then (x, 0, c)
    else (c, 0, x)
  (fl64 (fl64 (rgb.1 + m) * 255), fl64 (fl64 (rgb.2.1 + m) * 255),
    fl64 (fl64 (rgb.2.2 + m) * 255))

def HCT.ToRGB64 (h : HCT) : RGBA :=
  let p := h.channels64
  { R := toUint8 p.1, G := toUint8 p.2.1, B := toUint8 p.2.2, A := 255 }

def sanitizeDegreesDouble64 (degrees : ℚ) : ℚ :=
  let d := fmod degrees 360
  if d < 0 then fl64 (d + 360) else d

def scanStep64 (sourceHue : ℚ) (st : ℚ × ℚ) (e : ℚ × ℚ) : ℚ × ℚ :=
  let diff := |fl64 (sourceHue - e.1)|
  if diff < st.1 then (diff, e.2) else st

def scanClosest64 (sourceHue : ℚ) (entries : HueMap) : ℚ :=
  (entries.foldl (scanStep64 sourceHue) (360, 0)).2

def getRotatedHue64 (ord : RangeOrder) (sourceHue : ℚ) (huesToRotations : HueMap) : ℚ :=
  match (if huesToRotations.length = 1 then (ord huesToRotations).head? else none) with
  | some e => sanitizeDegreesDouble64 (fl64 (sourceHue + e.2))
  | none =>
    sanitizeDegreesDouble64 (fl64 (sourceHue + scanClosest64 sourceHue (ord huesToRotations)))

def getAdjustedChroma64 (ord : RangeOrder) (sourceHue : ℚ) (huesToChroma : HueMap) : ℚ :=
  scanClosest64 sourceHue (ord huesToChroma)

def makePalette64 (ord : RangeOrder) (hue : ℚ) (transform : Transform) : TonalPalette :=
  let chroma :=
    match transform.HuesToChroma with
    | some m => getAdjustedChroma64 ord hue m
    | none => transform.Chroma
  let hue1 :=
    match transform.HuesToRotations with
    | some m => getRotatedHue64 ord hue m
    | none => sanitizeDegreesDouble64 (fl64 (hue + transform.HueRotation))
  newTonalPalette hue1 chroma

def GenerateChromePalette64 (ord : RangeOrder) (seedColor : RGBA) (variant : SchemeVariant) :
    ChromePalette :=
  let hct := RGBToHCT64 seedColor.R seedColor.G seedColor.B
  let hue := hct.Hue
  let config := variantConfig variant
  { Primary := makePalette64 ord hue config.Primary
    Secondary := makePalette64 ord hue config.Secondary
    Tertiary := makePalette64 ord hue config.Tertiary
    Neutral := makePalette64 ord hue config.Neutral
    NeutralVariant := makePalette64 ord hue config.NeutralVariant
    Error := newTonalPalette 25 84 }

/-! ## Auxiliary definitions for the analysis of the rounding -/

/-- The scaled channel `float64(a) / 255.0` after rounding. -/
def unit64 (a : ℕ) : ℚ := fl64 ((a : ℚ) / 255)

/-- The body of `RGBToHCT64` once the channels have been scaled. -/
def unitToHCT64 (rf gf bf : ℚ) : HCT :=
  let maxv := max rf (max gf bf)
  let minv := min rf (min gf bf)
  let delta := fl64 (maxv - minv)
  let hue0 : ℚ :=
    if delta = 0 then 0
    else if maxv = rf then fl64 (60 * fmod (fl64 (fl64 (gf - bf) / delta)) 6)
    else if maxv = gf then fl64 (60 * fl64 (fl64 (fl64 (bf - rf) / delta) + 2))
    else fl64 (60 * fl64 (fl64 (fl64 (rf - gf) / delta) + 4))
  let hue := if hue0 < 0 then fl64 (hue0 + 360) else hue0
  let saturation : ℚ := if maxv ≠ 0 then fl64 (delta / maxv) else 0
  let chroma := fl64 (saturation * 120)
  let tone := fl64 (maxv * 100)
  { Hue := hue, Chroma := chroma, Tone := tone }

/-- Closeness of a rounded hue, chroma, tone triple `h1` to an exact one `h`
whose hue is in `[0, 359.8]`, whose chroma is in `[0, 120]` and whose tone is in
`[0, 100]`. -/
def HCTNear (h1 h : HCT) : Prop :=
  |h1.Hue - h.Hue| ≤ 1 / 10 ^ 8 ∧ |h1.Chroma - h.Chroma| ≤ 1 / 10 ^ 8 ∧
    |h1.Tone - h.Tone| ≤ 1 / 10 ^ 10 ∧ 0 ≤ h1.Hue ∧ 0 ≤ h.Hue ∧ h.Hue ≤ 1799 / 5 ∧
    0 ≤ h.Chroma ∧ h.Chroma ≤ 120 ∧ 0 ≤ h.Tone ∧ h.Tone ≤ 100

/-- The local `c` of `ToRGB` with the rounding of each operation. -/
def HCT.cPart64 (h : HCT) : ℚ := fl64 (fl64 (h.Tone / 100) * min (fl64 (h.Chroma / 120)) 1)

/-- The local `m` of `ToRGB` with the rounding of each operation. -/
def HCT.mPart64 (h : HCT) : ℚ := fl64 (fl64 (h.Tone / 100) - h.cPart64)

/-- The local `x` of `ToRGB` with the rounding of each operation. -/
def HCT.xPart64 (h : HCT) : ℚ :=
  fl64 (h.cPart64 * fl64 (1 - |fl64 (fmod (fl64 (h.Hue / 60)) 2 - 1)|))

/-- The last two operations of a channel of `ToRGB`: add `m`, scale by 255. -/
def HCT.out64 (h : HCT) (comp : ℚ) : ℚ := fl64 (fl64 (comp + h.mPart64) * 255)

/-- Clamp to the unit interval. -/
def clamp01 (t : ℚ) : ℚ := max 0 (min 1 t)

/-- Share of `c` in the red component at `w = hue / 60`. -/
def shareR (w : ℚ) : ℚ := clamp01 (|w - 3| - 1)

/-- Share of `c` in the green component at `w = hue / 60`. -/
def shareG (w : ℚ) : ℚ := clamp01 (2 - |w - 2|)

/-- Share of `c` in the blue component at `w = hue / 60`. -/
def shareB (w : ℚ) : ℚ := clamp01 (2 - |w - 4|)

/-- The triangle wave `1 - |math.Mod(w, 2) - 1|` of `ToRGB`. -/
def triWave (w : ℚ) : ℚ := 1 - |fmod w 2 - 1|

/-! ## Truncation and remainder -/

theorem truncQ_of_nonneg {x : ℚ} (k : ℤ) (h0 : 0 ≤ x) (h1 : (k : ℚ) ≤ x)
    (h2 : x < (k : ℚ) + 1) : truncQ x = k := by
  unfold truncQ
  rw [if_pos h0]
  exact Int.floor_eq_iff.mpr ⟨h1, h2⟩

theorem truncQ_of_neg {x : ℚ} (k : ℤ) (h0 : x < 0) (h1 : (k : ℚ) - 1 < x)
    (h2 : x ≤ (k : ℚ)) : truncQ x = k := by
  unfold truncQ
  rw [if_neg (not_le.mpr h0)]
  exact Int.ceil_eq_iff.mpr ⟨h1, h2⟩

/-- Inside the `k`-th period of a non-negative argument the remainder is the
offset from the period start. -/
theorem fmod_of_nonneg {x y : ℚ} (k : ℤ) (hy : 0 < y) (h0 : 0 ≤ x)
    (h1 : (k : ℚ) * y ≤ x) (h2 : x < ((k : ℚ) + 1) * y) : fmod x y = x - (k : ℚ) * y := by
  unfold fmod
  have hq : truncQ (x / y) = k := by
    apply truncQ_of_nonneg k (div_nonneg h0 hy.le)
    · rw [le_div_iff₀ hy]; exact h1
    · rw [div_lt_iff₀ hy]; exact h2
  rw [hq]; ring

theorem fmod_of_small {x y : ℚ} (h1 : -y < x) (h2 : x < y) : fmod x y = x := by
  have hy : 0 < y := by linarith
  unfold fmod
  have hq : truncQ (x / y) = 0 := by
    rcases le_or_lt 0 x with h0 | h0
    · apply truncQ_of_nonneg 0 (div_nonneg h0 hy.le)
      · simpa using div_nonneg h0 hy.le
      · rw [div_lt_iff₀ hy]; simpa using h2
    · apply truncQ_of_neg 0 (div_neg_of_neg_of_pos h0 hy)
      · rw [lt_div_iff₀ hy]; simp; linarith
      · simpa using (div_neg_of_neg_of_pos h0 hy).le
  rw [hq]; simp

theorem fmod_bounds (x : ℚ) {y : ℚ} (hy : 0 < y) : -y < fmod x y ∧ fmod x y < y := by
  unfold fmod truncQ
  have hx : x = y * (x / y) := by field_simp
  split_ifs with h
  · have h1 := Int.floor_le (x / y)
    have h2 := Int.lt_floor_add_one (x / y)
    have e : x - y * ((⌊x / y⌋ : ℤ) : ℚ) = y * (x / y - ((⌊x / y⌋ : ℤ) : ℚ)) := by
      rw [mul_sub, ← hx]
    rw [e]
    constructor
    · have : 0 ≤ y * (x / y - ((⌊x / y⌋ : ℤ) : ℚ)) := mul_nonneg hy.le (by linarith)
      linarith
    · have : y * (x / y - ((⌊x / y⌋ : ℤ) : ℚ)) < y * 1 :=
        mul_lt_mul_of_pos_left (by linarith) hy
      linarith
  · have h1 := Int.le_ceil (x / y)
    have h2 := Int.ceil_lt_add_one (x / y)
    have e : x - y * ((⌈x / y⌉ : ℤ) : ℚ) = -(y * (((⌈x / y⌉ : ℤ) : ℚ) - x / y)) := by
      rw [mul_sub, ← hx]; ring
    rw [e]
    constructor
    · have : y * (((⌈x / y⌉ : ℤ) : ℚ) - x / y) < y * 1 :=
        mul_lt_mul_of_pos_left (by linarith) hy
      linarith
    · have : 0 ≤ y * (((⌈x / y⌉ : ℤ) : ℚ) - x / y) := mul_nonneg hy.le (by linarith)
      linarith

theorem fmod_nonneg {x y : ℚ} (hy : 0 < y) (h0 : 0 ≤ x) : 0 ≤ fmod x y := by
  unfold fmod truncQ
  rw [if_pos (div_nonneg h0 hy.le)]
  have hx : x = y * (x / y) := by field_simp
  have h1 := Int.floor_le (x / y)
  have e : x - y * ((⌊x / y⌋ : ℤ) : ℚ) = y * (x / y - ((⌊x / y⌋ : ℤ) : ℚ)) := by
    rw [mul_sub, ← hx]
  rw [e]
  exact mul_nonneg hy.le (by linarith)

theorem toUint8_natCast_mul (n : ℕ) (hn : n < 256) : toUint8 ((n : ℚ) / 255 * 255) = n := by
  have e : (n : ℚ) / 255 * 255 = ((n : ℤ) : ℚ) := by
    field_simp
  unfold toUint8
  have ht : truncQ ((n : ℚ) / 255 * 255) = (n : ℤ) := by
    rw [e]
    apply truncQ_of_nonneg
    · exact_mod_cast Nat.zero_le n
    · exact le_refl _
    · linarith
  rw [ht]
  omega

/-! ## Hue normalisation -/

theorem sanitize_range (d : ℚ) :
    0 ≤ sanitizeDegreesDouble d ∧ sanitizeDegreesDouble d < 360 := by
  unfold sanitizeDegreesDouble
  have hb := fmod_bounds d (show (0 : ℚ) < 360 by norm_num)
  simp only
  split_ifs with h
  · constructor <;> linarith [hb.1, hb.2]
  · exact ⟨not_lt.mp h, hb.2⟩

theorem sanitize_of_range {d : ℚ} (h0 : 0 ≤ d) (h1 : d < 360) :
    sanitizeDegreesDouble d = d := by
  unfold sanitizeDegreesDouble
  have e : fmod d 360 = d := fmod_of_small (by linarith) h1
  simp only [e]
  rw [if_neg (not_lt.mpr h0)]

theorem sanitize_of_neg {d : ℚ} (h0 : -360 < d) (h1 : d < 0) :
    sanitizeDegreesDouble d = d + 360 := by
  unfold sanitizeDegreesDouble
  have e : fmod d 360 = d := fmod_of_small h0 (by linarith)
  simp only [e]
  rw [if_pos h1]

theorem sanitize_of_wrap {d : ℚ} (h0 : 360 ≤ d) (h1 : d < 720) :
    sanitizeDegreesDouble d = d - 360 := by
  unfold sanitizeDegreesDouble
  have e : fmod d 360 = d - 360 := by
    have := fmod_of_nonneg (x := d) (y := 360) 1 (by norm_num) (by linarith)
      (by norm_num; exact h0) (by norm_num; linarith)
    simpa using this
  simp only [e]
  rw [if_neg (by linarith)]

/-! ## The six sextants of `ToRGB` -/

theorem RGBToHCT_eq_unit (r g b : ℕ) :
    RGBToHCT r g b = unitToHCT ((r : ℚ) / 255) ((g : ℚ) / 255) ((b : ℚ) / 255) := rfl

theorem channels_eq (h : HCT) :
    h.channels =
      (if h.Hue < 60 then ((h.cPart + h.mPart) * 255, (h.xPart + h.mPart) * 255,
          (0 + h.mPart) * 255)
       else if h.Hue < 120 then ((h.xPart + h.mPart) * 255, (h.cPart + h.mPart) * 255,
          (0 + h.mPart) * 255)
       else if h.Hue < 180 then ((0 + h.mPart) * 255, (h.cPart + h.mPart) * 255,
          (h.xPart + h.mPart) * 255)
       else if h.Hue < 240 then ((0 + h.mPart) * 255, (h.xPart + h.mPart) * 255,
          (h.cPart + h.mPart) * 255)
       else if h.Hue < 300 then ((h.xPart + h.mPart) * 255, (0 + h.mPart) * 255,
          (h.cPart + h.mPart) * 255)
       else ((h.cPart + h.mPart) * 255, (0 + h.mPart) * 255, (h.xPart + h.mPart) * 255)) := by
  unfold HCT.channels HCT.xPart HCT.mPart HCT.cPart
  simp only []
  split_ifs <;> rfl

/-- Rising edge: on `[0,60)`, `[120,180)` and `[240,300)` the local `x` grows
linearly from `0` to `c`. -/
theorem xPart_rising (h : HCT) (k : ℤ) (hk : 0 ≤ k) (h1 : 120 * (k : ℚ) ≤ h.Hue)
    (h2 : h.Hue < 120 * (k : ℚ) + 60) :
    h.xPart = h.cPart * (h.Hue / 60 - 2 * (k : ℚ)) := by
  unfold HCT.xPart
  have hk0 : (0 : ℚ) ≤ (k : ℚ) := by exact_mod_cast hk
  have e : fmod (h.Hue / 60) 2 = h.Hue / 60 - (k : ℚ) * 2 := by
    apply fmod_of_nonneg k (by norm_num)
    · apply div_nonneg _ (by norm_num); linarith
    · rw [le_div_iff₀ (by norm_num)]; linarith
    · rw [div_lt_iff₀ (by norm_num)]; linarith
  rw [e]
  have hneg : h.Hue / 60 - (k : ℚ) * 2 - 1 ≤ 0 := by
    have : h.Hue / 60 < 2 * (k : ℚ) + 1 := by
      rw [div_lt_iff₀ (by norm_num)]; linarith
    linarith
  rw [abs_of_nonpos hneg]; ring

/-- Falling edge: on `[60,120)`, `[180,240)` and `[300,360)` the local `x`
falls linearly from `c` to `0`. -/
theorem xPart_falling (h : HCT) (k : ℤ) (hk : 0 ≤ k) (h1 : 120 * (k : ℚ) + 60 ≤ h.Hue)
    (h2 : h.Hue < 120 * (k : ℚ) + 120) :
    h.xPart = h.cPart * (2 * (k : ℚ) + 2 - h.Hue / 60) := by
  unfold HCT.xPart
  have hk0 : (0 : ℚ) ≤ (k : ℚ) := by exact_mod_cast hk
  have e : fmod (h.Hue / 60) 2 = h.Hue / 60 - (k : ℚ) * 2 := by
    apply fmod_of_nonneg k (by norm_num)
    · apply div_nonneg _ (by norm_num); linarith
    · rw [le_div_iff₀ (by norm_num)]; linarith
    · rw [div_lt_iff₀ (by norm_num)]; linarith
  rw [e]
  have hpos : 0 ≤ h.Hue / 60 - (k : ℚ) * 2 - 1 := by
    have : 2 * (k : ℚ) + 1 ≤ h.Hue / 60 := by
      rw [le_div_iff₀ (by norm_num)]; linarith
    linarith
  rw [abs_of_nonneg hpos]; ring

/-! ## The branches of `RGBToHCT` -/

theorem sat_ite (d M : ℚ) : (if M ≠ 0 then d / M else 0) = d / M := by
  split_ifs with h
  · rfl
  · rw [not_not.mp h, div_zero]

theorem unit_gray (a : ℚ) : unitToHCT a a a = ⟨0, 0, a * 100⟩ := by
  unfold unitToHCT
  simp

theorem unit_red_up {rf gf bf : ℚ} (h1 : bf ≤ gf) (h2 : gf ≤ rf) (h3 : bf < rf) :
    unitToHCT rf gf bf = ⟨60 * ((gf - bf) / (rf - bf)), (rf - bf) / rf * 120, rf * 100⟩ := by
  have hM : max rf (max gf bf) = rf := by rw [max_eq_left h1, max_eq_left h2]
  have hm : min rf (min gf bf) = bf := by rw [min_eq_right h1, min_eq_right (h1.trans h2)]
  have hd : 0 < rf - bf := by linarith
  have t0 : 0 ≤ (gf - bf) / (rf - bf) := div_nonneg (by linarith) hd.le
  have t1 : (gf - bf) / (rf - bf) ≤ 1 := (div_le_one hd).mpr (by linarith)
  unfold unitToHCT
  simp only [hM, hm, sat_ite]
  rw [if_neg hd.ne', if_pos trivial, fmod_of_small (by linarith) (by linarith),
    if_neg (by linarith)]

theorem unit_red_down {rf gf bf : ℚ} (h1 : gf < bf) (h2 : bf ≤ rf) :
    unitToHCT rf gf bf =
      ⟨60 * ((gf - bf) / (rf - gf)) + 360, (rf - gf) / rf * 120, rf * 100⟩ := by
  have hM : max rf (max gf bf) = rf := by rw [max_eq_right h1.le, max_eq_left h2]
  have hm : min rf (min gf bf) = gf := by rw [min_eq_left h1.le, min_eq_right (h1.le.trans h2)]
  have hd : 0 < rf - gf := by linarith
  have t0 : (gf - bf) / (rf - gf) < 0 := div_neg_of_neg_of_pos (by linarith) hd
  have t1 : -1 ≤ (gf - bf) / (rf - gf) := by
    rw [le_div_iff₀ hd]; linarith
  unfold unitToHCT
  simp only [hM, hm, sat_ite]
  rw [if_neg hd.ne', if_pos trivial, fmod_of_small (by linarith) (by linarith),
    if_pos (by linarith)]

theorem unit_green_down {rf gf bf : ℚ} (h1 : bf < rf) (h2 : rf < gf) :
    unitToHCT rf gf bf =
      ⟨60 * ((bf - rf) / (gf - bf) + 2), (gf - bf) / gf * 120, gf * 100⟩ := by
  have hM : max rf (max gf bf) = gf := by
    rw [max_eq_left (h1.le.trans h2.le), max_eq_right h2.le]
  have hm : min rf (min gf bf) = bf := by
    rw [min_eq_right (h1.le.trans h2.le), min_eq_right h1.le]
  have hd : 0 < gf - bf := by linarith
  have t1 : -1 ≤ (bf - rf) / (gf - bf) := by
    rw [le_div_iff₀ hd]; linarith
  unfold unitToHCT
  simp only [hM, hm, sat_ite]
  rw [if_neg hd.ne', if_neg h2.ne', if_pos trivial, if_neg (by linarith)]

theorem unit_green_up {rf gf bf : ℚ} (h1 : rf ≤ bf) (h2 : bf ≤ gf) (h3 : rf < gf) :
    unitToHCT rf gf bf =
      ⟨60 * ((bf - rf) / (gf - rf) + 2), (gf - rf) / gf * 120, gf * 100⟩ := by
  have hM : max rf (max gf bf) = gf := by rw [max_eq_left h2, max_eq_right h3.le]
  have hm : min rf (min gf bf) = rf := by rw [min_eq_right h2, min_eq_left h1]
  have hd : 0 < gf - rf := by linarith
  have t0 : 0 ≤ (bf - rf) / (gf - rf) := div_nonneg (by linarith) hd.le
  unfold unitToHCT
  simp only [hM, hm, sat_ite]
  rw [if_neg hd.ne', if_neg h3.ne', if_pos trivial, if_neg (by linarith)]

theorem unit_blue_down {rf gf bf : ℚ} (h1 : rf < gf) (h2 : gf < bf) :
    unitToHCT rf gf bf =
      ⟨60 * ((rf - gf) / (bf - rf) + 4), (bf - rf) / bf * 120, bf * 100⟩ := by
  have hM : max rf (max gf bf) = bf := by
    rw [max_eq_right h2.le, max_eq_right (h1.le.trans h2.le)]
  have hm : min rf (min gf bf) = rf := by rw [min_eq_left h2.le, min_eq_left h1.le]
  have hd : 0 < bf - rf := by linarith
  have t1 : -1 ≤ (rf - gf) / (bf - rf) := by
    rw [le_div_iff₀ hd]; linarith
  unfold unitToHCT
  simp only [hM, hm, sat_ite]
  rw [if_neg hd.ne', if_neg (show ¬ bf = rf from (h1.trans h2).ne'),
    if_neg (show ¬ bf = gf from h2.ne'), if_neg (by linarith)]

theorem unit_blue_up {rf gf bf : ℚ} (h1 : gf ≤ rf) (h2 : rf < bf) :
    unitToHCT rf gf bf =
      ⟨60 * ((rf - gf) / (bf - gf) + 4), (bf - gf) / bf * 120, bf * 100⟩ := by
  have h3 : gf < bf := lt_of_le_of_lt h1 h2
  have hM : max rf (max gf bf) = bf := by rw [max_eq_right h3.le, max_eq_right h2.le]
  have hm : min rf (min gf bf) = gf := by rw [min_eq_left h3.le, min_eq_right h1]
  have hd : 0 < bf - gf := by linarith
  have t0 : 0 ≤ (rf - gf) / (bf - gf) := div_nonneg (by linarith) hd.le
  unfold unitToHCT
  simp only [hM, hm, sat_ite]
  rw [if_neg hd.ne', if_neg (show ¬ bf = rf from h2.ne'),
    if_neg (show ¬ bf = gf from h3.ne'), if_neg (by linarith)]

theorem seed_cases (rf gf bf : ℚ) :
    (rf = gf ∧ gf = bf) ∨ (bf ≤ gf ∧ gf ≤ rf ∧ bf < rf) ∨ (gf < bf ∧ bf ≤ rf) ∨
      (bf < rf ∧ rf < gf) ∨ (rf ≤ bf ∧ bf ≤ gf ∧ rf < gf) ∨ (rf < gf ∧ gf < bf) ∨
      (gf ≤ rf ∧ rf < bf) := by
  rcases le_or_lt bf gf with h1 | h1
  · rcases le_or_lt gf rf with h2 | h2
    · rcases eq_or_lt_of_le (h1.trans h2) with h3 | h3
      · left
        constructor <;> linarith
      · exact Or.inr (Or.inl ⟨h1, h2, h3⟩)
    · rcases le_or_lt rf bf with h3 | h3
      · exact Or.inr (Or.inr (Or.inr (Or.inr (Or.inl ⟨h3, h1, h2⟩))))
      · exact Or.inr (Or.inr (Or.inr (Or.inl ⟨h3, h2⟩)))
  · rcases le_or_lt bf rf with h2 | h2
    · exact Or.inr (Or.inr (Or.inl ⟨h1, h2⟩))
    · rcases le_or_lt gf rf with h3 | h3
      · exact Or.inr (Or.inr (Or.inr (Or.inr (Or.inr (Or.inr ⟨h3, h2⟩)))))
      · exact Or.inr (Or.inr (Or.inr (Or.inr (Or.inr (Or.inl ⟨h3, h1⟩)))))

theorem cPart_hsv {M m : ℚ} (hm : 0 ≤ m) (hM : m < M) (u : ℚ) :
    HCT.cPart ⟨u, (M - m) / M * 120, M * 100⟩ = M - m := by
  have hM0 : 0 < M := lt_of_le_of_lt hm hM
  unfold HCT.cPart
  simp only
  have e : (M - m) / M * 120 / 120 = (M - m) / M := by ring
  have h1 : (M - m) / M ≤ 1 := (div_le_one hM0).mpr (by linarith)
  rw [e, min_eq_left h1]
  field_simp

theorem mPart_hsv {M m : ℚ} (hm : 0 ≤ m) (hM : m < M) (u : ℚ) :
    HCT.mPart ⟨u, (M - m) / M * 120, M * 100⟩ = m := by
  unfold HCT.mPart
  rw [cPart_hsv hm hM]
  simp only
  ring

theorem unit_hue_range (rf gf bf : ℚ) :
    0 ≤ (unitToHCT rf gf bf).Hue ∧ (unitToHCT rf gf bf).Hue < 360 := by
  rcases seed_cases rf gf bf with ⟨h1, h2⟩ | ⟨h1, h2, h3⟩ | ⟨h1, h2⟩ | ⟨h1, h2⟩ |
    ⟨h1, h2, h3⟩ | ⟨h1, h2⟩ | ⟨h1, h2⟩
  · subst h1; subst h2
    rw [unit_gray]
    norm_num
  · rw [unit_red_up h1 h2 h3]
    have hd : 0 < rf - bf := by linarith
    have t0 : 0 ≤ (gf - bf) / (rf - bf) := div_nonneg (by linarith) hd.le
    have t1 : (gf - bf) / (rf - bf) ≤ 1 := (div_le_one hd).mpr (by linarith)
    simp only
    constructor <;> linarith
  · rw [unit_red_down h1 h2]
    have hd : 0 < rf - gf := by linarith
    have t0 : (gf - bf) / (rf - gf) < 0 := div_neg_of_neg_of_pos (by linarith) hd
    have t1 : -1 ≤ (gf - bf) / (rf - gf) := by
      rw [le_div_iff₀ hd]; linarith
    simp only
    constructor <;> linarith
  · rw [unit_green_down h1 h2]
    have hd : 0 < gf - bf := by linarith
    have t0 : (bf - rf) / (gf - bf) < 0 := div_neg_of_neg_of_pos (by linarith) hd
    have t1 : -1 ≤ (bf - rf) / (gf - bf) := by
      rw [le_div_iff₀ hd]; linarith
    simp only
    constructor <;> linarith
  · rw [unit_green_up h1 h2 h3]
    have hd : 0 < gf - rf := by linarith
    have t0 : 0 ≤ (bf - rf) / (gf - rf) := div_nonneg (by linarith) hd.le
    have t1 : (bf - rf) / (gf - rf) ≤ 1 := (div_le_one hd).mpr (by linarith)
    simp only
    constructor <;> linarith
  · rw [unit_blue_down h1 h2]
    have hd : 0 < bf - rf := by linarith
    have t0 : (rf - gf) / (bf - rf) < 0 := div_neg_of_neg_of_pos (by linarith) hd
    have t1 : -1 ≤ (rf - gf) / (bf - rf) := by
      rw [le_div_iff₀ hd]; linarith
    simp only
    constructor <;> linarith
  · rw [unit_blue_up h1 h2]
    have hd : 0 < bf - gf := by linarith
    have t0 : 0 ≤ (rf - gf) / (bf - gf) := div_nonneg (by linarith) hd.le
    have t1 : (rf - gf) / (bf - gf) < 1 := (div_lt_one hd).mpr (by linarith)
    simp only
    constructor <;> linarith

theorem RGBToHCT_hue_range (r g b : ℕ) :
    0 ≤ (RGBToHCT r g b).Hue ∧ (RGBToHCT r g b).Hue < 360 := by
  rw [RGBToHCT_eq_unit]
  exact unit_hue_range _ _ _

/-! ## Round trip on the unit cube -/

theorem unit_roundtrip {rf gf bf : ℚ} (hr : 0 ≤ rf) (hg : 0 ≤ gf) (hb : 0 ≤ bf) :
    (unitToHCT rf gf bf).channels = (rf * 255, gf * 255, bf * 255) := by
  rcases seed_cases rf gf bf with ⟨h1, h2⟩ | ⟨h1, h2, h3⟩ | ⟨h1, h2⟩ | ⟨h1, h2⟩ |
    ⟨h1, h2, h3⟩ | ⟨h1, h2⟩ | ⟨h1, h2⟩
  · subst h1; subst h2
    rw [unit_gray, channels_eq]
    simp [HCT.cPart, HCT.mPart, HCT.xPart]
  · rw [unit_red_up h1 h2 h3, channels_eq]
    have hd : 0 < rf - bf := by linarith
    have t0 : 0 ≤ (gf - bf) / (rf - bf) := div_nonneg (by linarith) hd.le
    have t1 : (gf - bf) / (rf - bf) ≤ 1 := (div_le_one hd).mpr (by linarith)
    rcases eq_or_lt_of_le t1 with t2 | t2
    · have hgr : gf = rf := by
        rw [div_eq_one_iff_eq hd.ne'] at t2; linarith
      rw [xPart_falling _ 0 le_rfl (by simp only; push_cast; linarith)
        (by simp only; push_cast; linarith), cPart_hsv hb h3, mPart_hsv hb h3]
      simp only [t2]
      rw [if_neg (by norm_num), if_pos (by norm_num)]
      subst hgr
      ext
      · simp; ring
      · simp
      · simp
    · rw [xPart_rising _ 0 le_rfl (by simp only; push_cast; linarith)
        (by simp only; push_cast; linarith), cPart_hsv hb h3, mPart_hsv hb h3]
      simp only
      rw [if_pos (by linarith)]
      ext
      · simp
      · simp; field_simp
      · simp
  · rw [unit_red_down h1 h2, channels_eq]
    have h3 : gf < rf := lt_of_lt_of_le h1 h2
    have hd : 0 < rf - gf := by linarith
    have t0 : (gf - bf) / (rf - gf) < 0 := div_neg_of_neg_of_pos (by linarith) hd
    have t1 : -1 ≤ (gf - bf) / (rf - gf) := by
      rw [le_div_iff₀ hd]; linarith
    rw [xPart_falling _ 2 (by norm_num) (by simp only; push_cast; linarith)
      (by simp only; push_cast; linarith), cPart_hsv hg h3, mPart_hsv hg h3]
    simp only
    rw [if_neg (by linarith), if_neg (by linarith), if_neg (by linarith), if_neg (by linarith),
      if_neg (by linarith)]
    ext
    · simp
    · simp
    · simp; field_simp; ring
  · rw [unit_green_down h1 h2, channels_eq]
    have h3 : bf < gf := h1.trans h2
    have hd : 0 < gf - bf := by linarith
    have t0 : (bf - rf) / (gf - bf) < 0 := div_neg_of_neg_of_pos (by linarith) hd
    have t1 : -1 < (bf - rf) / (gf - bf) := by
      rw [lt_div_iff₀ hd]; linarith
    rw [xPart_falling _ 0 le_rfl (by simp only; push_cast; linarith)
      (by simp only; push_cast; linarith), cPart_hsv hb h3, mPart_hsv hb h3]
    simp only
    rw [if_neg (by linarith), if_pos (by linarith)]
    ext
    · simp; field_simp
    · simp
    · simp
  · rw [unit_green_up h1 h2 h3, channels_eq]
    have hd : 0 < gf - rf := by linarith
    have t0 : 0 ≤ (bf - rf) / (gf - rf) := div_nonneg (by linarith) hd.le
    have t1 : (bf - rf) / (gf - rf) ≤ 1 := (div_le_one hd).mpr (by linarith)
    rcases eq_or_lt_of_le t1 with t2 | t2
    · have hbg : bf = gf := by
        rw [div_eq_one_iff_eq hd.ne'] at t2; linarith
      rw [xPart_falling _ 1 (by norm_num) (by simp only; push_cast; linarith)
        (by simp only; push_cast; linarith), cPart_hsv hr h3, mPart_hsv hr h3]
      simp only [t2]
      rw [if_neg (by norm_num), if_neg (by norm_num), if_neg (by norm_num),
        if_pos (by norm_num)]
      subst hbg
      ext
      · simp
      · simp; ring
      · simp
    · rw [xPart_rising _ 1 (by norm_num) (by simp only; push_cast; linarith)
        (by simp only; push_cast; linarith), cPart_hsv hr h3, mPart_hsv hr h3]
      simp only
      rw [if_neg (by linarith), if_neg (by linarith), if_pos (by linarith)]
      ext
      · simp
      · simp
      · simp; field_simp
  · rw [unit_blue_down h1 h2, channels_eq]
    have h3 : rf < bf := h1.trans h2
    have hd : 0 < bf - rf := by linarith
    have t0 : (rf - gf) / (bf - rf) < 0 := div_neg_of_neg_of_pos (by linarith) hd
    have t1 : -1 < (rf - gf) / (bf - rf) := by
      rw [lt_div_iff₀ hd]; linarith
    rw [xPart_falling _ 1 (by norm_num) (by simp only; push_cast; linarith)
      (by simp only; push_cast; linarith), cPart_hsv hr h3, mPart_hsv hr h3]
    simp only
    rw [if_neg (by linarith), if_neg (by linarith), if_neg (by linarith), if_pos (by linarith)]
    ext
    · simp
    · simp; field_simp; ring
    · simp
  · rw [unit_blue_up h1 h2, channels_eq]
    have h3 : gf < bf := lt_of_le_of_lt h1 h2
    have hd : 0 < bf - gf := by linarith
    have t0 : 0 ≤ (rf - gf) / (bf - gf) := div_nonneg (by linarith) hd.le
    have t1 : (rf - gf) / (bf - gf) < 1 := (div_lt_one hd).mpr (by linarith)
    rw [xPart_rising _ 2 (by norm_num) (by simp only; push_cast; linarith)
      (by simp only; push_cast; linarith), cPart_hsv hg h3, mPart_hsv hg h3]
    simp only
    rw [if_neg (by linarith), if_neg (by linarith), if_neg (by linarith), if_neg (by linarith),
      if_pos (by linarith)]
    ext
    · simp; field_simp; ring
    · simp
    · simp

/-! ## The closest-match loop -/

theorem scan_fold (h : ℚ) (l : HueMap) :
    ∀ st : ℚ × ℚ,
      (l.foldl (scanStep h) st).1 ≤ st.1 ∧
      (∀ e ∈ l, (l.foldl (scanStep h) st).1 ≤ |h - e.1|) ∧
      (l.foldl (scanStep h) st = st ∨
        ∃ e ∈ l, l.foldl (scanStep h) st = (|h - e.1|, e.2)) := by
  induction l with
  | nil => intro st; simp
  | cons a l ih =>
    intro st
    rw [List.foldl_cons]
    obtain ⟨i1, i2, i3⟩ := ih (scanStep h st a)
    have s1 : (scanStep h st a).1 ≤ st.1 := by
      unfold scanStep
      simp only
      split_ifs with hlt
      · exact hlt.le
      · exact le_rfl
    have s2 : (scanStep h st a).1 ≤ |h - a.1| := by
      unfold scanStep
      simp only
      split_ifs with hlt
      · exact le_rfl
      · exact not_lt.mp hlt
    have s3 : scanStep h st a = st ∨ scanStep h st a = (|h - a.1|, a.2) := by
      unfold scanStep
      simp only
      split_ifs with hlt
      · exact Or.inr rfl
      · exact Or.inl rfl
    refine ⟨i1.trans s1, ?_, ?_⟩
    · intro e he
      rcases List.mem_cons.mp he with rfl | he
      · exact i1.trans s2
      · exact i2 e he
    · rcases i3 with i3 | ⟨e, he, i3⟩
      · rcases s3 with s3 | s3
        · left; rw [i3, s3]
        · right; exact ⟨a, List.mem_cons_self _ _, by rw [i3, s3]⟩
      · right; exact ⟨e, List.mem_cons_of_mem _ he, i3⟩

theorem scanClosest_spec (h : ℚ) (l : HueMap) (hex : ∃ e ∈ l, |h - e.1| < 360) :
    ∃ e ∈ l, scanClosest h l = e.2 ∧ ∀ e' ∈ l, |h - e.1| ≤ |h - e'.1| := by
  obtain ⟨i1, i2, i3⟩ := scan_fold h l (360, 0)
  rcases i3 with i3 | ⟨e, he, i3⟩
  · obtain ⟨e, he, hlt⟩ := hex
    have := i2 e he
    rw [i3] at this
    simp only at this
    linarith
  · refine ⟨e, he, ?_, ?_⟩
    · unfold scanClosest; rw [i3]
    · intro e' he'
      have := i2 e' he'
      rw [i3] at this
      exact this

theorem scanClosest_mem (h : ℚ) (l : HueMap) :
    scanClosest h l = 0 ∨ ∃ e ∈ l, scanClosest h l = e.2 := by
  obtain ⟨_, _, i3⟩ := scan_fold h l (360, 0)
  rcases i3 with i3 | ⟨e, he, i3⟩
  · left; unfold scanClosest; rw [i3]
  · right; exact ⟨e, he, by unfold scanClosest; rw [i3]⟩

/-! ## The literal tables -/

theorem vibrantSecondaryMap_eq :
    buildMap vibrantHues vibrantSecondaryRotations = vibrantSecondaryTable := by
  decide

theorem neutralChromaMap_eq :
    buildMap neutralHues neutralChromas = neutralChromaTable := by
  decide

/-! ## Palette construction -/

theorem makePalette_hue_range (ord : RangeOrder) (hue : ℚ) (t : Transform) :
    0 ≤ (makePalette ord hue t).hue ∧ (makePalette ord hue t).hue < 360 := by
  unfold makePalette newTonalPalette
  simp only
  cases t.HuesToRotations with
  | none => exact sanitize_range _
  | some m =>
    simp only
    unfold getRotatedHue
    split <;> exact sanitize_range _

theorem unit_max_cast (r g b : ℕ) :
    max ((r : ℚ) / 255) (max ((g : ℚ) / 255) ((b : ℚ) / 255)) =
      ((max r (max g b) : ℕ) : ℚ) / 255 := by
  push_cast
  rw [max_div_div_right (by norm_num), max_div_div_right (by norm_num)]

theorem unit_min_cast (r g b : ℕ) :
    min ((r : ℚ) / 255) (min ((g : ℚ) / 255) ((b : ℚ) / 255)) =
      ((min r (min g b) : ℕ) : ℚ) / 255 := by
  push_cast
  rw [min_div_div_right (by norm_num), min_div_div_right (by norm_num)]

theorem unit_tone (rf gf bf : ℚ) : (unitToHCT rf gf bf).Tone = max rf (max gf bf) * 100 := rfl

theorem unit_chroma (rf gf bf : ℚ) :
    (unitToHCT rf gf bf).Chroma =
      (max rf (max gf bf) - min rf (min gf bf)) / max rf (max gf bf) * 120 := by
  unfold unitToHCT
  simp only [sat_ite]

/-! ## Range of the converted channels -/

theorem cPart_bounds (h : HCT) (hc : 0 ≤ h.Chroma) (ht : 0 ≤ h.Tone) :
    0 ≤ h.cPart ∧ h.cPart ≤ h.Tone / 100 := by
  unfold HCT.cPart
  have hv : 0 ≤ h.Tone / 100 := div_nonneg ht (by norm_num)
  have hs0 : 0 ≤ min (h.Chroma / 120) 1 := le_min (div_nonneg hc (by norm_num)) zero_le_one
  have hs1 : min (h.Chroma / 120) 1 ≤ 1 := min_le_right _ _
  constructor
  · exact mul_nonneg hv hs0
  · calc h.Tone / 100 * min (h.Chroma / 120) 1 ≤ h.Tone / 100 * 1 :=
        mul_le_mul_of_nonneg_left hs1 hv
      _ = h.Tone / 100 := mul_one _

theorem xPart_bounds (h : HCT) (hh : 0 ≤ h.Hue) (hc : 0 ≤ h.cPart) :
    0 ≤ h.xPart ∧ h.xPart ≤ h.cPart := by
  unfold HCT.xPart
  have f0 : 0 ≤ fmod (h.Hue / 60) 2 := fmod_nonneg (by norm_num) (div_nonneg hh (by norm_num))
  have f1 : fmod (h.Hue / 60) 2 < 2 := (fmod_bounds _ (by norm_num)).2
  have a1 : |fmod (h.Hue / 60) 2 - 1| ≤ 1 := abs_le.mpr ⟨by linarith, by linarith⟩
  have a0 : 0 ≤ |fmod (h.Hue / 60) 2 - 1| := abs_nonneg _
  constructor
  · exact mul_nonneg hc (by linarith)
  · calc h.cPart * (1 - |fmod (h.Hue / 60) 2 - 1|) ≤ h.cPart * 1 :=
        mul_le_mul_of_nonneg_left (by linarith) hc
      _ = h.cPart := mul_one _

theorem byteRange_of {v m comp : ℚ} (hm : 0 ≤ m) (h0 : 0 ≤ comp) (h1 : comp + m ≤ v)
    (hv : v ≤ 1) : byteRange ((comp + m) * 255) := by
  unfold byteRange
  constructor
  · exact mul_nonneg (by linarith) (by norm_num)
  · linarith

theorem castSafe_of_ranges (h : HCT) (hh : 0 ≤ h.Hue) (hc : 0 ≤ h.Chroma) (ht0 : 0 ≤ h.Tone)
    (ht1 : h.Tone ≤ 100) : h.castSafe := by
  obtain ⟨c0, c1⟩ := cPart_bounds h hc ht0
  obtain ⟨x0, x1⟩ := xPart_bounds h hh c0
  have hv : h.Tone / 100 ≤ 1 := by
    rw [div_le_iff₀ (by norm_num)]; linarith
  have hm : 0 ≤ h.mPart := by unfold HCT.mPart; linarith
  have hcm : h.cPart + h.mPart ≤ h.Tone / 100 := by unfold HCT.mPart; linarith
  have hxm : h.xPart + h.mPart ≤ h.Tone / 100 := by unfold HCT.mPart; linarith
  have hzm : 0 + h.mPart ≤ h.Tone / 100 := by unfold HCT.mPart; linarith
  have bc := byteRange_of hm c0 hcm hv
  have bx := byteRange_of hm x0 hxm hv
  have bz := byteRange_of hm le_rfl hzm hv
  unfold HCT.castSafe
  rw [channels_eq]
  refine ⟨?_, ?_, ?_, rfl⟩ <;> split_ifs <;> assumption

theorem mem_of_valid {ord : RangeOrder} (hv : ord.Valid) (m : HueMap) (e : ℚ × ℚ) :
    e ∈ ord m ↔ e ∈ m := (hv m).mem_iff

theorem config_chroma_nonneg (ord : RangeOrder) (hv : ord.Valid) (hue : ℚ)
    (variant : SchemeVariant) :
    0 ≤ (makePalette ord hue (variantConfig variant).Primary).chroma ∧
    0 ≤ (makePalette ord hue (variantConfig variant).Secondary).chroma ∧
    0 ≤ (makePalette ord hue (variantConfig variant).Tertiary).chroma ∧
    0 ≤ (makePalette ord hue (variantConfig variant).Neutral).chroma ∧
    0 ≤ (makePalette ord hue (variantConfig variant).NeutralVariant).chroma := by
  unfold variantConfig
  split_ifs
  · simp [makePalette, newTonalPalette]
  · simp [makePalette, newTonalPalette]
  · simp only [makePalette, newTonalPalette]
    refine ⟨?_, by norm_num, by norm_num, by norm_num, by norm_num⟩
    unfold getAdjustedChroma
    rcases scanClosest_mem hue (ord (buildMap neutralHues neutralChromas)) with h0 | ⟨e, he, h0⟩
    · rw [h0]
    · rw [h0]
      rw [mem_of_valid hv, neutralChromaMap_eq] at he
      simp only [neutralChromaTable, List.mem_cons, List.mem_singleton, List.not_mem_nil,
        or_false] at he
      rcases he with rfl | rfl | rfl | rfl <;> norm_num
  · simp [makePalette, newTonalPalette]
  · simp [makePalette, newTonalPalette]

/-! ## Lookups in the literal tables -/

theorem getRotatedHue_scan (ord : RangeOrder) (h : ℚ) (m : HueMap) (hl : m.length ≠ 1) :
    getRotatedHue ord h m = sanitizeDegreesDouble (h + scanClosest h (ord m)) := by
  unfold getRotatedHue
  rw [if_neg hl]

theorem neutral_chroma_lookup (ord : RangeOrder) (hv : ord.Valid) (h : ℚ) (h0 : 0 ≤ h)
    (h1 : h < 360) :
    ∃ e ∈ neutralChromaTable,
      getAdjustedChroma ord h (buildMap neutralHues neutralChromas) = e.2 ∧
      ∀ e' ∈ neutralChromaTable, |h - e.1| ≤ |h - e'.1| := by
  have hex : ∃ e ∈ ord (buildMap neutralHues neutralChromas), |h - e.1| < 360 := by
    refine ⟨(0, 12), ?_, ?_⟩
    · rw [mem_of_valid hv, neutralChromaMap_eq]; simp [neutralChromaTable]
    · simp only [sub_zero]; rw [abs_of_nonneg h0]; exact h1
  obtain ⟨e, he, heq, hmin⟩ := scanClosest_spec h _ hex
  rw [mem_of_valid hv, neutralChromaMap_eq] at he
  refine ⟨e, he, heq, ?_⟩
  intro e' he'
  apply hmin
  rw [mem_of_valid hv, neutralChromaMap_eq]
  exact he'

theorem vibrant_secondary_lookup (ord : RangeOrder) (hv : ord.Valid) (h : ℚ) (h0 : 0 ≤ h)
    (h1 : h < 360) :
    ∃ e ∈ vibrantSecondaryTable,
      (∀ e' ∈ vibrantSecondaryTable, |h - e.1| ≤ |h - e'.1|) ∧
      getRotatedHue ord h (buildMap vibrantHues vibrantSecondaryRotations) =
        sanitizeDegreesDouble (h + e.2) := by
  have hl : (buildMap vibrantHues vibrantSecondaryRotations).length ≠ 1 := by
    rw [vibrantSecondaryMap_eq]; decide
  have hex : ∃ e ∈ ord (buildMap vibrantHues vibrantSecondaryRotations), |h - e.1| < 360 := by
    refine ⟨(0, 18), ?_, ?_⟩
    · rw [mem_of_valid hv, vibrantSecondaryMap_eq]; simp [vibrantSecondaryTable]
    · simp only [sub_zero]; rw [abs_of_nonneg h0]; exact h1
  obtain ⟨e, he, heq, hmin⟩ := scanClosest_spec h _ hex
  rw [mem_of_valid hv, vibrantSecondaryMap_eq] at he
  refine ⟨e, he, ?_, ?_⟩
  · intro e' he'
    apply hmin
    rw [mem_of_valid hv, vibrantSecondaryMap_eq]
    exact he'
  · rw [getRotatedHue_scan ord h _ hl, heq]

/-! ## Concrete seeds and orders -/

theorem id_valid : RangeOrder.Valid id := fun m => List.Perm.refl m

theorem seed_hue_sanitize (r g b : ℕ) :
    sanitizeDegreesDouble ((RGBToHCT r g b).Hue + 0) = (RGBToHCT r g b).Hue := by
  rw [add_zero]
  exact sanitize_of_range (RGBToHCT_hue_range r g b).1 (RGBToHCT_hue_range r g b).2

theorem RGBToHCT_gray_one : RGBToHCT 1 1 1 = ⟨0, 0, 100 / 255⟩ := by
  rw [RGBToHCT_eq_unit, unit_gray]
  norm_num

theorem RGBToHCT_sample_hue : (RGBToHCT 240 0 255).Hue = 5040 / 17 := by
  rw [RGBToHCT_eq_unit, unit_blue_up (by norm_num) (by norm_num)]
  norm_num

theorem seed_hue_fixed (seedColor : RGBA) (ord : RangeOrder) (c : ℚ) :
    makePalette ord (RGBToHCT seedColor.R seedColor.G seedColor.B).Hue { Chroma := c } =
      { hue := (RGBToHCT seedColor.R seedColor.G seedColor.B).Hue, chroma := c } := by
  show ({ hue := sanitizeDegreesDouble ((RGBToHCT seedColor.R seedColor.G seedColor.B).Hue + 0),
          chroma := c } : TonalPalette) = _
  rw [seed_hue_sanitize]

/-! ## The claims -/

/-- In exact arithmetic, without the rounding of `float64`, the hue of each of
the five derived palettes lies in `[0,360)`, for every seed colour, every
variant value and every order of the map loops. -/
theorem exact_derived_hues_in_range (ord : RangeOrder) (seedColor : RGBA)
    (variant : SchemeVariant) :
    (0 ≤ (GenerateChromePalette ord seedColor variant).Primary.hue ∧
      (GenerateChromePalette ord seedColor variant).Primary.hue < 360) ∧
    (0 ≤ (GenerateChromePalette ord seedColor variant).Secondary.hue ∧
      (GenerateChromePalette ord seedColor variant).Secondary.hue < 360) ∧
    (0 ≤ (GenerateChromePalette ord seedColor variant).Tertiary.hue ∧
      (GenerateChromePalette ord seedColor variant).Tertiary.hue < 360) ∧
    (0 ≤ (GenerateChromePalette ord seedColor variant).Neutral.hue ∧
      (GenerateChromePalette ord seedColor variant).Neutral.hue < 360) ∧
    (0 ≤ (GenerateChromePalette ord seedColor variant).NeutralVariant.hue ∧
      (GenerateChromePalette ord seedColor variant).NeutralVariant.hue < 360) := by
  unfold GenerateChromePalette
  exact ⟨makePalette_hue_range _ _ _, makePalette_hue_range _ _ _, makePalette_hue_range _ _ _,
    makePalette_hue_range _ _ _, makePalette_hue_range _ _ _⟩

/-- C2: for every seed colour and every variant value, named or not, the Error
palette returned by `GenerateChromePalette` is exactly hue 25, chroma 84. -/
theorem C2_error_palette_fixed (ord : RangeOrder) (seedColor : RGBA) (variant : SchemeVariant) :
    (GenerateChromePalette ord seedColor variant).Error = { hue := 25, chroma := 84 } := rfl

/-- In exact arithmetic, without the rounding of `float64`, the values that
`ToRGB` converts to bytes after `RGBToHCT` are exactly the original channels,
so the exact round trip returns the original colour with alpha 255. -/
theorem exact_round_trip (r g b : ℕ) (hr : r < 256) (hg : g < 256) (hb : b < 256) :
    (RGBToHCT r g b).channels = ((r : ℚ), (g : ℚ), (b : ℚ)) ∧
      (RGBToHCT r g b).ToRGB = { R := r, G := g, B := b, A := 255 } := by
  have hc : (RGBToHCT r g b).channels =
      ((r : ℚ) / 255 * 255, (g : ℚ) / 255 * 255, (b : ℚ) / 255 * 255) := by
    rw [RGBToHCT_eq_unit]
    exact unit_roundtrip (by positivity) (by positivity) (by positivity)
  constructor
  · rw [hc]; ext <;> simp
  · unfold HCT.ToRGB
    simp only [hc]
    rw [toUint8_natCast_mul r hr, toUint8_natCast_mul g hg, toUint8_natCast_mul b hb]

/-- C4: for every 8-bit RGB triple the result of `RGBToHCT` has hue in
`[0,360)`, chroma in `[0,120]` and tone in `[0,100]`, where the tone is
`100 * max / 255` and the chroma is `120 * (max - min) / max`, or `0` when the
largest channel is `0`. -/
theorem C4_hct_ranges (r g b : ℕ) (hr : r < 256) (hg : g < 256) (hb : b < 256) :
    (0 ≤ (RGBToHCT r g b).Hue ∧ (RGBToHCT r g b).Hue < 360) ∧
    (0 ≤ (RGBToHCT r g b).Chroma ∧ (RGBToHCT r g b).Chroma ≤ 120) ∧
    (0 ≤ (RGBToHCT r g b).Tone ∧ (RGBToHCT r g b).Tone ≤ 100) ∧
    (RGBToHCT r g b).Tone = 100 * ((max r (max g b) : ℕ) : ℚ) / 255 ∧
    (RGBToHCT r g b).Chroma =
      (if max r (max g b) = 0 then 0
       else 120 * (((max r (max g b) : ℕ) : ℚ) - ((min r (min g b) : ℕ) : ℚ)) /
         ((max r (max g b) : ℕ) : ℚ)) := by
  have hT : (RGBToHCT r g b).Tone = 100 * ((max r (max g b) : ℕ) : ℚ) / 255 := by
    rw [RGBToHCT_eq_unit, unit_tone, unit_max_cast]; ring
  have hC : (RGBToHCT r g b).Chroma =
      120 * (((max r (max g b) : ℕ) : ℚ) - ((min r (min g b) : ℕ) : ℚ)) /
         ((max r (max g b) : ℕ) : ℚ) := by
    rw [RGBToHCT_eq_unit, unit_chroma, unit_max_cast, unit_min_cast]
    by_cases h0 : ((max r (max g b) : ℕ) : ℚ) = 0
    · rw [h0]; simp
    · field_simp
      ring
  have hM : max r (max g b) < 256 := by omega
  have hmM : min r (min g b) ≤ max r (max g b) := by omega
  have hMq : ((max r (max g b) : ℕ) : ℚ) ≤ 255 := by
    have : max r (max g b) ≤ 255 := by omega
    exact_mod_cast this
  have hmq : ((min r (min g b) : ℕ) : ℚ) ≤ ((max r (max g b) : ℕ) : ℚ) := by
    exact_mod_cast hmM
  have hm0 : (0 : ℚ) ≤ ((min r (min g b) : ℕ) : ℚ) := Nat.cast_nonneg _
  have hM0 : (0 : ℚ) ≤ ((max r (max g b) : ℕ) : ℚ) := Nat.cast_nonneg _
  refine ⟨RGBToHCT_hue_range r g b, ⟨?_, ?_⟩, ⟨?_, ?_⟩, hT, ?_⟩
  · rw [hC]
    apply div_nonneg _ hM0
    linarith
  · rw [hC]
    rcases eq_or_lt_of_le hM0 with h0 | h0
    · rw [← h0]; simp
    · rw [div_le_iff₀ h0]; linarith
  · rw [hT]
    apply div_nonneg _ (by norm_num)
    linarith
  · rw [hT, div_le_iff₀ (by norm_num)]
    linarith
  · rw [hC]
    split_ifs with h0
    · rw [h0]; simp
    · rfl

theorem C4_hct_ranges_witness :
    (0 ≤ (RGBToHCT 28 32 39).Hue ∧ (RGBToHCT 28 32 39).Hue < 360) ∧
    (0 ≤ (RGBToHCT 28 32 39).Chroma ∧ (RGBToHCT 28 32 39).Chroma ≤ 120) ∧
    (0 ≤ (RGBToHCT 28 32 39).Tone ∧ (RGBToHCT 28 32 39).Tone ≤ 100) ∧
    (RGBToHCT 28 32 39).Tone = 100 * ((max 28 (max 32 39) : ℕ) : ℚ) / 255 ∧
    (RGBToHCT 28 32 39).Chroma =
      (if max 28 (max 32 39) = 0 then 0
       else 120 * (((max 28 (max 32 39) : ℕ) : ℚ) - ((min 28 (min 32 39) : ℕ) : ℚ)) /
         ((max 28 (max 32 39) : ℕ) : ℚ)) :=
  C4_hct_ranges 28 32 39 (by decide) (by decide) (by decide)
/-- C5: for every HCT value with hue in `[0,360]`, non-negative chroma and tone
in `[0,100]`, each of the three values that `ToRGB` converts to `uint8` lies
in `[0,255]` and the alpha is 255; hence the same holds for `Tone t` of each of
the six generated palettes and every integer `t` in `0..100`. -/
theorem C5_casts_within_byte_range (h : HCT) (hh0 : 0 ≤ h.Hue) (_hh1 : h.Hue ≤ 360)
    (hc : 0 ≤ h.Chroma) (ht0 : 0 ≤ h.Tone) (ht1 : h.Tone ≤ 100)
    (ord : RangeOrder) (hv : ord.Valid) (seedColor : RGBA) (variant : SchemeVariant)
    (t : ℤ) (t0 : 0 ≤ t) (t1 : t ≤ 100) :
    (byteRange h.channels.1 ∧ byteRange h.channels.2.1 ∧ byteRange h.channels.2.2 ∧
      h.ToRGB.A = 255) ∧
    ∀ p ∈ [(GenerateChromePalette ord seedColor variant).Primary,
        (GenerateChromePalette ord seedColor variant).Secondary,
        (GenerateChromePalette ord seedColor variant).Tertiary,
        (GenerateChromePalette ord seedColor variant).Neutral,
        (GenerateChromePalette ord seedColor variant).NeutralVariant,
        (GenerateChromePalette ord seedColor variant).Error],
      HCT.castSafe { Hue := p.hue, Chroma := p.chroma, Tone := (t : ℚ) } ∧
        (p.Tone t).A = 255 := by
  have tq0 : (0 : ℚ) ≤ (t : ℚ) := by exact_mod_cast t0
  have tq1 : (t : ℚ) ≤ 100 := by exact_mod_cast t1
  refine ⟨castSafe_of_ranges h hh0 hc ht0 ht1, ?_⟩
  have key : ∀ p : TonalPalette, 0 ≤ p.hue → 0 ≤ p.chroma →
      HCT.castSafe { Hue := p.hue, Chroma := p.chroma, Tone := (t : ℚ) } ∧
        (p.Tone t).A = 255 := by
    intro p ph pc
    exact ⟨castSafe_of_ranges _ ph pc tq0 tq1, rfl⟩
  obtain ⟨c1, c2, c3, c4, c5⟩ :=
    config_chroma_nonneg ord hv (RGBToHCT seedColor.R seedColor.G seedColor.B).Hue variant
  intro p hp
  simp only [List.mem_cons, List.mem_singleton, List.not_mem_nil, or_false] at hp
  rcases hp with rfl | rfl | rfl | rfl | rfl | rfl
  · exact key _ (makePalette_hue_range _ _ _).1 c1
  · exact key _ (makePalette_hue_range _ _ _).1 c2
  · exact key _ (makePalette_hue_range _ _ _).1 c3
  · exact key _ (makePalette_hue_range _ _ _).1 c4
  · exact key _ (makePalette_hue_range _ _ _).1 c5
  · apply key
    · show (0 : ℚ) ≤ 25
      norm_num
    · show (0 : ℚ) ≤ 84
      norm_num

theorem C5_casts_within_byte_range_witness :
    (byteRange (HCT.channels ⟨360, 200, 100⟩).1 ∧ byteRange (HCT.channels ⟨360, 200, 100⟩).2.1 ∧
      byteRange (HCT.channels ⟨360, 200, 100⟩).2.2 ∧ (HCT.ToRGB ⟨360, 200, 100⟩).A = 255) ∧
    ∀ p ∈ [(GenerateChromePalette id ⟨28, 32, 39, 255⟩ Neutral).Primary,
        (GenerateChromePalette id ⟨28, 32, 39, 255⟩ Neutral).Secondary,
        (GenerateChromePalette id ⟨28, 32, 39, 255⟩ Neutral).Tertiary,
        (GenerateChromePalette id ⟨28, 32, 39, 255⟩ Neutral).Neutral,
        (GenerateChromePalette id ⟨28, 32, 39, 255⟩ Neutral).NeutralVariant,
        (GenerateChromePalette id ⟨28, 32, 39, 255⟩ Neutral).Error],
      HCT.castSafe { Hue := p.hue, Chroma := p.chroma, Tone := ((40 : ℤ) : ℚ) } ∧
        (p.Tone 40).A = 255 :=
  C5_casts_within_byte_range ⟨360, 200, 100⟩ (by norm_num) (by norm_num) (by norm_num)
    (by norm_num) (by norm_num) id (fun m => List.Perm.refl m) ⟨28, 32, 39, 255⟩ Neutral 40
    (by decide) (by decide)

/-- C6: for every source hue in `[0,360)` and the Vibrant secondary rotation
table, `getRotatedHue` returns `sanitize (h + rot)` where `rot` is the rotation
of a table entry whose plain absolute distance to `h` is minimal over all nine
entries, whatever order the map is visited in; source hue 101 gives 113 and
source hue 90 gives 102. -/
theorem C6_nearest_breakpoint_rotation (ord : RangeOrder) (hv : ord.Valid) (h : ℚ)
    (h0 : 0 ≤ h) (h1 : h < 360) :
    (∃ e ∈ vibrantSecondaryTable,
      (∀ e' ∈ vibrantSecondaryTable, |h - e.1| ≤ |h - e'.1|) ∧
      getRotatedHue ord h (buildMap vibrantHues vibrantSecondaryRotations) =
        sanitizeDegreesDouble (h + e.2)) ∧
    getRotatedHue ord 101 (buildMap vibrantHues vibrantSecondaryRotations) = 113 ∧
    getRotatedHue ord 90 (buildMap vibrantHues vibrantSecondaryRotations) = 102 := by
  refine ⟨vibrant_secondary_lookup ord hv h h0 h1, ?_, ?_⟩
  · obtain ⟨e, he, hmin, heq⟩ := vibrant_secondary_lookup ord hv 101 (by norm_num) (by norm_num)
    have hm := hmin (101, 12) (by simp [vibrantSecondaryTable])
    have h12 : e.2 = 12 := by
      simp only [vibrantSecondaryTable, List.mem_cons, List.mem_singleton, List.not_mem_nil,
        or_false] at he
      rcases he with rfl | rfl | rfl | rfl | rfl | rfl | rfl | rfl | rfl <;>
        first
          | rfl
          | (exfalso; norm_num at hm)
    rw [heq, h12, sanitize_of_range (by norm_num) (by norm_num)]
    norm_num
  · obtain ⟨e, he, hmin, heq⟩ := vibrant_secondary_lookup ord hv 90 (by norm_num) (by norm_num)
    have hm := hmin (101, 12) (by simp [vibrantSecondaryTable])
    have h12 : e.2 = 12 := by
      simp only [vibrantSecondaryTable, List.mem_cons, List.mem_singleton, List.not_mem_nil,
        or_false] at he
      rcases he with rfl | rfl | rfl | rfl | rfl | rfl | rfl | rfl | rfl <;>
        first
          | rfl
          | (exfalso; norm_num at hm)
    rw [heq, h12, sanitize_of_range (by norm_num) (by norm_num)]
    norm_num

theorem C6_nearest_breakpoint_rotation_witness :
    (∃ e ∈ vibrantSecondaryTable,
      (∀ e' ∈ vibrantSecondaryTable, |(200 : ℚ) - e.1| ≤ |(200 : ℚ) - e'.1|) ∧
      getRotatedHue List.reverse 200 (buildMap vibrantHues vibrantSecondaryRotations) =
        sanitizeDegreesDouble (200 + e.2)) ∧
    getRotatedHue List.reverse 101 (buildMap vibrantHues vibrantSecondaryRotations) = 113 ∧
    getRotatedHue List.reverse 90 (buildMap vibrantHues vibrantSecondaryRotations) = 102 :=
  C6_nearest_breakpoint_rotation List.reverse (fun m => List.reverse_perm m) 200
    (by norm_num) (by norm_num)

/-- C7: for every seed with base hue `h` and variant Neutral, the Primary
palette has hue `h` and the chroma of a nearest entry of the table
0,260,315,360 → 12,12,20,12: chroma 20 when `287.5 < h < 337.5` and chroma 12
when `h < 287.5` or `h > 337.5`, whatever order the map is visited in; the
other four palettes are `(h,8)`, `(h,16)`, `(h,2)`, `(h,2)`. -/
theorem C7_neutral_variant_palettes (ord : RangeOrder) (hv : ord.Valid) (seedColor : RGBA) :
    (GenerateChromePalette ord seedColor Neutral).Primary.hue =
      (RGBToHCT seedColor.R seedColor.G seedColor.B).Hue ∧
    (∃ e ∈ neutralChromaTable,
      (GenerateChromePalette ord seedColor Neutral).Primary.chroma = e.2 ∧
      ∀ e' ∈ neutralChromaTable,
        |(RGBToHCT seedColor.R seedColor.G seedColor.B).Hue - e.1| ≤
          |(RGBToHCT seedColor.R seedColor.G seedColor.B).Hue - e'.1|) ∧
    (575 / 2 < (RGBToHCT seedColor.R seedColor.G seedColor.B).Hue ∧
        (RGBToHCT seedColor.R seedColor.G seedColor.B).Hue < 675 / 2 →
      (GenerateChromePalette ord seedColor Neutral).Primary.chroma = 20) ∧
    ((RGBToHCT seedColor.R seedColor.G seedColor.B).Hue < 575 / 2 ∨
        675 / 2 < (RGBToHCT seedColor.R seedColor.G seedColor.B).Hue →
      (GenerateChromePalette ord seedColor Neutral).Primary.chroma = 12) ∧
    (GenerateChromePalette ord seedColor Neutral).Secondary =
      { hue := (RGBToHCT seedColor.R seedColor.G seedColor.B).Hue, chroma := 8 } ∧
    (GenerateChromePalette ord seedColor Neutral).Tertiary =
      { hue := (RGBToHCT seedColor.R seedColor.G seedColor.B).Hue, chroma := 16 } ∧
    (GenerateChromePalette ord seedColor Neutral).Neutral =
      { hue := (RGBToHCT seedColor.R seedColor.G seedColor.B).Hue, chroma := 2 } ∧
    (GenerateChromePalette ord seedColor Neutral).NeutralVariant =
      { hue := (RGBToHCT seedColor.R seedColor.G seedColor.B).Hue, chroma := 2 } := by
  obtain ⟨hu0, hu1⟩ := RGBToHCT_hue_range seedColor.R seedColor.G seedColor.B
  have hP : (GenerateChromePalette ord seedColor Neutral).Primary.chroma =
      getAdjustedChroma ord (RGBToHCT seedColor.R seedColor.G seedColor.B).Hue
        (buildMap neutralHues neutralChromas) := rfl
  obtain ⟨e, he, heq, hmin⟩ := neutral_chroma_lookup ord hv _ hu0 hu1
  have m0 := hmin (0, 12) (by simp [neutralChromaTable])
  have m260 := hmin (260, 12) (by simp [neutralChromaTable])
  have m315 := hmin (315, 20) (by simp [neutralChromaTable])
  have m360 := hmin (360, 12) (by simp [neutralChromaTable])
  simp only at m0 m260 m315 m360
  refine ⟨?_, ⟨e, he, hP.trans heq, hmin⟩, ?_, ?_, seed_hue_fixed seedColor ord 8,
    seed_hue_fixed seedColor ord 16, seed_hue_fixed seedColor ord 2,
    seed_hue_fixed seedColor ord 2⟩
  · show sanitizeDegreesDouble ((RGBToHCT seedColor.R seedColor.G seedColor.B).Hue + 0) = _
    exact seed_hue_sanitize _ _ _
  · rintro ⟨a, b⟩
    rw [hP, heq]
    simp only [neutralChromaTable, List.mem_cons, List.mem_singleton, List.not_mem_nil,
      or_false] at he
    rcases he with rfl | rfl | rfl | rfl
    · exfalso
      simp only at m315
      rcases abs_cases ((RGBToHCT seedColor.R seedColor.G seedColor.B).Hue - 0) with
        ⟨p, _⟩ | ⟨p, _⟩ <;>
      rcases abs_cases ((RGBToHCT seedColor.R seedColor.G seedColor.B).Hue - 315) with
        ⟨q, _⟩ | ⟨q, _⟩ <;> linarith
    · exfalso
      simp only at m315
      rcases abs_cases ((RGBToHCT seedColor.R seedColor.G seedColor.B).Hue - 260) with
        ⟨p, _⟩ | ⟨p, _⟩ <;>
      rcases abs_cases ((RGBToHCT seedColor.R seedColor.G seedColor.B).Hue - 315) with
        ⟨q, _⟩ | ⟨q, _⟩ <;> linarith
    · rfl
    · exfalso
      simp only at m315
      rcases abs_cases ((RGBToHCT seedColor.R seedColor.G seedColor.B).Hue - 360) with
        ⟨p, _⟩ | ⟨p, _⟩ <;>
      rcases abs_cases ((RGBToHCT seedColor.R seedColor.G seedColor.B).Hue - 315) with
        ⟨q, _⟩ | ⟨q, _⟩ <;> linarith
  · intro hcase
    rw [hP, heq]
    simp only [neutralChromaTable, List.mem_cons, List.mem_singleton, List.not_mem_nil,
      or_false] at he
    rcases he with rfl | rfl | rfl | rfl
    · rfl
    · rfl
    · exfalso
      simp only at m260 m360
      rcases hcase with hcase | hcase
      · rcases abs_cases ((RGBToHCT seedColor.R seedColor.G seedColor.B).Hue - 260) with
          ⟨p, _⟩ | ⟨p, _⟩ <;>
        rcases abs_cases ((RGBToHCT seedColor.R seedColor.G seedColor.B).Hue - 315) with
          ⟨q, _⟩ | ⟨q, _⟩ <;> linarith
      · rcases abs_cases ((RGBToHCT seedColor.R seedColor.G seedColor.B).Hue - 360) with
          ⟨p, _⟩ | ⟨p, _⟩ <;>
        rcases abs_cases ((RGBToHCT seedColor.R seedColor.G seedColor.B).Hue - 315) with
          ⟨q, _⟩ | ⟨q, _⟩ <;> linarith
    · rfl

theorem C7_neutral_variant_palettes_witness :
    RangeOrder.Valid List.reverse ∧
    (GenerateChromePalette List.reverse ⟨240, 0, 255, 255⟩ Neutral).Primary.chroma = 20 ∧
    (GenerateChromePalette List.reverse ⟨28, 32, 39, 255⟩ Neutral).Primary.chroma = 12 :=
  ⟨fun m => List.reverse_perm m,
    (C7_neutral_variant_palettes List.reverse (fun m => List.reverse_perm m)
      ⟨240, 0, 255, 255⟩).2.2.1
      (by rw [RGBToHCT_sample_hue]; norm_num),
    (C7_neutral_variant_palettes List.reverse (fun m => List.reverse_perm m)
      ⟨28, 32, 39, 255⟩).2.2.2.1
      (by
        left
        show (RGBToHCT 28 32 39).Hue < 575 / 2
        rw [RGBToHCT_eq_unit, unit_blue_down (by norm_num) (by norm_num)]
        norm_num)⟩

/-- C8: for every seed with base hue `h` and variant TonalSpot the palettes are
Primary `(h,40)`, Secondary `(h,16)`, Tertiary `(sanitize (h + 60), 24)`,
Neutral `(h,6)`, NeutralVariant `(h,8)`; the gray seed `(1,1,1)` has base
chroma 0 and still yields Primary `(0,40)` and Tertiary hue 60. -/
theorem C8_tonal_spot_palettes (ord : RangeOrder) (seedColor : RGBA) :
    (GenerateChromePalette ord seedColor TonalSpot).Primary =
      { hue := (RGBToHCT seedColor.R seedColor.G seedColor.B).Hue, chroma := 40 } ∧
    (GenerateChromePalette ord seedColor TonalSpot).Secondary =
      { hue := (RGBToHCT seedColor.R seedColor.G seedColor.B).Hue, chroma := 16 } ∧
    (GenerateChromePalette ord seedColor TonalSpot).Tertiary =
      { hue := sanitizeDegreesDouble ((RGBToHCT seedColor.R seedColor.G seedColor.B).Hue + 60),
        chroma := 24 } ∧
    (GenerateChromePalette ord seedColor TonalSpot).Neutral =
      { hue := (RGBToHCT seedColor.R seedColor.G seedColor.B).Hue, chroma := 6 } ∧
    (GenerateChromePalette ord seedColor TonalSpot).NeutralVariant =
      { hue := (RGBToHCT seedColor.R seedColor.G seedColor.B).Hue, chroma := 8 } ∧
    (RGBToHCT 1 1 1).Chroma = 0 ∧
    (GenerateChromePalette ord ⟨1, 1, 1, 255⟩ TonalSpot).Primary = { hue := 0, chroma := 40 } ∧
    (GenerateChromePalette ord ⟨1, 1, 1, 255⟩ TonalSpot).Tertiary = { hue := 60, chroma := 24 } := by
  refine ⟨seed_hue_fixed seedColor ord 40, seed_hue_fixed seedColor ord 16, rfl,
    seed_hue_fixed seedColor ord 6, seed_hue_fixed seedColor ord 8, ?_, ?_, ?_⟩
  · rw [RGBToHCT_gray_one]
  · calc (GenerateChromePalette ord ⟨1, 1, 1, 255⟩ TonalSpot).Primary
        = { hue := (RGBToHCT 1 1 1).Hue, chroma := 40 } := seed_hue_fixed ⟨1, 1, 1, 255⟩ ord 40
      _ = { hue := 0, chroma := 40 } := by rw [RGBToHCT_gray_one]
  · show ({ hue := sanitizeDegreesDouble ((RGBToHCT 1 1 1).Hue + 60), chroma := 24 } :
      TonalPalette) = _
    rw [RGBToHCT_gray_one]
    simp only [zero_add]
    rw [sanitize_of_range (by norm_num) (by norm_num)]

/-- C9: for every seed with base hue `h` and variant Expressive the Primary
palette is `(sanitize (h - 90), 40)`, whose hue is `h - 90` when `h ≥ 90` and
`h + 270` when `h < 90`; Neutral and NeutralVariant are `(h,8)` and `(h,12)`. -/
theorem C9_expressive_palettes (ord : RangeOrder) (seedColor : RGBA) :
    (GenerateChromePalette ord seedColor Expressive).Primary =
      { hue := sanitizeDegreesDouble ((RGBToHCT seedColor.R seedColor.G seedColor.B).Hue - 90),
        chroma := 40 } ∧
    (GenerateChromePalette ord seedColor Expressive).Primary.hue =
      (if 90 ≤ (RGBToHCT seedColor.R seedColor.G seedColor.B).Hue
       then (RGBToHCT seedColor.R seedColor.G seedColor.B).Hue - 90
       else (RGBToHCT seedColor.R seedColor.G seedColor.B).Hue + 270) ∧
    (GenerateChromePalette ord seedColor Expressive).Neutral =
      { hue := (RGBToHCT seedColor.R seedColor.G seedColor.B).Hue, chroma := 8 } ∧
    (GenerateChromePalette ord seedColor Expressive).NeutralVariant =
      { hue := (RGBToHCT seedColor.R seedColor.G seedColor.B).Hue, chroma := 12 } := by
  obtain ⟨hu0, hu1⟩ := RGBToHCT_hue_range seedColor.R seedColor.G seedColor.B
  have hP : (GenerateChromePalette ord seedColor Expressive).Primary =
      { hue := sanitizeDegreesDouble
          ((RGBToHCT seedColor.R seedColor.G seedColor.B).Hue + (-90)),
        chroma := 40 } := rfl
  have e : (RGBToHCT seedColor.R seedColor.G seedColor.B).Hue + (-90) =
      (RGBToHCT seedColor.R seedColor.G seedColor.B).Hue - 90 := by ring
  rw [e] at hP
  refine ⟨hP, ?_, seed_hue_fixed seedColor ord 8, seed_hue_fixed seedColor ord 12⟩
  rw [hP]
  simp only
  split_ifs with h90
  · exact sanitize_of_range (by linarith) (by linarith)
  · rw [sanitize_of_neg (by linarith) (by linarith)]
    ring

/-- C10: when the hue→chroma table of a Transform is present, the chroma
produced by `makePalette` is the table lookup and is the same for every value
of the fixed `Chroma` field; when the hue→rotation table is present, the hue
produced is the table-rotated hue and is the same for every value of the fixed
`HueRotation` field.  The arguments of `Transform.mk` are `HueRotation`,
`Chroma`, `HuesToRotations`, `HuesToChroma`. -/
theorem C10_tables_take_precedence (ord : RangeOrder) (hue rot rot2 c c2 : ℚ)
    (rotations chromas : Option HueMap) (m : HueMap) :
    ((makePalette ord hue (Transform.mk rot c rotations (some m))).chroma =
        getAdjustedChroma ord hue m ∧
      (makePalette ord hue (Transform.mk rot c rotations (some m))).chroma =
        (makePalette ord hue (Transform.mk rot c2 rotations (some m))).chroma) ∧
    ((makePalette ord hue (Transform.mk rot c (some m) chromas)).hue =
        getRotatedHue ord hue m ∧
      (makePalette ord hue (Transform.mk rot c (some m) chromas)).hue =
        (makePalette ord hue (Transform.mk rot2 c (some m) chromas)).hue) :=
  ⟨⟨rfl, rfl⟩, ⟨rfl, rfl⟩⟩

/-! ## Table precedence and single-entry tables -/

theorem getRotatedHue_single (ord : RangeOrder) (hv : ord.Valid) (h k rot : ℚ) :
    getRotatedHue ord h [(k, rot)] = sanitizeDegreesDouble (h + rot) := by
  have e : ord [(k, rot)] = [(k, rot)] := List.perm_singleton.mp (hv _)
  unfold getRotatedHue
  rw [e]
  rfl

theorem scanClosest_single (h k v : ℚ) :
    scanClosest h [(k, v)] = if |h - k| < 360 then v else 0 := by
  unfold scanClosest
  simp only [List.foldl_cons, List.foldl_nil, scanStep]
  split_ifs <;> rfl

theorem scanClosest_neutral_250 : scanClosest 250 neutralChromaTable = 12 := by
  norm_num [scanClosest, neutralChromaTable, scanStep, List.foldl, abs_of_nonneg, abs_of_neg]

theorem scanClosest_neutral_310 : scanClosest 310 neutralChromaTable = 20 := by
  norm_num [scanClosest, neutralChromaTable, scanStep, List.foldl, abs_of_nonneg, abs_of_neg]

/-- C11: when a Transform has both tables, the chroma produced by `makePalette`
is the chroma lookup at the original seed hue, not at the rotated hue; for
seed hue 250, the one-entry rotation table 0 → 60 and the Neutral chroma
table the result is 12, while the lookup at the rotated hue 310 gives 20.
The arguments of `Transform.mk` are `HueRotation`, `Chroma`,
`HuesToRotations`, `HuesToChroma`. -/
theorem C11_chroma_lookup_uses_seed_hue (ord : RangeOrder) (hue rot c : ℚ)
    (rotations chromas : HueMap) :
    (makePalette ord hue (Transform.mk rot c (some rotations) (some chromas))).chroma =
      getAdjustedChroma ord hue chromas ∧
    (makePalette id 250 (Transform.mk 0 0 (some [(0, 60)]) (some neutralChromaTable))).chroma
      = 12 ∧
    getRotatedHue id 250 [(0, 60)] = 310 ∧
    getAdjustedChroma id (getRotatedHue id 250 [(0, 60)]) neutralChromaTable = 20 := by
  have hrot : getRotatedHue id 250 [(0, 60)] = 310 := by
    rw [getRotatedHue_single id id_valid, sanitize_of_range (by norm_num) (by norm_num)]
    norm_num
  refine ⟨rfl, ?_, hrot, ?_⟩
  · show scanClosest 250 neutralChromaTable = 12
    exact scanClosest_neutral_250
  · rw [hrot]
    exact scanClosest_neutral_310

/-- C12: on source hue 0 and the one-entry chroma table 360 → 20,
`getAdjustedChroma` returns the zero default instead of 20, because the
distance 360 is not below the initial `minDiff`; `getRotatedHue` on the same
one-entry table does use its entry. -/
theorem C12_single_entry_chroma_default :
    getAdjustedChroma id 0 [(360, 20)] = 0 ∧
      getRotatedHue id 0 [(360, 20)] = sanitizeDegreesDouble (0 + 20) := by
  constructor
  · show scanClosest 0 [(360, 20)] = 0
    rw [scanClosest_single]
    norm_num
  · exact getRotatedHue_single id id_valid 0 360 20

/-- C13: for every source hue and every rotation table with exactly one
entry, `getRotatedHue` returns `sanitize (h + rot)`, whatever the distance
between the source hue and the reference hue. -/
theorem C13_single_entry_rotation (ord : RangeOrder) (hv : ord.Valid) (h refHue rot : ℚ) :
    getRotatedHue ord h [(refHue, rot)] = sanitizeDegreesDouble (h + rot) :=
  getRotatedHue_single ord hv h refHue rot

theorem C13_single_entry_rotation_witness :
    RangeOrder.Valid List.reverse ∧
      getRotatedHue List.reverse 0 [(1000, 45)] = sanitizeDegreesDouble (0 + 45) :=
  ⟨fun m => List.reverse_perm m,
    C13_single_entry_rotation List.reverse (fun m => List.reverse_perm m) 0 1000 45⟩

/-! ## Edge cases of the converter -/

theorem divChecked_of_ne (a : ℚ) {b : ℚ} (hb : b ≠ 0) : divChecked a b = some (a / b) := by
  unfold divChecked
  rw [if_neg hb]

theorem RGBToHCTChecked_eq (r g b : ℕ) : RGBToHCTChecked r g b = some (RGBToHCT r g b) := by
  unfold RGBToHCTChecked RGBToHCT
  simp only [divChecked_of_ne _ (show (255 : ℚ) ≠ 0 by norm_num), Option.bind_eq_bind,
    Option.some_bind, Option.pure_def]
  generalize (r : ℚ) / 255 = rf
  generalize (g : ℚ) / 255 = gf
  generalize (b : ℚ) / 255 = bf
  generalize max rf (max gf bf) = M
  generalize M - min rf (min gf bf) = d
  by_cases hd : d = 0 <;> by_cases hm : M = 0
  · rw [if_pos hd, if_neg (not_not.mpr hm), if_pos hd, if_neg (not_not.mpr hm)]
  · rw [if_pos hd, if_pos hm, if_pos hd, if_pos hm, divChecked_of_ne _ hm]
    rfl
  · rw [if_neg hd, if_neg hd, if_neg (not_not.mpr hm)]
    simp only [divChecked_of_ne _ hd, Option.map_some', Option.some_bind,
      if_neg (not_not.mpr hm)]
    split_ifs <;> rfl
  · rw [if_neg hd, if_neg hd, if_pos hm]
    simp only [divChecked_of_ne _ hd, divChecked_of_ne _ hm, Option.map_some',
      Option.some_bind, if_pos hm]
    split_ifs <;> rfl

theorem RGBToHCT_gray (v : ℕ) : RGBToHCT v v v = ⟨0, 0, 100 * (v : ℚ) / 255⟩ := by
  rw [RGBToHCT_eq_unit, unit_gray]
  congr 1
  ring

/-- C14: for every gray input `r = g = b = v` the result of `RGBToHCT` has hue
0, chroma 0 and tone `100 * v / 255`; for `(0,0,0)` the chroma is 0; and on
every input the run of `RGBToHCT` with checked divisions meets no zero divisor
and returns the same value. -/
theorem C14_no_division_by_zero (v r g b : ℕ) :
    RGBToHCT v v v = { Hue := 0, Chroma := 0, Tone := 100 * (v : ℚ) / 255 } ∧
    (RGBToHCT 0 0 0).Chroma = 0 ∧
    RGBToHCTChecked r g b = some (RGBToHCT r g b) := by
  refine ⟨RGBToHCT_gray v, ?_, RGBToHCTChecked_eq r g b⟩
  rw [RGBToHCT_gray]

theorem xPart_at_360 (ch t : ℚ) : HCT.xPart ⟨360, ch, t⟩ = 0 := by
  unfold HCT.xPart
  have e : fmod ((360 : ℚ) / 60) 2 = 0 := by
    have := fmod_of_nonneg (x := (360 : ℚ) / 60) (y := 2) 3 (by norm_num) (by norm_num)
      (by norm_num) (by norm_num)
    rw [this]; norm_num
  simp only [e]
  norm_num

theorem xPart_at_0 (ch t : ℚ) : HCT.xPart ⟨0, ch, t⟩ = 0 := by
  unfold HCT.xPart
  have e : fmod ((0 : ℚ) / 60) 2 = 0 := by
    rw [fmod_of_small (by norm_num) (by norm_num)]; norm_num
  simp only [e]
  norm_num

/-- C15: on hue exactly 360 `ToRGB` takes the last sextant branch
`(r,g,b) = (c,0,x)`, where `x = 0`, and returns the same colour as on hue 0
with the same chroma and tone (for every chroma and tone, in particular for
chroma ≥ 0 and tone in `[0,100]`). -/
theorem C15_hue_360_last_sextant (ch t : ℚ) :
    HCT.channels ⟨360, ch, t⟩ =
      ((HCT.cPart ⟨360, ch, t⟩ + HCT.mPart ⟨360, ch, t⟩) * 255,
        (0 + HCT.mPart ⟨360, ch, t⟩) * 255,
        (HCT.xPart ⟨360, ch, t⟩ + HCT.mPart ⟨360, ch, t⟩) * 255) ∧
    HCT.xPart ⟨360, ch, t⟩ = 0 ∧
    HCT.channels ⟨360, ch, t⟩ = HCT.channels ⟨0, ch, t⟩ ∧
    HCT.ToRGB ⟨360, ch, t⟩ = HCT.ToRGB ⟨0, ch, t⟩ := by
  have h360 : HCT.channels ⟨360, ch, t⟩ =
      ((HCT.cPart ⟨360, ch, t⟩ + HCT.mPart ⟨360, ch, t⟩) * 255,
        (0 + HCT.mPart ⟨360, ch, t⟩) * 255,
        (HCT.xPart ⟨360, ch, t⟩ + HCT.mPart ⟨360, ch, t⟩) * 255) := by
    rw [channels_eq]
    simp only
    rw [if_neg (by norm_num), if_neg (by norm_num), if_neg (by norm_num), if_neg (by norm_num),
      if_neg (by norm_num)]
  have h0 : HCT.channels ⟨0, ch, t⟩ =
      ((HCT.cPart ⟨0, ch, t⟩ + HCT.mPart ⟨0, ch, t⟩) * 255,
        (HCT.xPart ⟨0, ch, t⟩ + HCT.mPart ⟨0, ch, t⟩) * 255,
        (0 + HCT.mPart ⟨0, ch, t⟩) * 255) := by
    rw [channels_eq]
    simp only
    rw [if_pos (by norm_num)]
  have hc : HCT.cPart ⟨360, ch, t⟩ = HCT.cPart ⟨0, ch, t⟩ := rfl
  have hm : HCT.mPart ⟨360, ch, t⟩ = HCT.mPart ⟨0, ch, t⟩ := rfl
  have heq : HCT.channels ⟨360, ch, t⟩ = HCT.channels ⟨0, ch, t⟩ := by
    rw [h360, h0, xPart_at_360, xPart_at_0, hc, hm]
  refine ⟨h360, xPart_at_360 ch t, heq, ?_⟩
  unfold HCT.ToRGB
  rw [heq]

/-! ## Truncating conversion and hue normalisation -/

theorem toUint8_eq_floor {x : ℚ} (hx : byteRange x) : ((toUint8 x : ℕ) : ℤ) = ⌊x⌋ := by
  obtain ⟨h0, h1⟩ := hx
  have f0 : 0 ≤ ⌊x⌋ := Int.floor_nonneg.mpr h0
  have f1 : ⌊x⌋ ≤ 255 := by
    have : ⌊x⌋ ≤ ⌊(255 : ℚ)⌋ := Int.floor_le_floor h1
    have e : ⌊(255 : ℚ)⌋ = 255 := by simp
    rw [e] at this
    exact this
  unfold toUint8 truncQ
  rw [if_pos h0]
  omega

theorem toUint8_of_floor {x : ℚ} (n : ℕ) (hn : n < 256) (h1 : (n : ℚ) ≤ x)
    (h2 : x < (n : ℚ) + 1) : toUint8 x = n := by
  have h0 : 0 ≤ x := le_trans (Nat.cast_nonneg n) h1
  have hf : ⌊x⌋ = (n : ℤ) := Int.floor_eq_iff.mpr ⟨by exact_mod_cast h1, by exact_mod_cast h2⟩
  unfold toUint8 truncQ
  rw [if_pos h0, hf]
  omega

theorem channels_gray_half (u : ℚ) :
    HCT.channels ⟨u, 0, 50⟩ = (255 / 2, 255 / 2, 255 / 2) := by
  have hc : HCT.cPart ⟨u, 0, 50⟩ = 0 := by
    unfold HCT.cPart; norm_num
  have hm : HCT.mPart ⟨u, 0, 50⟩ = 1 / 2 := by
    unfold HCT.mPart; rw [hc]; norm_num
  have hx : HCT.xPart ⟨u, 0, 50⟩ = 0 := by
    unfold HCT.xPart; rw [hc]; ring
  rw [channels_eq, hc, hm, hx]
  split_ifs <;> norm_num

/-- C16: for every HCT value with hue in `[0,360]`, non-negative chroma and
tone in `[0,100]`, each output channel of `ToRGB` is the floor of the value
`(component + m) * 255` it converts; chroma 0 and tone 50 give 127.5 per
channel and the colour `(127,127,127,255)`, not 128. -/
theorem C16_channels_are_truncated (h : HCT) (hh0 : 0 ≤ h.Hue) (_hh1 : h.Hue ≤ 360)
    (hc : 0 ≤ h.Chroma) (ht0 : 0 ≤ h.Tone) (ht1 : h.Tone ≤ 100) (u : ℚ) :
    ((h.ToRGB.R : ℤ) = ⌊h.channels.1⌋ ∧ (h.ToRGB.G : ℤ) = ⌊h.channels.2.1⌋ ∧
      (h.ToRGB.B : ℤ) = ⌊h.channels.2.2⌋) ∧
    HCT.channels ⟨u, 0, 50⟩ = (255 / 2, 255 / 2, 255 / 2) ∧
    HCT.ToRGB ⟨u, 0, 50⟩ = { R := 127, G := 127, B := 127, A := 255 } := by
  obtain ⟨b1, b2, b3, _⟩ := castSafe_of_ranges h hh0 hc ht0 ht1
  refine ⟨⟨toUint8_eq_floor b1, toUint8_eq_floor b2, toUint8_eq_floor b3⟩,
    channels_gray_half u, ?_⟩
  have e : toUint8 (255 / 2) = 127 :=
    toUint8_of_floor 127 (by norm_num) (by norm_num) (by norm_num)
  unfold HCT.ToRGB
  simp only [channels_gray_half u, e]

theorem C16_channels_are_truncated_witness :
    (((HCT.ToRGB ⟨200, 40, 55⟩).R : ℤ) = ⌊(HCT.channels ⟨200, 40, 55⟩).1⌋ ∧
      ((HCT.ToRGB ⟨200, 40, 55⟩).G : ℤ) = ⌊(HCT.channels ⟨200, 40, 55⟩).2.1⌋ ∧
      ((HCT.ToRGB ⟨200, 40, 55⟩).B : ℤ) = ⌊(HCT.channels ⟨200, 40, 55⟩).2.2⌋) ∧
    HCT.channels ⟨77, 0, 50⟩ = (255 / 2, 255 / 2, 255 / 2) ∧
    HCT.ToRGB ⟨77, 0, 50⟩ = { R := 127, G := 127, B := 127, A := 255 } :=
  C16_channels_are_truncated ⟨200, 40, 55⟩ (by norm_num) (by norm_num) (by norm_num)
    (by norm_num) (by norm_num) 77

theorem sanitize_congruent (d : ℚ) :
    ∃ k : ℤ, sanitizeDegreesDouble d = d + 360 * (k : ℚ) := by
  unfold sanitizeDegreesDouble fmod
  simp only
  split_ifs with h
  · refine ⟨1 - truncQ (d / 360), ?_⟩
    push_cast
    ring
  · refine ⟨-truncQ (d / 360), ?_⟩
    push_cast
    ring

/-- In exact arithmetic, without the rounding of `float64`,
`sanitizeDegreesDouble d` lies in `[0,360)` and differs from `d` by an integer
multiple of 360; it is the identity on `[0,360)` and idempotent. -/
theorem exact_sanitize_normalises (d : ℚ) :
    (0 ≤ sanitizeDegreesDouble d ∧ sanitizeDegreesDouble d < 360) ∧
    (∃ k : ℤ, sanitizeDegreesDouble d = d + 360 * (k : ℚ)) ∧
    (0 ≤ d ∧ d < 360 → sanitizeDegreesDouble d = d) ∧
    sanitizeDegreesDouble (sanitizeDegreesDouble d) = sanitizeDegreesDouble d :=
  ⟨sanitize_range d, sanitize_congruent d, fun hd => sanitize_of_range hd.1 hd.2,
    sanitize_of_range (sanitize_range d).1 (sanitize_range d).2⟩

/-! ## The end-to-end example and the tone 100 colour -/

theorem RGBToHCT_example : RGBToHCT 28 32 39 = ⟨2400 / 11, 440 / 13, 260 / 17⟩ := by
  rw [RGBToHCT_eq_unit, unit_blue_down (by norm_num) (by norm_num)]
  norm_num

/-- C18: for seed RGB (28,32,39) `RGBToHCT` gives hue 2400/11, within 0.01 of
218.18, chroma 120·11/39, within 0.2 of 33.7, and tone 3900/255, within 0.05
of 15.3; with variant TonalSpot the Primary palette is hue 2400/11, chroma 40. -/
theorem C18_end_to_end_example (ord : RangeOrder) :
    (RGBToHCT 28 32 39).Hue = 2400 / 11 ∧
    |(RGBToHCT 28 32 39).Hue - 218.18| ≤ 0.01 ∧
    (RGBToHCT 28 32 39).Chroma = 120 * 11 / 39 ∧
    |(RGBToHCT 28 32 39).Chroma - 33.7| ≤ 0.2 ∧
    (RGBToHCT 28 32 39).Tone = 3900 / 255 ∧
    |(RGBToHCT 28 32 39).Tone - 15.3| ≤ 0.05 ∧
    (GenerateChromePalette ord ⟨28, 32, 39, 255⟩ TonalSpot).Primary =
      { hue := 2400 / 11, chroma := 40 } := by
  have hP : (GenerateChromePalette ord ⟨28, 32, 39, 255⟩ TonalSpot).Primary =
      { hue := (RGBToHCT 28 32 39).Hue, chroma := 40 } :=
    seed_hue_fixed ⟨28, 32, 39, 255⟩ ord 40
  rw [hP, RGBToHCT_example]
  refine ⟨rfl, ?_, ?_, ?_, ?_, ?_, rfl⟩
  · rw [abs_le]; constructor <;> norm_num
  · norm_num
  · rw [abs_le]; constructor <;> norm_num
  · norm_num
  · rw [abs_le]; constructor <;> norm_num

theorem primary_tone100_example :
    HCT.channels ⟨2400 / 11, 40, 100⟩ = (170, 2210 / 11, 255) := by
  have hc : HCT.cPart ⟨2400 / 11, 40, 100⟩ = 1 / 3 := by
    unfold HCT.cPart
    simp only
    rw [min_eq_left (by norm_num)]
    norm_num
  have hm : HCT.mPart ⟨2400 / 11, 40, 100⟩ = 2 / 3 := by
    unfold HCT.mPart; rw [hc]; norm_num
  have hx : HCT.xPart ⟨2400 / 11, 40, 100⟩ = 4 / 33 := by
    rw [xPart_falling _ 1 (by norm_num) (by norm_num) (by norm_num), hc]
    norm_num
  rw [channels_eq, hc, hm, hx]
  simp only
  rw [if_neg (by norm_num), if_neg (by norm_num), if_neg (by norm_num), if_pos (by norm_num)]
  norm_num

/-- C19: for seed (28,32,39) and variant TonalSpot the colour
`Primary.Tone(100)` is `(170,200,255,255)`, not white. -/
theorem C19_on_primary_not_white :
    (GenerateChromePalette id ⟨28, 32, 39, 255⟩ TonalSpot).Primary.Tone 100 =
      { R := 170, G := 200, B := 255, A := 255 } ∧
    (GenerateChromePalette id ⟨28, 32, 39, 255⟩ TonalSpot).Primary.Tone 100 ≠
      { R := 255, G := 255, B := 255, A := 255 } := by
  have hP : (GenerateChromePalette id ⟨28, 32, 39, 255⟩ TonalSpot).Primary =
      { hue := 2400 / 11, chroma := 40 } := by
    calc (GenerateChromePalette id ⟨28, 32, 39, 255⟩ TonalSpot).Primary
        = { hue := (RGBToHCT 28 32 39).Hue, chroma := 40 } :=
          seed_hue_fixed ⟨28, 32, 39, 255⟩ id 40
      _ = { hue := 2400 / 11, chroma := 40 } := by rw [RGBToHCT_example]
  have e : (GenerateChromePalette id ⟨28, 32, 39, 255⟩ TonalSpot).Primary.Tone 100 =
      { R := 170, G := 200, B := 255, A := 255 } := by
    rw [hP]
    unfold TonalPalette.Tone HCT.ToRGB
    have hcast : (((100 : ℤ) : ℚ)) = 100 := by norm_num
    simp only [hcast, primary_tone100_example]
    rw [toUint8_of_floor 170 (by norm_num) (by norm_num) (by norm_num),
      toUint8_of_floor 200 (by norm_num) (by norm_num) (by norm_num),
      toUint8_of_floor 255 (by norm_num) (by norm_num) (by norm_num)]
  refine ⟨e, ?_⟩
  rw [e]
  decide

/-! ## Seed parsing -/

theorem channelOf_eq_some (p : List Char) (v : ℤ) :
    channelOf p = some v ↔ atoi (trimSpace p) = some v ∧ 0 ≤ v ∧ v ≤ 255 := by
  unfold channelOf
  cases h : atoi (trimSpace p) with
  | none => simp
  | some w =>
    simp only [Option.some.injEq]
    split_ifs with hr
    · constructor
      · intro hc; cases hc
      · rintro ⟨rfl, h0, h1⟩; omega
    · constructor
      · intro hc
        have := Option.some.inj hc
        subst this
        exact ⟨rfl, by omega, by omega⟩
      · rintro ⟨rfl, _, _⟩; rfl

theorem intToUint8_of_range {v : ℤ} (h0 : 0 ≤ v) (h1 : v ≤ 255) :
    ((intToUint8 v : ℕ) : ℤ) = v := by
  unfold intToUint8
  omega

theorem intToUint8_lt (v : ℤ) : intToUint8 v < 256 := by
  unfold intToUint8
  omega

/-- Either `parseRGB` fails with zero channels, or the input has three parts
that are all accepted. -/
theorem parseRGB_cases (s : List Char) :
    (∃ e, parseRGB s = { r := 0, g := 0, b := 0, err := some e } ∧
      ¬ ∃ p0 p1 p2 r g b, splitComma s = [p0, p1, p2] ∧ channelOf p0 = some r ∧
        channelOf p1 = some g ∧ channelOf p2 = some b) ∨
    (∃ p0 p1 p2 r g b, splitComma s = [p0, p1, p2] ∧ channelOf p0 = some r ∧
      channelOf p1 = some g ∧ channelOf p2 = some b ∧
      parseRGB s = { r := intToUint8 r, g := intToUint8 g, b := intToUint8 b, err := none }) := by
  unfold parseRGB
  split
  · rename_i p0 p1 p2 hs
    cases h0 : channelOf p0 with
    | none =>
      left
      refine ⟨RGBError.red p0, rfl, ?_⟩
      rintro ⟨q0, q1, q2, r, g, b, hq, c0, _, _⟩
      rw [hs] at hq
      simp only [List.cons.injEq, and_true] at hq
      obtain ⟨rfl, rfl, rfl⟩ := hq
      rw [h0] at c0
      cases c0
    | some r =>
      cases h1 : channelOf p1 with
      | none =>
        left
        refine ⟨RGBError.green p1, rfl, ?_⟩
        rintro ⟨q0, q1, q2, r, g, b, hq, _, c1, _⟩
        rw [hs] at hq
        simp only [List.cons.injEq, and_true] at hq
        obtain ⟨rfl, rfl, rfl⟩ := hq
        rw [h1] at c1
        cases c1
      | some g =>
        cases h2 : channelOf p2 with
        | none =>
          left
          refine ⟨RGBError.blue p2, rfl, ?_⟩
          rintro ⟨q0, q1, q2, r, g, b, hq, _, _, c2⟩
          rw [hs] at hq
          simp only [List.cons.injEq, and_true] at hq
          obtain ⟨rfl, rfl, rfl⟩ := hq
          rw [h2] at c2
          cases c2
        | some b =>
          right
          exact ⟨p0, p1, p2, r, g, b, hs, h0, h1, h2, rfl⟩
  · rename_i hne
    left
    refine ⟨RGBError.format, rfl, ?_⟩
    rintro ⟨q0, q1, q2, r, g, b, hq, _⟩
    exact hne q0 q1 q2 hq

/-- C20: `parseRGB` returns without error exactly when the input splits on
`,` into exactly three parts each of which, after trimming white space, is
accepted by `Atoi` with a value in `0..255`; the channels returned are then
those integers, and on every other input the result is `(0,0,0)` with an
error; the returned channels are always below 256, and `"28,32,39"` gives
`(28,32,39)`. -/
theorem C20_parseRGB_validates (s : List Char) :
    ((parseRGB s).err = none ↔
      ∃ p0 p1 p2 r g b, splitComma s = [p0, p1, p2] ∧
        (atoi (trimSpace p0) = some r ∧ 0 ≤ r ∧ r ≤ 255) ∧
        (atoi (trimSpace p1) = some g ∧ 0 ≤ g ∧ g ≤ 255) ∧
        (atoi (trimSpace p2) = some b ∧ 0 ≤ b ∧ b ≤ 255)) ∧
    (∀ p0 p1 p2 r g b, splitComma s = [p0, p1, p2] ∧
        (atoi (trimSpace p0) = some r ∧ 0 ≤ r ∧ r ≤ 255) ∧
        (atoi (trimSpace p1) = some g ∧ 0 ≤ g ∧ g ≤ 255) ∧
        (atoi (trimSpace p2) = some b ∧ 0 ≤ b ∧ b ≤ 255) →
      (parseRGB s).err = none ∧ ((parseRGB s).r : ℤ) = r ∧ ((parseRGB s).g : ℤ) = g ∧
        ((parseRGB s).b : ℤ) = b) ∧
    ((parseRGB s).err ≠ none →
      (parseRGB s).r = 0 ∧ (parseRGB s).g = 0 ∧ (parseRGB s).b = 0) ∧
    ((parseRGB s).r < 256 ∧ (parseRGB s).g < 256 ∧ (parseRGB s).b < 256) ∧
    parseRGB ['2', '8', ',', '3', '2', ',', '3', '9'] =
      { r := 28, g := 32, b := 39, err := none } := by
  have key : ∀ p0 p1 p2 r g b, splitComma s = [p0, p1, p2] ∧
        (atoi (trimSpace p0) = some r ∧ 0 ≤ r ∧ r ≤ 255) ∧
        (atoi (trimSpace p1) = some g ∧ 0 ≤ g ∧ g ≤ 255) ∧
        (atoi (trimSpace p2) = some b ∧ 0 ≤ b ∧ b ≤ 255) →
      (parseRGB s).err = none ∧ ((parseRGB s).r : ℤ) = r ∧ ((parseRGB s).g : ℤ) = g ∧
        ((parseRGB s).b : ℤ) = b := by
    rintro p0 p1 p2 r g b ⟨hs, c0, c1, c2⟩
    rcases parseRGB_cases s with ⟨e, _, hno⟩ | ⟨q0, q1, q2, r', g', b', hq, d0, d1, d2, hres⟩
    · exact absurd ⟨p0, p1, p2, r, g, b, hs, (channelOf_eq_some _ _).mpr c0,
        (channelOf_eq_some _ _).mpr c1, (channelOf_eq_some _ _).mpr c2⟩ hno
    · rw [hs] at hq
      simp only [List.cons.injEq, and_true] at hq
      obtain ⟨rfl, rfl, rfl⟩ := hq
      rw [(channelOf_eq_some _ _).mpr c0] at d0
      rw [(channelOf_eq_some _ _).mpr c1] at d1
      rw [(channelOf_eq_some _ _).mpr c2] at d2
      cases d0; cases d1; cases d2
      rw [hres]
      exact ⟨rfl, intToUint8_of_range c0.2.1 c0.2.2, intToUint8_of_range c1.2.1 c1.2.2,
        intToUint8_of_range c2.2.1 c2.2.2⟩
  refine ⟨⟨?_, ?_⟩, key, ?_, ?_, by decide⟩
  · intro herr
    rcases parseRGB_cases s with ⟨e, hres, _⟩ | ⟨q0, q1, q2, r, g, b, hq, d0, d1, d2, _⟩
    · rw [hres] at herr
      cases herr
    · exact ⟨q0, q1, q2, r, g, b, hq, (channelOf_eq_some _ _).mp d0,
        (channelOf_eq_some _ _).mp d1, (channelOf_eq_some _ _).mp d2⟩
  · rintro ⟨p0, p1, p2, r, g, b, h⟩
    exact (key p0 p1 p2 r g b h).1
  · intro herr
    rcases parseRGB_cases s with ⟨e, hres, _⟩ | ⟨q0, q1, q2, r, g, b, _, _, _, _, hres⟩
    · rw [hres]
      exact ⟨rfl, rfl, rfl⟩
    · rw [hres] at herr
      exact absurd rfl herr
  · rcases parseRGB_cases s with ⟨e, hres, _⟩ | ⟨q0, q1, q2, r, g, b, _, _, _, _, hres⟩
    · rw [hres]
      exact ⟨by norm_num, by norm_num, by norm_num⟩
    · rw [hres]
      exact ⟨intToUint8_lt r, intToUint8_lt g, intToUint8_lt b⟩

theorem C20_parseRGB_validates_witness :
    ((parseRGB [' ', '7', ',', '+', '8', ',', '9', ' ']).err = none ∧
      ((parseRGB [' ', '7', ',', '+', '8', ',', '9', ' ']).r : ℤ) = 7 ∧
      ((parseRGB [' ', '7', ',', '+', '8', ',', '9', ' ']).g : ℤ) = 8 ∧
      ((parseRGB [' ', '7', ',', '+', '8', ',', '9', ' ']).b : ℤ) = 9) ∧
    ((parseRGB ['1', ',', '2', ',', '2', '5', '6']).r = 0 ∧
      (parseRGB ['1', ',', '2', ',', '2', '5', '6']).g = 0 ∧
      (parseRGB ['1', ',', '2', ',', '2', '5', '6']).b = 0) :=
  ⟨(C20_parseRGB_validates [' ', '7', ',', '+', '8', ',', '9', ' ']).2.1
      [' ', '7'] ['+', '8'] ['9', ' '] 7 8 9 (by decide),
    (C20_parseRGB_validates ['1', ',', '2', ',', '2', '5', '6']).2.2.1 (by decide)⟩

/-! ## Monotonicity in the tone -/

theorem cPart_linear (hue ch t : ℚ) :
    HCT.cPart ⟨hue, ch, t⟩ = t * HCT.cPart ⟨hue, ch, 1⟩ := by
  unfold HCT.cPart
  simp only
  ring

theorem mPart_linear (hue ch t : ℚ) :
    HCT.mPart ⟨hue, ch, t⟩ = t * HCT.mPart ⟨hue, ch, 1⟩ := by
  unfold HCT.mPart
  rw [cPart_linear]
  simp only
  ring

theorem xPart_linear (hue ch t : ℚ) :
    HCT.xPart ⟨hue, ch, t⟩ = t * HCT.xPart ⟨hue, ch, 1⟩ := by
  unfold HCT.xPart
  rw [cPart_linear]
  simp only
  ring

/-- The converted values scale linearly with the tone. -/
theorem channels_linear (hue ch t : ℚ) :
    HCT.channels ⟨hue, ch, t⟩ =
      (t * (HCT.channels ⟨hue, ch, 1⟩).1, t * (HCT.channels ⟨hue, ch, 1⟩).2.1,
        t * (HCT.channels ⟨hue, ch, 1⟩).2.2) := by
  rw [channels_eq, channels_eq, cPart_linear, mPart_linear, xPart_linear]
  simp only
  split_ifs <;> simp only [Prod.mk.injEq] <;> refine ⟨?_, ?_, ?_⟩ <;> ring

theorem toUint8_mono {x y : ℚ} (hx : byteRange x) (hy : byteRange y) (hxy : x ≤ y) :
    toUint8 x ≤ toUint8 y := by
  have h1 := toUint8_eq_floor hx
  have h2 := toUint8_eq_floor hy
  have h3 : ⌊x⌋ ≤ ⌊y⌋ := Int.floor_le_floor hxy
  omega

/-- C21: for every tonal palette with hue in `[0,360]` and non-negative chroma
and all integers `0 ≤ t1 ≤ t2 ≤ 100`, each of the R, G and B channels of
`Tone t1` is at most the corresponding channel of `Tone t2`. -/
theorem C21_tone_monotone (tp : TonalPalette) (hh0 : 0 ≤ tp.hue) (_hh1 : tp.hue ≤ 360)
    (hc : 0 ≤ tp.chroma) (t1 t2 : ℤ) (h0 : 0 ≤ t1) (h12 : t1 ≤ t2) (h2 : t2 ≤ 100) :
    (tp.Tone t1).R ≤ (tp.Tone t2).R ∧ (tp.Tone t1).G ≤ (tp.Tone t2).G ∧
      (tp.Tone t1).B ≤ (tp.Tone t2).B := by
  have q0 : (0 : ℚ) ≤ (t1 : ℚ) := by exact_mod_cast h0
  have q12 : (t1 : ℚ) ≤ (t2 : ℚ) := by exact_mod_cast h12
  have q2 : (t2 : ℚ) ≤ 100 := by exact_mod_cast h2
  obtain ⟨a1, a2, a3, _⟩ :=
    castSafe_of_ranges ⟨tp.hue, tp.chroma, (t1 : ℚ)⟩ hh0 hc q0 (q12.trans q2)
  obtain ⟨b1, b2, b3, _⟩ :=
    castSafe_of_ranges ⟨tp.hue, tp.chroma, (t2 : ℚ)⟩ hh0 hc (q0.trans q12) q2
  obtain ⟨u1, u2, u3, _⟩ :=
    castSafe_of_ranges ⟨tp.hue, tp.chroma, 1⟩ hh0 hc (by norm_num) (by norm_num)
  have e1 := channels_linear tp.hue tp.chroma (t1 : ℚ)
  have e2 := channels_linear tp.hue tp.chroma (t2 : ℚ)
  have m1 : (HCT.channels ⟨tp.hue, tp.chroma, (t1 : ℚ)⟩).1 ≤
      (HCT.channels ⟨tp.hue, tp.chroma, (t2 : ℚ)⟩).1 := by
    rw [e1, e2]
    exact mul_le_mul_of_nonneg_right q12 u1.1
  have m2 : (HCT.channels ⟨tp.hue, tp.chroma, (t1 : ℚ)⟩).2.1 ≤
      (HCT.channels ⟨tp.hue, tp.chroma, (t2 : ℚ)⟩).2.1 := by
    rw [e1, e2]
    exact mul_le_mul_of_nonneg_right q12 u2.1
  have m3 : (HCT.channels ⟨tp.hue, tp.chroma, (t1 : ℚ)⟩).2.2 ≤
      (HCT.channels ⟨tp.hue, tp.chroma, (t2 : ℚ)⟩).2.2 := by
    rw [e1, e2]
    exact mul_le_mul_of_nonneg_right q12 u3.1
  exact ⟨toUint8_mono a1 b1 m1, toUint8_mono a2 b2 m2, toUint8_mono a3 b3 m3⟩

theorem C21_tone_monotone_witness :
    (TonalPalette.Tone ⟨218, 40⟩ 40).R ≤ (TonalPalette.Tone ⟨218, 40⟩ 90).R ∧
      (TonalPalette.Tone ⟨218, 40⟩ 40).G ≤ (TonalPalette.Tone ⟨218, 40⟩ 90).G ∧
      (TonalPalette.Tone ⟨218, 40⟩ 40).B ≤ (TonalPalette.Tone ⟨218, 40⟩ 90).B :=
  C21_tone_monotone ⟨218, 40⟩ (by norm_num) (by norm_num) (by norm_num) 40 90 (by decide)
    (by decide) (by decide)

/-! ## Saturation of the chroma -/

theorem channels_saturated (hue ch t : ℚ) (hch : 120 ≤ ch) :
    HCT.channels ⟨hue, ch, t⟩ = HCT.channels ⟨hue, 120, t⟩ := by
  have e1 : min (ch / 120) 1 = 1 :=
    min_eq_right (by rw [le_div_iff₀ (by norm_num)]; linarith)
  have e2 : min ((120 : ℚ) / 120) 1 = 1 := by norm_num
  unfold HCT.channels
  simp only [e1, e2]

theorem mPart_saturated (hue t : ℚ) : HCT.mPart ⟨hue, 120, t⟩ = 0 := by
  unfold HCT.mPart HCT.cPart
  norm_num

theorem toUint8_zero : toUint8 0 = 0 := by
  unfold toUint8 truncQ
  simp

theorem zero_channel_saturated (hue t : ℚ) :
    (HCT.ToRGB ⟨hue, 120, t⟩).R = 0 ∨ (HCT.ToRGB ⟨hue, 120, t⟩).G = 0 ∨
      (HCT.ToRGB ⟨hue, 120, t⟩).B = 0 := by
  have z : (0 + HCT.mPart ⟨hue, 120, t⟩) * 255 = 0 := by
    rw [mPart_saturated]; norm_num
  unfold HCT.ToRGB
  simp only
  rw [channels_eq, z]
  simp only
  split_ifs
  · right; right; exact toUint8_zero
  · right; right; exact toUint8_zero
  · left; exact toUint8_zero
  · left; exact toUint8_zero
  · right; left; exact toUint8_zero
  · right; left; exact toUint8_zero

/-- C22: for every hue and tone, in particular hue in `[0,360]` and tone in
`[0,100]`, and every chroma of at least 120, `ToRGB` returns the same colour
as for chroma 120, and that colour has a channel equal to 0; the Vibrant
Primary palette has chroma 200 and renders every tone as the chroma-120
palette of the same hue does. -/
theorem C22_chroma_saturates (hue ch t : ℚ) (hch : 120 ≤ ch) (ord : RangeOrder)
    (seedColor : RGBA) (tone : ℤ) :
    HCT.ToRGB ⟨hue, ch, t⟩ = HCT.ToRGB ⟨hue, 120, t⟩ ∧
    ((HCT.ToRGB ⟨hue, ch, t⟩).R = 0 ∨ (HCT.ToRGB ⟨hue, ch, t⟩).G = 0 ∨
      (HCT.ToRGB ⟨hue, ch, t⟩).B = 0) ∧
    (GenerateChromePalette ord seedColor Vibrant).Primary.chroma = 200 ∧
    (GenerateChromePalette ord seedColor Vibrant).Primary.Tone tone =
      TonalPalette.Tone
        { hue := (GenerateChromePalette ord seedColor Vibrant).Primary.hue, chroma := 120 }
        tone := by
  have e : HCT.ToRGB ⟨hue, ch, t⟩ = HCT.ToRGB ⟨hue, 120, t⟩ := by
    unfold HCT.ToRGB
    rw [channels_saturated hue ch t hch]
  refine ⟨e, ?_, rfl, ?_⟩
  · rw [e]
    exact zero_channel_saturated hue t
  · unfold TonalPalette.Tone HCT.ToRGB
    have hP : (GenerateChromePalette ord seedColor Vibrant).Primary.chroma = 200 := rfl
    simp only [hP]
    rw [channels_saturated _ 200 _ (by norm_num)]

theorem C22_chroma_saturates_witness :
    HCT.ToRGB ⟨218, 200, 40⟩ = HCT.ToRGB ⟨218, 120, 40⟩ ∧
    ((HCT.ToRGB ⟨218, 200, 40⟩).R = 0 ∨ (HCT.ToRGB ⟨218, 200, 40⟩).G = 0 ∨
      (HCT.ToRGB ⟨218, 200, 40⟩).B = 0) ∧
    (GenerateChromePalette id ⟨28, 32, 39, 255⟩ Vibrant).Primary.chroma = 200 ∧
    (GenerateChromePalette id ⟨28, 32, 39, 255⟩ Vibrant).Primary.Tone 40 =
      TonalPalette.Tone
        { hue := (GenerateChromePalette id ⟨28, 32, 39, 255⟩ Vibrant).Primary.hue,
          chroma := 120 }
        40 :=
  C22_chroma_saturates 218 200 40 (by norm_num) id ⟨28, 32, 39, 255⟩ 40

/-! ## Rounding to binary64 -/

theorem roundHalfEven_err (y : ℚ) : |((roundHalfEven y : ℤ) : ℚ) - y| ≤ 1 / 2 := by
  have h1 := Int.floor_le y
  have h2 := Int.lt_floor_add_one y
  unfold roundHalfEven
  split_ifs with a b c
  · rw [abs_le]; constructor <;> linarith
  · rw [abs_le]; push_cast; constructor <;> linarith
  · rw [abs_le]; constructor <;> linarith
  · rw [abs_le]; push_cast; constructor <;> linarith

theorem roundHalfEven_nonneg {y : ℚ} (hy : 0 ≤ y) : 0 ≤ roundHalfEven y := by
  have h0 : 0 ≤ ⌊y⌋ := Int.floor_nonneg.mpr hy
  unfold roundHalfEven
  split_ifs <;> omega

theorem roundHalfEven_nonpos {y : ℚ} (hy : y ≤ 0) : roundHalfEven y ≤ 0 := by
  have h1 := Int.floor_le y
  have h2 := Int.lt_floor_add_one y
  have h0 : ⌊y⌋ ≤ 0 := by
    have : (⌊y⌋ : ℚ) ≤ 0 := h1.trans hy
    exact_mod_cast this
  unfold roundHalfEven
  split_ifs with a b c
  · exact h0
  · -- the fraction exceeds one half, so the floor is negative
    have : (⌊y⌋ : ℚ) < 0 := by linarith
    have : ⌊y⌋ < 0 := by exact_mod_cast this
    omega
  · exact h0
  · have : (⌊y⌋ : ℚ) < 0 := by linarith
    have : ⌊y⌋ < 0 := by exact_mod_cast this
    omega

/-- A value strictly closer than one half to an integer rounds to it. -/
theorem roundHalfEven_of_lt {y : ℚ} (m : ℤ) (h : |y - (m : ℚ)| < 1 / 2) :
    roundHalfEven y = m := by
  have h1 := Int.floor_le y
  have h2 := Int.lt_floor_add_one y
  rw [abs_lt] at h
  have hf : ⌊y⌋ = m ∨ ⌊y⌋ = m - 1 := by
    have a : (m : ℚ) - 1 < (⌊y⌋ : ℚ) + 1 - 1 + 1 / 2 := by linarith
    have a1 : m - 1 ≤ ⌊y⌋ := by
      have : ((m - 1 : ℤ) : ℚ) ≤ y := by push_cast; linarith
      exact Int.le_floor.mpr this
    have a2 : ⌊y⌋ ≤ m := by
      have : (⌊y⌋ : ℚ) < (m : ℚ) + 1 := by linarith
      have : ⌊y⌋ < m + 1 := by exact_mod_cast this
      omega
    omega
  unfold roundHalfEven
  rcases hf with hf | hf
  · rw [hf]
    rw [if_pos (by linarith)]
  · rw [hf]
    push_cast
    rw [if_neg (by linarith), if_pos (by linarith)]
    ring

/-- A value exactly half way rounds to the even neighbour. -/
theorem roundHalfEven_of_tie {y : ℚ} (m : ℤ) (h : |y - (m : ℚ)| = 1 / 2) (hm : m % 2 = 0) :
    roundHalfEven y = m := by
  rcases abs_eq (by norm_num : (0 : ℚ) ≤ 1 / 2) |>.mp h with h | h
  · -- y = m + 1/2, floor is m
    have hy : y = (m : ℚ) + 1 / 2 := by linarith
    have hf : ⌊y⌋ = m := by
      rw [Int.floor_eq_iff]; constructor <;> linarith
    unfold roundHalfEven
    rw [hf, if_neg (by linarith), if_neg (by linarith), if_pos hm]
  · -- y = m - 1/2, floor is m - 1, which is odd
    have hy : y = (m : ℚ) - 1 / 2 := by linarith
    have hf : ⌊y⌋ = m - 1 := by
      rw [Int.floor_eq_iff]; push_cast; constructor <;> linarith
    unfold roundHalfEven
    rw [hf]
    push_cast
    rw [if_neg (by linarith), if_neg (by linarith), if_neg (by omega)]
    ring

theorem two_zpow_pos (e : ℤ) : (0 : ℚ) < (2 : ℚ) ^ e := zpow_pos (by norm_num) e

theorem ilog2_le {x : ℚ} (hx : 0 < x) : (2 : ℚ) ^ ilog2 x ≤ x := by
  unfold ilog2
  simp only
  split_ifs with h
  · exact h
  · -- x = n / d with n ≥ 2 ^ log2 n and d < 2 ^ (log2 d + 1)
    have hn0 : x.num.natAbs ≠ 0 := by
      have : x.num ≠ 0 := Rat.num_ne_zero.mpr hx.ne'
      omega
    have hn := Nat.log2_self_le hn0
    have hd := @Nat.lt_log2_self x.den
    have hnum : (x.num : ℚ) = (x.num.natAbs : ℚ) := by
      have hp : 0 < x.num := Rat.num_pos.mpr hx
      rw [← Int.cast_natCast, Int.natAbs_of_nonneg hp.le]
    have hxe : x = (x.num.natAbs : ℚ) / (x.den : ℚ) := by
      rw [← hnum]; exact (Rat.num_div_den x).symm
    have hdpos : (0 : ℚ) < (x.den : ℚ) := by exact_mod_cast x.den_pos
    have e1 : (2 : ℚ) ^ ((Nat.log2 x.num.natAbs : ℤ) - (Nat.log2 x.den : ℤ) - 1) =
        (2 : ℚ) ^ (Nat.log2 x.num.natAbs) / (2 : ℚ) ^ (Nat.log2 x.den + 1) := by
      rw [show ((Nat.log2 x.num.natAbs : ℤ) - (Nat.log2 x.den : ℤ) - 1) =
        ((Nat.log2 x.num.natAbs : ℕ) : ℤ) - ((Nat.log2 x.den + 1 : ℕ) : ℤ) by push_cast; ring]
      rw [zpow_sub₀ (by norm_num), zpow_natCast, zpow_natCast]
    rw [e1]
    have hnq : (2 : ℚ) ^ (Nat.log2 x.num.natAbs) ≤ (x.num.natAbs : ℚ) := by exact_mod_cast hn
    have hdq : (x.den : ℚ) ≤ (2 : ℚ) ^ (Nat.log2 x.den + 1) := by exact_mod_cast hd.le
    calc (2 : ℚ) ^ (Nat.log2 x.num.natAbs) / (2 : ℚ) ^ (Nat.log2 x.den + 1)
        ≤ (x.num.natAbs : ℚ) / (2 : ℚ) ^ (Nat.log2 x.den + 1) :=
          div_le_div_of_nonneg_right hnq (by positivity)
      _ ≤ (x.num.natAbs : ℚ) / (x.den : ℚ) :=
          div_le_div_of_nonneg_left (by positivity) hdpos hdq
      _ = x := hxe.symm

theorem ilog2_lt {x : ℚ} (hx : 0 < x) : x < (2 : ℚ) ^ (ilog2 x + 1) := by
  unfold ilog2
  simp only
  have hn0 : x.num.natAbs ≠ 0 := by
    have : x.num ≠ 0 := Rat.num_ne_zero.mpr hx.ne'
    omega
  have hn := @Nat.lt_log2_self x.num.natAbs
  have hd0 : x.den ≠ 0 := x.den_nz
  have hd := Nat.log2_self_le hd0
  have hnum : (x.num : ℚ) = (x.num.natAbs : ℚ) := by
    have hp : 0 < x.num := Rat.num_pos.mpr hx
    rw [← Int.cast_natCast, Int.natAbs_of_nonneg hp.le]
  have hxe : x = (x.num.natAbs : ℚ) / (x.den : ℚ) := by
    rw [← hnum]; exact (Rat.num_div_den x).symm
  have hdpos : (0 : ℚ) < (x.den : ℚ) := by exact_mod_cast x.den_pos
  split_ifs with h
  · have e1 : (2 : ℚ) ^ ((Nat.log2 x.num.natAbs : ℤ) - (Nat.log2 x.den : ℤ) + 1) =
        (2 : ℚ) ^ (Nat.log2 x.num.natAbs + 1) / (2 : ℚ) ^ (Nat.log2 x.den) := by
      rw [show ((Nat.log2 x.num.natAbs : ℤ) - (Nat.log2 x.den : ℤ) + 1) =
        ((Nat.log2 x.num.natAbs + 1 : ℕ) : ℤ) - ((Nat.log2 x.den : ℕ) : ℤ) by push_cast; ring]
      rw [zpow_sub₀ (by norm_num), zpow_natCast, zpow_natCast]
    rw [e1]
    have hnq : (x.num.natAbs : ℚ) < (2 : ℚ) ^ (Nat.log2 x.num.natAbs + 1) := by exact_mod_cast hn
    have hdq : (2 : ℚ) ^ (Nat.log2 x.den) ≤ (x.den : ℚ) := by exact_mod_cast hd
    calc x = (x.num.natAbs : ℚ) / (x.den : ℚ) := hxe
      _ ≤ (x.num.natAbs : ℚ) / (2 : ℚ) ^ (Nat.log2 x.den) :=
          div_le_div_of_nonneg_left (by positivity) (by positivity) hdq
      _ < (2 : ℚ) ^ (Nat.log2 x.num.natAbs + 1) / (2 : ℚ) ^ (Nat.log2 x.den) :=
          div_lt_div_of_pos_right hnq (by positivity)
  · rw [sub_add_cancel]
    exact not_le.mp h

theorem ilog2_unique {x : ℚ} (hx : 0 < x) (l : ℤ) (h1 : (2 : ℚ) ^ l ≤ x)
    (h2 : x < (2 : ℚ) ^ (l + 1)) : ilog2 x = l := by
  have a1 := ilog2_le hx
  have a2 := ilog2_lt hx
  have b1 : (2 : ℚ) ^ l < (2 : ℚ) ^ (ilog2 x + 1) := lt_of_le_of_lt h1 a2
  have b2 : (2 : ℚ) ^ ilog2 x < (2 : ℚ) ^ (l + 1) := lt_of_le_of_lt a1 h2
  rw [zpow_lt_zpow_iff_right₀ (by norm_num)] at b1 b2
  omega

/-! ## Properties of the binary64 rounding -/

theorem fl64_zero : fl64 0 = 0 := by
  unfold fl64
  rw [if_pos rfl]

theorem fl64_nonneg {x : ℚ} (hx : 0 ≤ x) : 0 ≤ fl64 x := by
  unfold fl64
  split_ifs with h
  · exact le_rfl
  · apply mul_nonneg _ (two_zpow_pos _).le
    have : 0 ≤ roundHalfEven (x / (2 : ℚ) ^ (max (ilog2 |x|) (-1022) - 52)) :=
      roundHalfEven_nonneg (div_nonneg hx (two_zpow_pos _).le)
    exact_mod_cast this

theorem fl64_nonpos {x : ℚ} (hx : x ≤ 0) : fl64 x ≤ 0 := by
  unfold fl64
  split_ifs with h
  · exact le_rfl
  · apply mul_nonpos_of_nonpos_of_nonneg _ (two_zpow_pos _).le
    have : roundHalfEven (x / (2 : ℚ) ^ (max (ilog2 |x|) (-1022) - 52)) ≤ 0 :=
      roundHalfEven_nonpos (div_nonpos_of_nonpos_of_nonneg hx (two_zpow_pos _).le)
    exact_mod_cast this

/-- Absolute rounding error: half a unit in the last place. -/
theorem fl64_err {x : ℚ} (k : ℤ) (hk : -1022 ≤ k) (hx : |x| ≤ (2 : ℚ) ^ k) :
    |fl64 x - x| ≤ (2 : ℚ) ^ (k - 53) := by
  unfold fl64
  split_ifs with h
  · rw [h]; simp; exact (two_zpow_pos _).le
  · have hpos : 0 < |x| := abs_pos.mpr h
    have hl : ilog2 |x| ≤ k := by
      have a := ilog2_le hpos
      have b : (2 : ℚ) ^ ilog2 |x| ≤ (2 : ℚ) ^ k := a.trans hx
      exact (zpow_le_zpow_iff_right₀ (by norm_num)).mp b
    have he : max (ilog2 |x|) (-1022) - 52 ≤ k - 52 := by
      have : max (ilog2 |x|) (-1022) ≤ k := max_le hl hk
      omega
    generalize max (ilog2 |x|) (-1022) - 52 = e at he
    have hp := two_zpow_pos e
    have hr := roundHalfEven_err (x / (2 : ℚ) ^ e)
    have e1 : ((roundHalfEven (x / (2 : ℚ) ^ e) : ℤ) : ℚ) * (2 : ℚ) ^ e - x =
        (((roundHalfEven (x / (2 : ℚ) ^ e) : ℤ) : ℚ) - x / (2 : ℚ) ^ e) * (2 : ℚ) ^ e := by
      field_simp
    rw [e1, abs_mul, abs_of_pos hp]
    have e2 : (2 : ℚ) ^ (k - 53) = 1 / 2 * (2 : ℚ) ^ (k - 52) := by
      rw [show k - 53 = (k - 52) - 1 by ring, zpow_sub_one₀ (by norm_num)]
      ring
    rw [e2]
    have hmono : (2 : ℚ) ^ e ≤ (2 : ℚ) ^ (k - 52) := zpow_le_zpow_right₀ (by norm_num) he
    calc |((roundHalfEven (x / (2 : ℚ) ^ e) : ℤ) : ℚ) - x / (2 : ℚ) ^ e| * (2 : ℚ) ^ e
        ≤ 1 / 2 * (2 : ℚ) ^ e := mul_le_mul_of_nonneg_right hr hp.le
      _ ≤ 1 / 2 * (2 : ℚ) ^ (k - 52) := mul_le_mul_of_nonneg_left hmono (by norm_num)

/-- Certificate for one rounding: `x` has its leading bit at `e + 52` and its
scaled value is strictly closer to `m` than to any other integer, or half way
with `m` even. -/
theorem fl64_eq_of {x : ℚ} (e m : ℤ) (he : -1074 ≤ e) (h1 : (2 : ℚ) ^ (e + 52) ≤ |x|)
    (h2 : |x| < (2 : ℚ) ^ (e + 52 + 1))
    (hm : |x / (2 : ℚ) ^ e - (m : ℚ)| < 1 / 2 ∨
      (|x / (2 : ℚ) ^ e - (m : ℚ)| = 1 / 2 ∧ m % 2 = 0)) :
    fl64 x = (m : ℚ) * (2 : ℚ) ^ e := by
  have hpos : 0 < |x| := lt_of_lt_of_le (two_zpow_pos _) h1
  have hx : x ≠ 0 := abs_pos.mp hpos
  have hl : ilog2 |x| = e + 52 := ilog2_unique hpos _ h1 h2
  unfold fl64
  rw [if_neg hx, hl, max_eq_left (by omega), show e + 52 - 52 = e by ring]
  rcases hm with hm | ⟨hm, hev⟩
  · rw [roundHalfEven_of_lt m hm]
  · rw [roundHalfEven_of_tie m hm hev]

/-! ## Rounding certificates -/

/-- Certificate for rounding a positive value to the nearest binary64, not a tie. -/
theorem fl64_cert_pos {x : ℚ} (e m : ℤ) (he : -1074 ≤ e) (h1 : (2 : ℚ) ^ (e + 52) ≤ x)
    (h2 : x < (2 : ℚ) ^ (e + 52 + 1)) (h3 : -(1 / 2) < x / (2 : ℚ) ^ e - (m : ℚ))
    (h4 : x / (2 : ℚ) ^ e - (m : ℚ) < 1 / 2) : fl64 x = (m : ℚ) * (2 : ℚ) ^ e := by
  have hx : 0 < x := lt_of_lt_of_le (two_zpow_pos _) h1
  apply fl64_eq_of e m he
  · rw [abs_of_pos hx]; exact h1
  · rw [abs_of_pos hx]; exact h2
  · left; rw [abs_lt]; exact ⟨h3, h4⟩

/-- Certificate for rounding a negative value to the nearest binary64, not a tie. -/
theorem fl64_cert_neg {x : ℚ} (e m : ℤ) (he : -1074 ≤ e) (h1 : (2 : ℚ) ^ (e + 52) ≤ -x)
    (h2 : -x < (2 : ℚ) ^ (e + 52 + 1)) (h3 : -(1 / 2) < x / (2 : ℚ) ^ e - (m : ℚ))
    (h4 : x / (2 : ℚ) ^ e - (m : ℚ) < 1 / 2) : fl64 x = (m : ℚ) * (2 : ℚ) ^ e := by
  have hx : x < 0 := by
    have := lt_of_lt_of_le (two_zpow_pos (e + 52)) h1
    linarith
  apply fl64_eq_of e m he
  · rw [abs_of_neg hx]; exact h1
  · rw [abs_of_neg hx]; exact h2
  · left; rw [abs_lt]; exact ⟨h3, h4⟩

/-- Certificate for a positive value half way between two binary64 values. -/
theorem fl64_cert_tie {x : ℚ} (e m : ℤ) (he : -1074 ≤ e) (h1 : (2 : ℚ) ^ (e + 52) ≤ x)
    (h2 : x < (2 : ℚ) ^ (e + 52 + 1))
    (h3 : x / (2 : ℚ) ^ e - (m : ℚ) = 1 / 2 ∨ x / (2 : ℚ) ^ e - (m : ℚ) = -(1 / 2))
    (hm : m % 2 = 0) : fl64 x = (m : ℚ) * (2 : ℚ) ^ e := by
  have hx : 0 < x := lt_of_lt_of_le (two_zpow_pos _) h1
  apply fl64_eq_of e m he
  · rw [abs_of_pos hx]; exact h1
  · rw [abs_of_pos hx]; exact h2
  · right
    refine ⟨?_, hm⟩
    rcases h3 with h3 | h3
    · rw [h3]; norm_num
    · rw [h3]; norm_num

theorem fl64_below_360 : fl64 (-(2 : ℚ) ^ (-45 : ℤ) + 360) = 360 := by
  rw [fl64_cert_tie (-44) 6333186975989760 (by norm_num) (by norm_num) (by norm_num)
    (Or.inr (by norm_num)) (by norm_num)]
  norm_num

theorem sanitize64_tiny_negative :
    sanitizeDegreesDouble64 (-(2 : ℚ) ^ (-45 : ℤ)) = 360 := by
  have hm : fmod (-(2 : ℚ) ^ (-45 : ℤ)) 360 = -(2 : ℚ) ^ (-45 : ℤ) :=
    fmod_of_small (by norm_num) (by norm_num)
  unfold sanitizeDegreesDouble64
  simp only [hm]
  rw [if_pos (by norm_num), fl64_below_360]

theorem sanitize64_360 : sanitizeDegreesDouble64 360 = 0 := by
  have hm : fmod (360 : ℚ) 360 = 0 := by
    have := fmod_of_nonneg (x := (360 : ℚ)) (y := 360) 1 (by norm_num) (by norm_num)
      (by norm_num) (by norm_num)
    rw [this]; norm_num
  unfold sanitizeDegreesDouble64
  simp only [hm]
  rw [if_neg (by norm_num)]

/-! ## Rounding at concrete inputs -/

theorem seed333531_r1 : fl64 ((33 : ℚ) / 255) = ((4662550202454161 : ℚ) / 36028797018963968) := by
  have hx : ((33 : ℚ) / 255) = ((11 : ℚ) / 85) := by norm_num
  rw [hx]
  rw [fl64_cert_pos (-55) (4662550202454161) (by norm_num) (by norm_num) (by norm_num) (by norm_num)
    (by norm_num)]
  norm_num

theorem seed333531_r2 : fl64 ((35 : ℚ) / 255) = ((2472564501301449 : ℚ) / 18014398509481984) := by
  have hx : ((35 : ℚ) / 255) = ((7 : ℚ) / 51) := by norm_num
  rw [hx]
  rw [fl64_cert_pos (-55) (4945129002602898) (by norm_num) (by norm_num) (by norm_num) (by norm_num)
    (by norm_num)]
  norm_num

theorem seed333531_r3 : fl64 ((31 : ℚ) / 255) = ((8759942804610847 : ℚ) / 72057594037927936) := by
  rw [fl64_cert_pos (-56) (8759942804610847) (by norm_num) (by norm_num) (by norm_num) (by norm_num)
    (by norm_num)]
  norm_num

theorem seed333531_r4 : fl64 (((2472564501301449 : ℚ) / 18014398509481984) - ((8759942804610847 : ℚ) / 72057594037927936)) = ((1130315200594949 : ℚ) / 72057594037927936) := by
  have hx : (((2472564501301449 : ℚ) / 18014398509481984) - ((8759942804610847 : ℚ) / 72057594037927936)) = ((1130315200594949 : ℚ) / 72057594037927936) := by norm_num
  rw [hx]
  rw [fl64_cert_pos (-58) (4521260802379796) (by norm_num) (by norm_num) (by norm_num) (by norm_num)
    (by norm_num)]
  norm_num

theorem seed333531_r5 : fl64 (((8759942804610847 : ℚ) / 72057594037927936) - ((4662550202454161 : ℚ) / 36028797018963968)) = (-((565157600297475 : ℚ) / 72057594037927936)) := by
  have hx : (((8759942804610847 : ℚ) / 72057594037927936) - ((4662550202454161 : ℚ) / 36028797018963968)) = (-((565157600297475 : ℚ) / 72057594037927936)) := by norm_num
  rw [hx]
  rw [fl64_cert_neg (-59) (-4521260802379800) (by norm_num) (by norm_num) (by norm_num) (by norm_num)
    (by norm_num)]
  norm_num

theorem seed333531_r6 : fl64 ((-((565157600297475 : ℚ) / 72057594037927936)) / ((1130315200594949 : ℚ) / 72057594037927936)) = (-((1125899906842625 : ℚ) / 2251799813685248)) := by
  have hx : ((-((565157600297475 : ℚ) / 72057594037927936)) / ((1130315200594949 : ℚ) / 72057594037927936)) = (-((565157600297475 : ℚ) / 1130315200594949)) := by norm_num
  rw [hx]
  rw [fl64_cert_neg (-53) (-4503599627370500) (by norm_num) (by norm_num) (by norm_num) (by norm_num)
    (by norm_num)]
  norm_num

theorem seed333531_r7 : fl64 ((-((1125899906842625 : ℚ) / 2251799813685248)) + 2) = ((3377699720527871 : ℚ) / 2251799813685248) := by
  have hx : ((-((1125899906842625 : ℚ) / 2251799813685248)) + 2) = ((3377699720527871 : ℚ) / 2251799813685248) := by norm_num
  rw [hx]
  rw [fl64_cert_pos (-52) (6755399441055742) (by norm_num) (by norm_num) (by norm_num) (by norm_num)
    (by norm_num)]
  norm_num

theorem seed333531_r8 : fl64 (60 * ((3377699720527871 : ℚ) / 2251799813685248)) = ((3166593487994879 : ℚ) / 35184372088832) := by
  have hx : (60 * ((3377699720527871 : ℚ) / 2251799813685248)) = ((50665495807918065 : ℚ) / 562949953421312) := by norm_num
  rw [hx]
  rw [fl64_cert_pos (-46) (6333186975989758) (by norm_num) (by norm_num) (by norm_num) (by norm_num)
    (by norm_num)]
  norm_num

theorem seed333531_r9 : fl64 (((3166593487994879 : ℚ) / 35184372088832) + -90) = (-((1 : ℚ) / 35184372088832)) := by
  have hx : (((3166593487994879 : ℚ) / 35184372088832) + -90) = (-((1 : ℚ) / 35184372088832)) := by norm_num
  rw [hx]
  rw [fl64_cert_neg (-97) (-4503599627370496) (by norm_num) (by norm_num) (by norm_num) (by norm_num)
    (by norm_num)]
  norm_num

theorem seed333531_r10 : fl64 ((-((1 : ℚ) / 35184372088832)) + 360) = (360 : ℚ) := by
  have hx : ((-((1 : ℚ) / 35184372088832)) + 360) = ((12666373951979519 : ℚ) / 35184372088832) := by norm_num
  rw [hx]
  rw [fl64_cert_tie (-44) (6333186975989760) (by norm_num) (by norm_num) (by norm_num)
    (Or.inr (by norm_num)) (by norm_num)]
  norm_num

theorem RGBToHCT64_33_35_31_hue : (RGBToHCT64 33 35 31).Hue = ((3166593487994879 : ℚ) / 35184372088832) := by
  unfold RGBToHCT64
  simp only [Nat.cast_ofNat]
  rw [seed333531_r1, seed333531_r2, seed333531_r3]
  rw [max_eq_left (show ((8759942804610847 : ℚ) / 72057594037927936) ≤ ((2472564501301449 : ℚ) / 18014398509481984) by norm_num),
    max_eq_right (show ((4662550202454161 : ℚ) / 36028797018963968) ≤ ((2472564501301449 : ℚ) / 18014398509481984) by norm_num),
    min_eq_right (show ((8759942804610847 : ℚ) / 72057594037927936) ≤ ((2472564501301449 : ℚ) / 18014398509481984) by norm_num),
    min_eq_right (show ((8759942804610847 : ℚ) / 72057594037927936) ≤ ((4662550202454161 : ℚ) / 36028797018963968) by norm_num)]
  rw [seed333531_r4, if_neg (show ¬ ((1130315200594949 : ℚ) / 72057594037927936) = 0 by norm_num),
    if_neg (show ¬ ((2472564501301449 : ℚ) / 18014398509481984) = ((4662550202454161 : ℚ) / 36028797018963968) by norm_num), if_pos rfl, seed333531_r5, seed333531_r6, seed333531_r7, seed333531_r8,
    if_neg (show ¬ ((3166593487994879 : ℚ) / 35184372088832) < 0 by norm_num)]

theorem sanitize64_33_35_31 :
    sanitizeDegreesDouble64 (fl64 (((3166593487994879 : ℚ) / 35184372088832) + -90)) = 360 := by
  have hm : fmod (-((1 : ℚ) / 35184372088832)) 360 = (-((1 : ℚ) / 35184372088832)) :=
    fmod_of_small (by norm_num) (by norm_num)
  unfold sanitizeDegreesDouble64
  rw [seed333531_r9]
  simp only [hm]
  rw [if_pos (show (-((1 : ℚ) / 35184372088832)) < 0 by norm_num), seed333531_r10]

/-- C1: with the rounding of `float64`, seed (33,35,31) and variant Expressive
give a Primary palette whose hue is exactly 360, outside `[0,360)`: the base
hue is 89.99999999999997, adding -90 gives `-2 ^ (-45)`, and adding 360 to it
rounds to 360. -/
theorem C1_expressive_primary_hue_360 :
    (GenerateChromePalette64 id ⟨33, 35, 31, 255⟩ Expressive).Primary.hue = 360 ∧
      ¬ (GenerateChromePalette64 id ⟨33, 35, 31, 255⟩ Expressive).Primary.hue < 360 := by
  have h : (GenerateChromePalette64 id ⟨33, 35, 31, 255⟩ Expressive).Primary.hue = 360 := by
    show sanitizeDegreesDouble64 (fl64 ((RGBToHCT64 33 35 31).Hue + -90)) = 360
    rw [RGBToHCT64_33_35_31_hue]
    exact sanitize64_33_35_31
  refine ⟨h, ?_⟩
  rw [h]
  norm_num

/-- C17: with the rounding of `float64`, `sanitizeDegreesDouble` maps
`-2 ^ (-45)` to exactly 360, outside `[0,360)`, and a second application gives
0, so the function is not idempotent there. -/
theorem C17_sanitize_returns_360 :
    sanitizeDegreesDouble64 (-(2 : ℚ) ^ (-45 : ℤ)) = 360 ∧
      sanitizeDegreesDouble64 (sanitizeDegreesDouble64 (-(2 : ℚ) ^ (-45 : ℤ))) = 0 := by
  refine ⟨sanitize64_tiny_negative, ?_⟩
  rw [sanitize64_tiny_negative]
  exact sanitize64_360

theorem gray15_r1 : fl64 ((15 : ℚ) / 255) = ((4238682002231055 : ℚ) / 72057594037927936) := by
  have hx : ((15 : ℚ) / 255) = ((1 : ℚ) / 17) := by norm_num
  rw [hx]
  rw [fl64_cert_pos (-57) (8477364004462110) (by norm_num) (by norm_num) (by norm_num) (by norm_num)
    (by norm_num)]
  norm_num

theorem gray15_r2 : fl64 (((4238682002231055 : ℚ) / 72057594037927936) * 100) = ((6622940628486023 : ℚ) / 1125899906842624) := by
  have hx : (((4238682002231055 : ℚ) / 72057594037927936) * 100) = ((105967050055776375 : ℚ) / 18014398509481984) := by norm_num
  rw [hx]
  rw [fl64_cert_pos (-50) (6622940628486023) (by norm_num) (by norm_num) (by norm_num) (by norm_num)
    (by norm_num)]
  norm_num

theorem gray15_r3 : fl64 (((6622940628486023 : ℚ) / 1125899906842624) / 100) = ((8477364004462109 : ℚ) / 144115188075855872) := by
  have hx : (((6622940628486023 : ℚ) / 1125899906842624) / 100) = ((6622940628486023 : ℚ) / 112589990684262400) := by norm_num
  rw [hx]
  rw [fl64_cert_pos (-57) (8477364004462109) (by norm_num) (by norm_num) (by norm_num) (by norm_num)
    (by norm_num)]
  norm_num

theorem gray15_r4 : fl64 ((8477364004462109 : ℚ) / 144115188075855872) = ((8477364004462109 : ℚ) / 144115188075855872) := by
  rw [fl64_cert_pos (-57) (8477364004462109) (by norm_num) (by norm_num) (by norm_num) (by norm_num)
    (by norm_num)]
  norm_num

theorem gray15_r5 : fl64 (((8477364004462109 : ℚ) / 144115188075855872) * 255) = ((8444249301319679 : ℚ) / 562949953421312) := by
  have hx : (((8477364004462109 : ℚ) / 144115188075855872) * 255) = ((2161727821137837795 : ℚ) / 144115188075855872) := by norm_num
  rw [hx]
  rw [fl64_cert_pos (-49) (8444249301319679) (by norm_num) (by norm_num) (by norm_num) (by norm_num)
    (by norm_num)]
  norm_num

theorem RGBToHCT64_gray15 : RGBToHCT64 15 15 15 = ⟨0, 0, ((6622940628486023 : ℚ) / 1125899906842624)⟩ := by
  unfold RGBToHCT64
  simp only [Nat.cast_ofNat, gray15_r1, max_self, min_self, sub_self, fl64_zero, if_true,
    lt_irrefl, if_false, zero_div, zero_mul, ite_self, gray15_r2]

theorem channels64_gray15 :
    HCT.channels64 ⟨0, 0, ((6622940628486023 : ℚ) / 1125899906842624)⟩ = (((8444249301319679 : ℚ) / 562949953421312), ((8444249301319679 : ℚ) / 562949953421312), ((8444249301319679 : ℚ) / 562949953421312)) := by
  have hmin : min (0 : ℚ) 1 = 0 := min_eq_left (by norm_num)
  have h60 : (0 : ℚ) < 60 := by norm_num
  unfold HCT.channels64
  simp only [zero_div, fl64_zero, hmin, mul_zero, zero_mul, sub_zero, zero_add, gray15_r3,
    gray15_r4, gray15_r5, h60, if_true]

theorem toUint8_gray15 : toUint8 ((8444249301319679 : ℚ) / 562949953421312) = 14 :=
  toUint8_of_floor 14 (by norm_num) (by norm_num) (by norm_num)

/-- C3: with the rounding of `float64` the round trip of the gray colour
(15,15,15) returns (14,14,14,255), so the reconstruction is not exact. -/
theorem C3_gray_15_loses_one :
    (RGBToHCT64 15 15 15).ToRGB64 = { R := 14, G := 14, B := 14, A := 255 } ∧
      (RGBToHCT64 15 15 15).ToRGB64 ≠ { R := 15, G := 15, B := 15, A := 255 } := by
  have h : (RGBToHCT64 15 15 15).ToRGB64 = { R := 14, G := 14, B := 14, A := 255 } := by
    unfold HCT.ToRGB64
    rw [RGBToHCT64_gray15, channels64_gray15]
    simp only [toUint8_gray15]
  refine ⟨h, ?_⟩
  rw [h]
  decide

/-! ## Propagation of rounding errors -/

/-! Error bounds in decimal form. -/

theorem fl64_err_2 {x : ℚ} (hx : |x| ≤ 2) : |fl64 x - x| ≤ 1 / 10 ^ 15 := by
  have h := fl64_err (x := x) 1 (by norm_num) (by norm_num; exact hx)
  have e : (2 : ℚ) ^ ((1 : ℤ) - 53) ≤ 1 / 10 ^ 15 := by norm_num
  exact h.trans e

theorem fl64_err_512 {x : ℚ} (hx : |x| ≤ 512) : |fl64 x - x| ≤ 1 / 10 ^ 13 := by
  have h := fl64_err (x := x) 9 (by norm_num) (by norm_num; exact hx)
  have e : (2 : ℚ) ^ ((9 : ℤ) - 53) ≤ 1 / 10 ^ 13 := by norm_num
  exact h.trans e

/-- Rounding a value of magnitude at most 2 that is near `y` stays near `y`. -/
theorem fl64_near_2 {x y ε : ℚ} (hx : |x| ≤ 2) (h : |x - y| ≤ ε) :
    |fl64 x - y| ≤ ε + 1 / 10 ^ 15 := by
  have e := fl64_err_2 hx
  calc |fl64 x - y| = |(fl64 x - x) + (x - y)| := by ring_nf
    _ ≤ |fl64 x - x| + |x - y| := abs_add _ _
    _ ≤ ε + 1 / 10 ^ 15 := by linarith

theorem fl64_near_512 {x y ε : ℚ} (hx : |x| ≤ 512) (h : |x - y| ≤ ε) :
    |fl64 x - y| ≤ ε + 1 / 10 ^ 13 := by
  have e := fl64_err_512 hx
  calc |fl64 x - y| = |(fl64 x - x) + (x - y)| := by ring_nf
    _ ≤ |fl64 x - x| + |x - y| := abs_add _ _
    _ ≤ ε + 1 / 10 ^ 13 := by linarith

/-- Magnitude of a value near a bounded one. -/
theorem abs_le_of_near {x y ε B : ℚ} (h : |x - y| ≤ ε) (hy : |y| ≤ B) : |x| ≤ B + ε := by
  calc |x| = |(x - y) + y| := by ring_nf
    _ ≤ |x - y| + |y| := abs_add _ _
    _ ≤ B + ε := by linarith

theorem mul_near {a b a' b' εa εb A B : ℚ} (ha : |a' - a| ≤ εa) (hb : |b' - b| ≤ εb)
    (hA : |a| ≤ A) (hB : |b'| ≤ B) : |a' * b' - a * b| ≤ εa * B + A * εb := by
  have e : a' * b' - a * b = (a' - a) * b' + a * (b' - b) := by ring
  have hεa : 0 ≤ εa := (abs_nonneg _).trans ha
  have hA0 : 0 ≤ A := (abs_nonneg _).trans hA
  rw [e]
  calc |(a' - a) * b' + a * (b' - b)| ≤ |(a' - a) * b'| + |a * (b' - b)| := abs_add _ _
    _ = |a' - a| * |b'| + |a| * |b' - b| := by rw [abs_mul, abs_mul]
    _ ≤ εa * B + A * εb := by
        have h1 : |a' - a| * |b'| ≤ εa * B :=
          mul_le_mul ha hB (abs_nonneg _) hεa
        have h2 : |a| * |b' - b| ≤ A * εb :=
          mul_le_mul hA hb (abs_nonneg _) hA0
        linarith

/-- Quotient of two approximated values whose exact denominator is at least
`1 / 255` and bounds the exact numerator. -/
theorem div_near {n d n' d' ε : ℚ} (hd : 1 / 255 ≤ d) (hn : |n| ≤ d) (hn' : |n' - n| ≤ ε)
    (hd' : |d' - d| ≤ ε) (hε : ε ≤ 1 / 1000) : |n' / d' - n / d| ≤ 1020 * ε := by
  have hε0 : 0 ≤ ε := (abs_nonneg _).trans hn'
  have hdpos : 0 < d := by linarith
  obtain ⟨d1, d2⟩ := abs_le.mp hd'
  have hd'pos : 0 < d' := by linarith
  have hd'lo : d / 2 ≤ d' := by linarith
  have e : n' / d' - n / d = ((n' - n) * d - n * (d' - d)) / (d' * d) := by
    field_simp
    ring
  rw [e, abs_div, abs_of_pos (mul_pos hd'pos hdpos), div_le_iff₀ (mul_pos hd'pos hdpos)]
  have hnum : |(n' - n) * d - n * (d' - d)| ≤ 2 * ε * d := by
    calc |(n' - n) * d - n * (d' - d)| ≤ |(n' - n) * d| + |n * (d' - d)| := abs_sub _ _
      _ = |n' - n| * d + |n| * |d' - d| := by rw [abs_mul, abs_mul, abs_of_pos hdpos]
      _ ≤ ε * d + d * ε := by
          have h1 : |n' - n| * d ≤ ε * d := mul_le_mul_of_nonneg_right hn' hdpos.le
          have h2 : |n| * |d' - d| ≤ d * ε := mul_le_mul hn hd' (abs_nonneg _) hdpos.le
          linarith
      _ = 2 * ε * d := by ring
  have hden : 2 * ε * d ≤ 1020 * ε * (d' * d) := by
    have h1 : 2 ≤ 1020 * d' := by linarith
    have h2 : 0 ≤ ε * d := mul_nonneg hε0 hdpos.le
    calc 2 * ε * d = 2 * (ε * d) := by ring
      _ ≤ 1020 * d' * (ε * d) := mul_le_mul_of_nonneg_right h1 h2
      _ = 1020 * ε * (d' * d) := by ring
  linarith

/-! ## The scaled channels after rounding -/

theorem RGBToHCT64_eq_unit (r g b : ℕ) :
    RGBToHCT64 r g b = unitToHCT64 (unit64 r) (unit64 g) (unit64 b) := rfl

theorem unit_exact_bounds (a : ℕ) (ha : a ≤ 255) : 0 ≤ (a : ℚ) / 255 ∧ (a : ℚ) / 255 ≤ 1 := by
  have h1 : (0 : ℚ) ≤ (a : ℚ) := Nat.cast_nonneg a
  have h2 : (a : ℚ) ≤ 255 := by exact_mod_cast ha
  constructor
  · positivity
  · rw [div_le_one (by norm_num)]; exact h2

theorem unit64_err (a : ℕ) (ha : a ≤ 255) : |unit64 a - (a : ℚ) / 255| ≤ 1 / 10 ^ 15 := by
  obtain ⟨h0, h1⟩ := unit_exact_bounds a ha
  unfold unit64
  apply fl64_err_2
  rw [abs_of_nonneg h0]
  linarith

theorem unit64_nonneg (a : ℕ) : 0 ≤ unit64 a := by
  unfold unit64
  exact fl64_nonneg (by positivity)

theorem unit64_lt {a b : ℕ} (hab : a < b) (hb : b ≤ 255) : unit64 a < unit64 b := by
  obtain ⟨a1, a2⟩ := abs_le.mp (unit64_err a (by omega))
  obtain ⟨b1, b2⟩ := abs_le.mp (unit64_err b hb)
  have h : (a : ℚ) + 1 ≤ (b : ℚ) := by exact_mod_cast hab
  have h2 : (a : ℚ) / 255 + 1 / 255 ≤ (b : ℚ) / 255 := by
    rw [← add_div]; exact div_le_div_of_nonneg_right h (by norm_num)
  have h3 : (1 : ℚ) / 10 ^ 15 + 1 / 10 ^ 15 < 1 / 255 := by norm_num
  linarith

theorem unit64_le {a b : ℕ} (hab : a ≤ b) (hb : b ≤ 255) : unit64 a ≤ unit64 b := by
  rcases Nat.eq_or_lt_of_le hab with h | h
  · rw [h]
  · exact (unit64_lt h hb).le

theorem unit64_le_two (a : ℕ) (ha : a ≤ 255) : |unit64 a| ≤ 1 + 1 / 10 ^ 15 := by
  obtain ⟨h0, h1⟩ := unit_exact_bounds a ha
  have := abs_le_of_near (unit64_err a ha) (show |(a : ℚ) / 255| ≤ 1 by
    rw [abs_of_nonneg h0]; exact h1)
  linarith

/-- Rounded difference of two scaled channels. -/
theorem unit64_sub_near (a b : ℕ) (ha : a ≤ 255) (hb : b ≤ 255) :
    |fl64 (unit64 a - unit64 b) - ((a : ℚ) / 255 - (b : ℚ) / 255)| ≤ 3 / 10 ^ 15 := by
  obtain ⟨a0, a1⟩ := unit_exact_bounds a ha
  obtain ⟨b0, b1⟩ := unit_exact_bounds b hb
  have e1 := unit64_err a ha
  have e2 := unit64_err b hb
  have hd : |unit64 a - unit64 b - ((a : ℚ) / 255 - (b : ℚ) / 255)| ≤ 2 / 10 ^ 15 := by
    have e : unit64 a - unit64 b - ((a : ℚ) / 255 - (b : ℚ) / 255) =
        (unit64 a - (a : ℚ) / 255) - (unit64 b - (b : ℚ) / 255) := by ring
    rw [e]
    calc |(unit64 a - (a : ℚ) / 255) - (unit64 b - (b : ℚ) / 255)|
        ≤ |unit64 a - (a : ℚ) / 255| + |unit64 b - (b : ℚ) / 255| := abs_sub _ _
      _ ≤ 2 / 10 ^ 15 := by linarith
  have hx : |(a : ℚ) / 255 - (b : ℚ) / 255| ≤ 1 := by
    rw [abs_le]; constructor <;> linarith
  have hm : |unit64 a - unit64 b| ≤ 2 := by
    have := abs_le_of_near hd hx
    linarith
  have := fl64_near_2 hm hd
  linarith

/-- The quotient `(a - b) / delta` of `RGBToHCT` after three roundings. -/
theorem quotient_near (a b M m : ℕ) (hM : M ≤ 255) (hmM : m < M) (ha1 : m ≤ a) (ha2 : a ≤ M)
    (hb1 : m ≤ b) (hb2 : b ≤ M) :
    |fl64 (fl64 (unit64 a - unit64 b) / fl64 (unit64 M - unit64 m)) -
      ((a : ℚ) / 255 - (b : ℚ) / 255) / ((M : ℚ) / 255 - (m : ℚ) / 255)| ≤ 1 / 10 ^ 11 := by
  have hn := unit64_sub_near a b (by omega) (by omega)
  have hd := unit64_sub_near M m hM (by omega)
  have hMm : (m : ℚ) + 1 ≤ (M : ℚ) := by exact_mod_cast hmM
  have ca1 : (m : ℚ) ≤ (a : ℚ) := by exact_mod_cast ha1
  have ca2 : (a : ℚ) ≤ (M : ℚ) := by exact_mod_cast ha2
  have cb1 : (m : ℚ) ≤ (b : ℚ) := by exact_mod_cast hb1
  have cb2 : (b : ℚ) ≤ (M : ℚ) := by exact_mod_cast hb2
  have hden : 1 / 255 ≤ (M : ℚ) / 255 - (m : ℚ) / 255 := by
    rw [← sub_div]; exact div_le_div_of_nonneg_right (by linarith) (by norm_num)
  have hnum : |(a : ℚ) / 255 - (b : ℚ) / 255| ≤ (M : ℚ) / 255 - (m : ℚ) / 255 := by
    rw [← sub_div, ← sub_div, abs_div, abs_of_pos (by norm_num : (0 : ℚ) < 255)]
    apply div_le_div_of_nonneg_right _ (by norm_num)
    rw [abs_le]; constructor <;> linarith
  have hq := div_near hden hnum hn hd (by norm_num)
  have hq1 : |((a : ℚ) / 255 - (b : ℚ) / 255) / ((M : ℚ) / 255 - (m : ℚ) / 255)| ≤ 1 := by
    rw [abs_div, abs_of_pos (show (0 : ℚ) < (M : ℚ) / 255 - (m : ℚ) / 255 by linarith)]
    rw [div_le_one (by linarith)]
    exact hnum
  have hmag : |fl64 (unit64 a - unit64 b) / fl64 (unit64 M - unit64 m)| ≤ 2 := by
    have := abs_le_of_near hq hq1
    have e : (1020 : ℚ) * (3 / 10 ^ 15) ≤ 1 := by norm_num
    linarith
  have := fl64_near_2 hmag hq
  have e : (1020 : ℚ) * (3 / 10 ^ 15) + 1 / 10 ^ 15 ≤ 1 / 10 ^ 11 := by norm_num
  linarith

/-! ## The converter after rounding, branch by branch -/

theorem sat64_ite (d M : ℚ) : (if M ≠ 0 then fl64 (d / M) else 0) = fl64 (d / M) := by
  split_ifs with h
  · rfl
  · rw [not_not.mp h, div_zero, fl64_zero]

theorem unit64_struct_gray {rf gf bf Mx : ℚ} (hM : max rf (max gf bf) = Mx)
    (hm : min rf (min gf bf) = Mx) :
    unitToHCT64 rf gf bf = ⟨0, 0, fl64 (Mx * 100)⟩ := by
  unfold unitToHCT64
  simp only [hM, hm, sub_self, fl64_zero, if_true, lt_irrefl, if_false, zero_div, ite_self,
    zero_mul]

theorem unit64_struct_red {rf gf bf mn : ℚ} (hM : max rf (max gf bf) = rf)
    (hm : min rf (min gf bf) = mn) (hd : fl64 (rf - mn) ≠ 0) :
    unitToHCT64 rf gf bf =
      ⟨if fl64 (60 * fmod (fl64 (fl64 (gf - bf) / fl64 (rf - mn))) 6) < 0
        then fl64 (fl64 (60 * fmod (fl64 (fl64 (gf - bf) / fl64 (rf - mn))) 6) + 360)
        else fl64 (60 * fmod (fl64 (fl64 (gf - bf) / fl64 (rf - mn))) 6),
        fl64 (fl64 (fl64 (rf - mn) / rf) * 120), fl64 (rf * 100)⟩ := by
  unfold unitToHCT64
  simp only [hM, hm, sat64_ite]
  rw [if_neg hd, if_pos trivial]

theorem unit64_struct_green {rf gf bf mn : ℚ} (hM : max rf (max gf bf) = gf)
    (hm : min rf (min gf bf) = mn) (hd : fl64 (gf - mn) ≠ 0) (hne : gf ≠ rf) :
    unitToHCT64 rf gf bf =
      ⟨if fl64 (60 * fl64 (fl64 (fl64 (bf - rf) / fl64 (gf - mn)) + 2)) < 0
        then fl64 (fl64 (60 * fl64 (fl64 (fl64 (bf - rf) / fl64 (gf - mn)) + 2)) + 360)
        else fl64 (60 * fl64 (fl64 (fl64 (bf - rf) / fl64 (gf - mn)) + 2)),
        fl64 (fl64 (fl64 (gf - mn) / gf) * 120), fl64 (gf * 100)⟩ := by
  unfold unitToHCT64
  simp only [hM, hm, sat64_ite]
  rw [if_neg hd, if_neg hne, if_pos trivial]

theorem unit64_struct_blue {rf gf bf mn : ℚ} (hM : max rf (max gf bf) = bf)
    (hm : min rf (min gf bf) = mn) (hd : fl64 (bf - mn) ≠ 0) (hne1 : bf ≠ rf)
    (hne2 : bf ≠ gf) :
    unitToHCT64 rf gf bf =
      ⟨if fl64 (60 * fl64 (fl64 (fl64 (rf - gf) / fl64 (bf - mn)) + 4)) < 0
        then fl64 (fl64 (60 * fl64 (fl64 (fl64 (rf - gf) / fl64 (bf - mn)) + 4)) + 360)
        else fl64 (60 * fl64 (fl64 (fl64 (rf - gf) / fl64 (bf - mn)) + 4)),
        fl64 (fl64 (fl64 (bf - mn) / bf) * 120), fl64 (bf * 100)⟩ := by
  unfold unitToHCT64
  simp only [hM, hm, sat64_ite]
  rw [if_neg hd, if_neg hne1, if_neg hne2]

/-- The rounded difference `delta` is positive when the channels differ. -/
theorem delta64_pos (M m : ℕ) (hM : M ≤ 255) (hmM : m < M) :
    0 < fl64 (unit64 M - unit64 m) := by
  obtain ⟨d1, d2⟩ := abs_le.mp (unit64_sub_near M m hM (by omega))
  have hMm : (m : ℚ) + 1 ≤ (M : ℚ) := by exact_mod_cast hmM
  have hden : 1 / 255 ≤ (M : ℚ) / 255 - (m : ℚ) / 255 := by
    rw [← sub_div]; exact div_le_div_of_nonneg_right (by linarith) (by norm_num)
  have e : (3 : ℚ) / 10 ^ 15 < 1 / 255 := by norm_num
  linarith

/-- Chroma after rounding. -/
theorem chroma64_near (M m : ℕ) (hM : M ≤ 255) (hmM : m < M) :
    |fl64 (fl64 (fl64 (unit64 M - unit64 m) / unit64 M) * 120) -
      ((M : ℚ) / 255 - (m : ℚ) / 255) / ((M : ℚ) / 255) * 120| ≤ 1 / 10 ^ 8 := by
  have hn := unit64_sub_near M m hM (by omega)
  have hd : |unit64 M - (M : ℚ) / 255| ≤ 3 / 10 ^ 15 :=
    (unit64_err M hM).trans (by norm_num)
  have hM1 : (1 : ℚ) ≤ (M : ℚ) := by
    have : 1 ≤ M := by omega
    exact_mod_cast this
  have hm0 : (0 : ℚ) ≤ (m : ℚ) := Nat.cast_nonneg m
  have hmM' : (m : ℚ) ≤ (M : ℚ) := by exact_mod_cast hmM.le
  have hden : 1 / 255 ≤ (M : ℚ) / 255 := div_le_div_of_nonneg_right hM1 (by norm_num)
  have hsub : (M : ℚ) / 255 - (m : ℚ) / 255 ≤ (M : ℚ) / 255 := by
    have : 0 ≤ (m : ℚ) / 255 := by positivity
    linarith
  have hsub0 : 0 ≤ (M : ℚ) / 255 - (m : ℚ) / 255 := by
    rw [← sub_div]; exact div_nonneg (by linarith) (by norm_num)
  have hnum : |(M : ℚ) / 255 - (m : ℚ) / 255| ≤ (M : ℚ) / 255 := by
    rw [abs_of_nonneg hsub0]; exact hsub
  have hq := div_near hden hnum hn hd (by norm_num)
  have hq1 : |((M : ℚ) / 255 - (m : ℚ) / 255) / ((M : ℚ) / 255)| ≤ 1 := by
    rw [abs_div, abs_of_pos (show (0 : ℚ) < (M : ℚ) / 255 by linarith)]
    rw [div_le_one (by linarith)]
    exact hnum
  have hmag : |fl64 (unit64 M - unit64 m) / unit64 M| ≤ 2 := by
    have := abs_le_of_near hq hq1
    have e : (1020 : ℚ) * (3 / 10 ^ 15) ≤ 1 := by norm_num
    linarith
  have hs := fl64_near_2 hmag hq
  have hs' : |fl64 (fl64 (unit64 M - unit64 m) / unit64 M) -
      ((M : ℚ) / 255 - (m : ℚ) / 255) / ((M : ℚ) / 255)| ≤ 1 / 10 ^ 11 := by
    have e : (1020 : ℚ) * (3 / 10 ^ 15) + 1 / 10 ^ 15 ≤ 1 / 10 ^ 11 := by norm_num
    linarith
  have hsm : |fl64 (fl64 (unit64 M - unit64 m) / unit64 M)| ≤ 2 := by
    have := abs_le_of_near hs' hq1
    have e : (1 : ℚ) / 10 ^ 11 ≤ 1 := by norm_num
    linarith
  have hprod : |fl64 (fl64 (unit64 M - unit64 m) / unit64 M) * 120 -
      ((M : ℚ) / 255 - (m : ℚ) / 255) / ((M : ℚ) / 255) * 120| ≤ 120 / 10 ^ 11 := by
    rw [← sub_mul, abs_mul, abs_of_pos (by norm_num : (0 : ℚ) < 120)]
    have := mul_le_mul_of_nonneg_right hs' (by norm_num : (0 : ℚ) ≤ 120)
    linarith
  have hpm : |fl64 (fl64 (unit64 M - unit64 m) / unit64 M) * 120| ≤ 512 := by
    rw [abs_mul, abs_of_pos (by norm_num : (0 : ℚ) < 120)]
    have := mul_le_mul_of_nonneg_right hsm (by norm_num : (0 : ℚ) ≤ 120)
    linarith
  have := fl64_near_512 hpm hprod
  have e : (120 : ℚ) / 10 ^ 11 + 1 / 10 ^ 13 ≤ 1 / 10 ^ 8 := by norm_num
  linarith

/-- Tone after rounding. -/
theorem tone64_near (M : ℕ) (hM : M ≤ 255) :
    |fl64 (unit64 M * 100) - (M : ℚ) / 255 * 100| ≤ 1 / 10 ^ 10 := by
  have hd := unit64_err M hM
  have hu := unit64_le_two M hM
  have hprod : |unit64 M * 100 - (M : ℚ) / 255 * 100| ≤ 100 / 10 ^ 15 := by
    rw [← sub_mul, abs_mul, abs_of_pos (by norm_num : (0 : ℚ) < 100)]
    have := mul_le_mul_of_nonneg_right hd (by norm_num : (0 : ℚ) ≤ 100)
    linarith
  have hpm : |unit64 M * 100| ≤ 512 := by
    rw [abs_mul, abs_of_pos (by norm_num : (0 : ℚ) < 100)]
    have := mul_le_mul_of_nonneg_right hu (by norm_num : (0 : ℚ) ≤ 100)
    have e : ((1 : ℚ) + 1 / 10 ^ 15) * 100 ≤ 512 := by norm_num
    linarith
  have := fl64_near_512 hpm hprod
  have e : (100 : ℚ) / 10 ^ 15 + 1 / 10 ^ 13 ≤ 1 / 10 ^ 10 := by norm_num
  linarith

/-! ## The hue after rounding -/

theorem hue64_red_up {q1 q : ℚ} (hq : |q1 - q| ≤ 1 / 10 ^ 11) (hq1 : |q| ≤ 1) (h0 : 0 ≤ q1) :
    |(if fl64 (60 * fmod q1 6) < 0 then fl64 (fl64 (60 * fmod q1 6) + 360)
        else fl64 (60 * fmod q1 6)) - 60 * q| ≤ 1 / 10 ^ 8 ∧
    0 ≤ (if fl64 (60 * fmod q1 6) < 0 then fl64 (fl64 (60 * fmod q1 6) + 360)
        else fl64 (60 * fmod q1 6)) := by
  have hm := abs_le_of_near hq hq1
  obtain ⟨m1, m2⟩ := abs_le.mp hm
  have e6 : (1 : ℚ) + 1 / 10 ^ 11 < 6 := by norm_num
  have hf : fmod q1 6 = q1 := fmod_of_small (by linarith) (by linarith)
  have hH : 0 ≤ fl64 (60 * q1) := fl64_nonneg (by linarith)
  rw [hf, if_neg (not_lt.mpr hH)]
  refine ⟨?_, hH⟩
  have hp : |60 * q1 - 60 * q| ≤ 60 / 10 ^ 11 := by
    rw [← mul_sub, abs_mul, abs_of_pos (by norm_num : (0 : ℚ) < 60)]
    have := mul_le_mul_of_nonneg_left hq (by norm_num : (0 : ℚ) ≤ 60)
    linarith
  have hpm : |60 * q1| ≤ 512 := by
    rw [abs_mul, abs_of_pos (by norm_num : (0 : ℚ) < 60)]
    have := mul_le_mul_of_nonneg_left hm (by norm_num : (0 : ℚ) ≤ 60)
    have e : (60 : ℚ) * (1 + 1 / 10 ^ 11) ≤ 512 := by norm_num
    linarith
  have := fl64_near_512 hpm hp
  have e : (60 : ℚ) / 10 ^ 11 + 1 / 10 ^ 13 ≤ 1 / 10 ^ 8 := by norm_num
  linarith

theorem hue64_red_down {q1 q : ℚ} (hq : |q1 - q| ≤ 1 / 10 ^ 11) (hq1 : -1 ≤ q)
    (hq2 : q ≤ -(1 / 255)) :
    |(if fl64 (60 * fmod q1 6) < 0 then fl64 (fl64 (60 * fmod q1 6) + 360)
        else fl64 (60 * fmod q1 6)) - (60 * q + 360)| ≤ 1 / 10 ^ 8 ∧
    0 ≤ (if fl64 (60 * fmod q1 6) < 0 then fl64 (fl64 (60 * fmod q1 6) + 360)
        else fl64 (60 * fmod q1 6)) := by
  obtain ⟨m1, m2⟩ := abs_le.mp hq
  have e6 : (1 : ℚ) / 10 ^ 11 < 1 / 255 := by norm_num
  have hf : fmod q1 6 = q1 := fmod_of_small (by linarith) (by linarith)
  have hp : |60 * q1 - 60 * q| ≤ 60 / 10 ^ 11 := by
    rw [← mul_sub, abs_mul, abs_of_pos (by norm_num : (0 : ℚ) < 60)]
    have := mul_le_mul_of_nonneg_left hq (by norm_num : (0 : ℚ) ≤ 60)
    linarith
  have hpm : |60 * q1| ≤ 512 := by
    rw [abs_le]; constructor <;> linarith
  have hH := fl64_near_512 hpm hp
  obtain ⟨H1, H2⟩ := abs_le.mp hH
  have eH : (60 : ℚ) / 10 ^ 11 + 1 / 10 ^ 13 < 60 / 255 := by norm_num
  rw [hf, if_pos (by linarith)]
  have hs : |fl64 (60 * q1) + 360 - (60 * q + 360)| ≤ 60 / 10 ^ 11 + 1 / 10 ^ 13 := by
    have e : fl64 (60 * q1) + 360 - (60 * q + 360) = fl64 (60 * q1) - 60 * q := by ring
    rw [e]; exact hH
  have hsm : |fl64 (60 * q1) + 360| ≤ 512 := by
    rw [abs_le]; constructor <;> linarith
  have := fl64_near_512 hsm hs
  refine ⟨?_, fl64_nonneg (by linarith)⟩
  have e : (60 : ℚ) / 10 ^ 11 + 1 / 10 ^ 13 + 1 / 10 ^ 13 ≤ 1 / 10 ^ 8 := by norm_num
  linarith

theorem hue64_shift {q1 q k : ℚ} (hq : |q1 - q| ≤ 1 / 10 ^ 11) (hq1 : |q| ≤ 1) (hk1 : 2 ≤ k)
    (hk2 : k ≤ 4) :
    |(if fl64 (60 * fl64 (q1 + k)) < 0 then fl64 (fl64 (60 * fl64 (q1 + k)) + 360)
        else fl64 (60 * fl64 (q1 + k))) - 60 * (q + k)| ≤ 1 / 10 ^ 8 ∧
    0 ≤ (if fl64 (60 * fl64 (q1 + k)) < 0 then fl64 (fl64 (60 * fl64 (q1 + k)) + 360)
        else fl64 (60 * fl64 (q1 + k))) := by
  obtain ⟨m1, m2⟩ := abs_le.mp hq
  obtain ⟨n1, n2⟩ := abs_le.mp hq1
  have e11 : (1 : ℚ) / 10 ^ 11 ≤ 1 := by norm_num
  have ht0 : |q1 + k - (q + k)| ≤ 1 / 10 ^ 11 := by
    have e : q1 + k - (q + k) = q1 - q := by ring
    rw [e]; exact hq
  have htm : |q1 + k| ≤ 512 := by
    rw [abs_le]; constructor <;> linarith
  have ht := fl64_near_512 htm ht0
  obtain ⟨t1, t2⟩ := abs_le.mp ht
  have e13 : (1 : ℚ) / 10 ^ 11 + 1 / 10 ^ 13 ≤ 1 / 10 ^ 10 := by norm_num
  have hp : |60 * fl64 (q1 + k) - 60 * (q + k)| ≤ 60 * (1 / 10 ^ 11 + 1 / 10 ^ 13) := by
    rw [← mul_sub, abs_mul, abs_of_pos (by norm_num : (0 : ℚ) < 60)]
    exact mul_le_mul_of_nonneg_left ht (by norm_num)
  have hpm : |60 * fl64 (q1 + k)| ≤ 512 := by
    rw [abs_le]; constructor <;> linarith
  have hH := fl64_near_512 hpm hp
  obtain ⟨H1, H2⟩ := abs_le.mp hH
  have eH : (60 : ℚ) * (1 / 10 ^ 11 + 1 / 10 ^ 13) + 1 / 10 ^ 13 ≤ 1 / 10 ^ 8 := by norm_num
  have hpos : 0 ≤ fl64 (60 * fl64 (q1 + k)) := by linarith
  rw [if_neg (not_lt.mpr hpos)]
  exact ⟨by linarith, hpos⟩

theorem unit_le {a b : ℕ} (h : a ≤ b) : (a : ℚ) / 255 ≤ (b : ℚ) / 255 :=
  div_le_div_of_nonneg_right (by exact_mod_cast h) (by norm_num)

theorem unit_lt {a b : ℕ} (h : a < b) : (a : ℚ) / 255 < (b : ℚ) / 255 :=
  div_lt_div_of_pos_right (by exact_mod_cast h) (by norm_num)

/-- Bounds on the exact quotient of `RGBToHCT`. -/
theorem unit_quotient_bounds (a b M m : ℕ) (hmM : m < M) (ha1 : m ≤ a) (ha2 : a ≤ M)
    (hb1 : m ≤ b) (hb2 : b ≤ M) :
    |((a : ℚ) / 255 - (b : ℚ) / 255) / ((M : ℚ) / 255 - (m : ℚ) / 255)| ≤ 1 := by
  have hMm : (m : ℚ) + 1 ≤ (M : ℚ) := by exact_mod_cast hmM
  have ca1 : (m : ℚ) ≤ (a : ℚ) := by exact_mod_cast ha1
  have ca2 : (a : ℚ) ≤ (M : ℚ) := by exact_mod_cast ha2
  have cb1 : (m : ℚ) ≤ (b : ℚ) := by exact_mod_cast hb1
  have cb2 : (b : ℚ) ≤ (M : ℚ) := by exact_mod_cast hb2
  have hden : 0 < (M : ℚ) / 255 - (m : ℚ) / 255 := by
    rw [← sub_div]; exact div_pos (by linarith) (by norm_num)
  rw [abs_div, abs_of_pos hden, div_le_one hden, ← sub_div, ← sub_div, abs_div,
    abs_of_pos (by norm_num : (0 : ℚ) < 255)]
  apply div_le_div_of_nonneg_right _ (by norm_num)
  rw [abs_le]; constructor <;> linarith

/-! ## Closeness of the rounded converter to the exact one -/

/-- Chroma and tone of the two converters agree up to rounding, given the hue. -/
theorem near_of_hue (M m : ℕ) (hM : M ≤ 255) (hmM : m < M) {hue1 hue : ℚ}
    (hh : |hue1 - hue| ≤ 1 / 10 ^ 8 ∧ 0 ≤ hue1) (h0 : 0 ≤ hue) (h1 : hue ≤ 1799 / 5) :
    HCTNear ⟨hue1, fl64 (fl64 (fl64 (unit64 M - unit64 m) / unit64 M) * 120),
        fl64 (unit64 M * 100)⟩
      ⟨hue, ((M : ℚ) / 255 - (m : ℚ) / 255) / ((M : ℚ) / 255) * 120, (M : ℚ) / 255 * 100⟩ := by
  obtain ⟨u0, u1⟩ := unit_exact_bounds M hM
  have hm0 : (0 : ℚ) ≤ (m : ℚ) / 255 := by positivity
  have hlt := unit_lt hmM
  refine ⟨hh.1, chroma64_near M m hM hmM, tone64_near M hM, hh.2, h0, h1, ?_, ?_, ?_, ?_⟩
  · apply mul_nonneg _ (by norm_num)
    exact div_nonneg (by linarith) u0
  · have hq : ((M : ℚ) / 255 - (m : ℚ) / 255) / ((M : ℚ) / 255) ≤ 1 :=
      (div_le_one (by linarith)).mpr (by linarith)
    simp only; linarith
  · simp only; linarith
  · simp only; linarith

theorem RGBToHCT64_near (r g b : ℕ) (hr : r ≤ 255) (hg : g ≤ 255) (hb : b ≤ 255) :
    HCTNear (RGBToHCT64 r g b) (RGBToHCT r g b) := by
  rw [RGBToHCT64_eq_unit, RGBToHCT_eq_unit]
  have key : (r = g ∧ g = b) ∨ (b ≤ g ∧ g ≤ r ∧ b < r) ∨ (g < b ∧ b ≤ r) ∨
      (b < r ∧ r < g) ∨ (r ≤ b ∧ b ≤ g ∧ r < g) ∨ (r < g ∧ g < b) ∨ (g ≤ r ∧ r < b) := by
    omega
  rcases key with ⟨h1, h2⟩ | ⟨h1, h2, h3⟩ | ⟨h1, h2⟩ | ⟨h1, h2⟩ | ⟨h1, h2, h3⟩ | ⟨h1, h2⟩ |
    ⟨h1, h2⟩
  · subst h1; subst h2
    rw [unit_gray, unit64_struct_gray (show max (unit64 r) (max (unit64 r) (unit64 r)) = unit64 r
      by simp) (by simp)]
    obtain ⟨u0, u1⟩ := unit_exact_bounds r hr
    refine ⟨by norm_num, by norm_num, tone64_near r hr, le_refl _, le_refl _, by norm_num,
      le_refl _, by norm_num, ?_, ?_⟩
    · simp only; linarith
    · simp only; linarith
  · -- red is the maximum, blue the minimum
    have hM : max (unit64 r) (max (unit64 g) (unit64 b)) = unit64 r := by
      rw [max_eq_left (unit64_le h1 hg), max_eq_left (unit64_le h2 hr)]
    have hm : min (unit64 r) (min (unit64 g) (unit64 b)) = unit64 b := by
      rw [min_eq_right (unit64_le h1 hg), min_eq_right (unit64_le (h1.trans h2) hr)]
    rw [unit64_struct_red hM hm (delta64_pos r b hr h3).ne',
      unit_red_up (unit_le h1) (unit_le h2) (unit_lt h3)]
    have hq := quotient_near g b r b hr h3 h1 h2 (le_refl _) h3.le
    have hq1 := unit_quotient_bounds g b r b h3 h1 h2 (le_refl _) h3.le
    have hq0 : 0 ≤ ((g : ℚ) / 255 - (b : ℚ) / 255) / ((r : ℚ) / 255 - (b : ℚ) / 255) :=
      div_nonneg (by linarith [unit_le h1]) (by linarith [unit_lt h3])
    have hq0' : 0 ≤ fl64 (fl64 (unit64 g - unit64 b) / fl64 (unit64 r - unit64 b)) :=
      fl64_nonneg (div_nonneg (fl64_nonneg (by linarith [unit64_le h1 hg]))
        (delta64_pos r b hr h3).le)
    apply near_of_hue r b hr h3 (hue64_red_up hq hq1 hq0')
    · linarith
    · have := (abs_le.mp hq1).2
      linarith
  · -- red is the maximum, green the minimum
    have hM : max (unit64 r) (max (unit64 g) (unit64 b)) = unit64 r := by
      rw [max_eq_right (unit64_lt h1 hb).le, max_eq_left (unit64_le h2 hr)]
    have hm : min (unit64 r) (min (unit64 g) (unit64 b)) = unit64 g := by
      rw [min_eq_left (unit64_lt h1 hb).le, min_eq_right (unit64_le (h1.le.trans h2) hr)]
    have h3 : g < r := lt_of_lt_of_le h1 h2
    rw [unit64_struct_red hM hm (delta64_pos r g hr h3).ne',
      unit_red_down (unit_lt h1) (unit_le h2)]
    have hq := quotient_near g b r g hr h3 (le_refl _) h3.le h1.le h2
    have hq1 := unit_quotient_bounds g b r g h3 (le_refl _) h3.le h1.le h2
    have hq2 : ((g : ℚ) / 255 - (b : ℚ) / 255) / ((r : ℚ) / 255 - (g : ℚ) / 255) ≤
        -(1 / 255) := by
      have hd : 0 < (r : ℚ) / 255 - (g : ℚ) / 255 := by linarith [unit_lt h3]
      rw [div_le_iff₀ hd]
      have c1 : (g : ℚ) + 1 ≤ (b : ℚ) := by exact_mod_cast h1
      have c2 : (r : ℚ) ≤ 255 := by exact_mod_cast hr
      have c3 : (0 : ℚ) ≤ (g : ℚ) := Nat.cast_nonneg g
      have e : (g : ℚ) / 255 - (b : ℚ) / 255 ≤ -(1 / 255) := by
        rw [← sub_div, ← neg_div]
        exact div_le_div_of_nonneg_right (by linarith) (by norm_num)
      have e2 : (r : ℚ) / 255 - (g : ℚ) / 255 ≤ 1 := by
        rw [← sub_div, div_le_one (by norm_num)]; linarith
      nlinarith
    apply near_of_hue r g hr h3 (hue64_red_down hq (abs_le.mp hq1).1 hq2)
    · have := (abs_le.mp hq1).1
      linarith
    · have e : (60 : ℚ) * -(1 / 255) + 360 ≤ 1799 / 5 := by norm_num
      linarith
  · -- green is the maximum, blue the minimum
    have hM : max (unit64 r) (max (unit64 g) (unit64 b)) = unit64 g := by
      rw [max_eq_left (unit64_le (h1.le.trans h2.le) hg), max_eq_right (unit64_lt h2 hg).le]
    have hm : min (unit64 r) (min (unit64 g) (unit64 b)) = unit64 b := by
      rw [min_eq_right (unit64_le (h1.le.trans h2.le) hg), min_eq_right (unit64_lt h1 hr).le]
    have h3 : b < g := h1.trans h2
    rw [unit64_struct_green hM hm (delta64_pos g b hg h3).ne' (unit64_lt h2 hg).ne',
      unit_green_down (unit_lt h1) (unit_lt h2)]
    have hq := quotient_near b r g b hg h3 (le_refl _) h3.le h1.le h2.le
    have hq1 := unit_quotient_bounds b r g b h3 (le_refl _) h3.le h1.le h2.le
    obtain ⟨q1, q2⟩ := abs_le.mp hq1
    apply near_of_hue g b hg h3 (hue64_shift hq hq1 (le_refl _) (by norm_num))
    · linarith
    · linarith
  · -- green is the maximum, red the minimum
    have hM : max (unit64 r) (max (unit64 g) (unit64 b)) = unit64 g := by
      rw [max_eq_left (unit64_le h2 hg), max_eq_right (unit64_lt h3 hg).le]
    have hm : min (unit64 r) (min (unit64 g) (unit64 b)) = unit64 r := by
      rw [min_eq_right (unit64_le h2 hg), min_eq_left (unit64_le h1 hb)]
    rw [unit64_struct_green hM hm (delta64_pos g r hg h3).ne' (unit64_lt h3 hg).ne',
      unit_green_up (unit_le h1) (unit_le h2) (unit_lt h3)]
    have hq := quotient_near b r g r hg h3 h1 h2 (le_refl _) h3.le
    have hq1 := unit_quotient_bounds b r g r h3 h1 h2 (le_refl _) h3.le
    obtain ⟨q1, q2⟩ := abs_le.mp hq1
    apply near_of_hue g r hg h3 (hue64_shift hq hq1 (le_refl _) (by norm_num))
    · linarith
    · linarith
  · -- blue is the maximum, red the minimum
    have h3 : r < b := h1.trans h2
    have hM : max (unit64 r) (max (unit64 g) (unit64 b)) = unit64 b := by
      rw [max_eq_right (unit64_lt h2 hb).le, max_eq_right (unit64_lt h3 hb).le]
    have hm : min (unit64 r) (min (unit64 g) (unit64 b)) = unit64 r := by
      rw [min_eq_left (unit64_lt h2 hb).le, min_eq_left (unit64_lt h1 hg).le]
    rw [unit64_struct_blue hM hm (delta64_pos b r hb h3).ne' (unit64_lt h3 hb).ne'
      (unit64_lt h2 hb).ne', unit_blue_down (unit_lt h1) (unit_lt h2)]
    have hq := quotient_near r g b r hb h3 (le_refl _) h3.le h1.le h2.le
    have hq1 := unit_quotient_bounds r g b r h3 (le_refl _) h3.le h1.le h2.le
    obtain ⟨q1, q2⟩ := abs_le.mp hq1
    apply near_of_hue b r hb h3 (hue64_shift hq hq1 (by norm_num) (le_refl _))
    · linarith
    · linarith
  · -- blue is the maximum, green the minimum
    have h3 : g < b := lt_of_le_of_lt h1 h2
    have hM : max (unit64 r) (max (unit64 g) (unit64 b)) = unit64 b := by
      rw [max_eq_right (unit64_lt h3 hb).le, max_eq_right (unit64_lt h2 hb).le]
    have hm : min (unit64 r) (min (unit64 g) (unit64 b)) = unit64 g := by
      rw [min_eq_left (unit64_lt h3 hb).le, min_eq_right (unit64_le h1 hr)]
    rw [unit64_struct_blue hM hm (delta64_pos b g hb h3).ne' (unit64_lt h2 hb).ne'
      (unit64_lt h3 hb).ne', unit_blue_up (unit_le h1) (unit_lt h2)]
    have hq := quotient_near r g b g hb h3 h1 h2.le (le_refl _) h3.le
    have hq1 := unit_quotient_bounds r g b g h3 h1 h2.le (le_refl _) h3.le
    obtain ⟨q1, q2⟩ := abs_le.mp hq1
    apply near_of_hue b g hb h3 (hue64_shift hq hq1 (by norm_num) (le_refl _))
    · linarith
    · linarith

/-! ## The channels as shares of the hue -/

theorem clamp01_one {t : ℚ} (h : 1 ≤ t) : clamp01 t = 1 := by
  unfold clamp01
  rw [min_eq_left h, max_eq_right zero_le_one]

theorem clamp01_zero {t : ℚ} (h : t ≤ 0) : clamp01 t = 0 := by
  unfold clamp01
  rw [min_eq_right (h.trans zero_le_one), max_eq_left h]

theorem clamp01_id {t : ℚ} (h0 : 0 ≤ t) (h1 : t ≤ 1) : clamp01 t = t := by
  unfold clamp01
  rw [min_eq_right h1, max_eq_right h0]

theorem clamp01_bounds (t : ℚ) : 0 ≤ clamp01 t ∧ clamp01 t ≤ 1 := by
  unfold clamp01
  exact ⟨le_max_left _ _, max_le zero_le_one (min_le_left _ _)⟩

theorem clamp01_abs (t : ℚ) : |clamp01 t| ≤ 1 := by
  obtain ⟨h0, h1⟩ := clamp01_bounds t
  rw [abs_of_nonneg h0]; exact h1

theorem clamp01_near (a b : ℚ) : |clamp01 a - clamp01 b| ≤ |a - b| := by
  have h1 := le_abs_self (a - b)
  have h2 := neg_abs_le (a - b)
  unfold clamp01
  simp only [max_def, min_def]
  split_ifs <;> rw [abs_le] <;> constructor <;> linarith

theorem shareR_near (a b : ℚ) : |shareR a - shareR b| ≤ |a - b| := by
  unfold shareR
  refine (clamp01_near _ _).trans ?_
  have e : |a - 3| - 1 - (|b - 3| - 1) = |a - 3| - |b - 3| := by ring
  rw [e]
  have := abs_abs_sub_abs_le_abs_sub (a - 3) (b - 3)
  have e2 : a - 3 - (b - 3) = a - b := by ring
  rw [e2] at this
  exact this

theorem shareG_near (a b : ℚ) : |shareG a - shareG b| ≤ |a - b| := by
  unfold shareG
  refine (clamp01_near _ _).trans ?_
  have e : 2 - |a - 2| - (2 - |b - 2|) = -(|a - 2| - |b - 2|) := by ring
  rw [e, abs_neg]
  have := abs_abs_sub_abs_le_abs_sub (a - 2) (b - 2)
  have e2 : a - 2 - (b - 2) = a - b := by ring
  rw [e2] at this
  exact this

theorem shareB_near (a b : ℚ) : |shareB a - shareB b| ≤ |a - b| := by
  unfold shareB
  refine (clamp01_near _ _).trans ?_
  have e : 2 - |a - 4| - (2 - |b - 4|) = -(|a - 4| - |b - 4|) := by ring
  rw [e, abs_neg]
  have := abs_abs_sub_abs_le_abs_sub (a - 4) (b - 4)
  have e2 : a - 4 - (b - 4) = a - b := by ring
  rw [e2] at this
  exact this

theorem share_0 {w : ℚ} (h0 : 0 ≤ w) (h1 : w ≤ 1) :
    shareR w = 1 ∧ shareG w = w ∧ shareB w = 0 := by
  unfold shareR shareG shareB
  rw [abs_of_nonpos (by linarith : w - 3 ≤ 0), abs_of_nonpos (by linarith : w - 2 ≤ 0),
    abs_of_nonpos (by linarith : w - 4 ≤ 0)]
  refine ⟨clamp01_one (by linarith), ?_, clamp01_zero (by linarith)⟩
  rw [clamp01_id (by linarith) (by linarith)]; ring

theorem share_1 {w : ℚ} (h0 : 1 ≤ w) (h1 : w ≤ 2) :
    shareR w = 2 - w ∧ shareG w = 1 ∧ shareB w = 0 := by
  unfold shareR shareG shareB
  rw [abs_of_nonpos (by linarith : w - 3 ≤ 0), abs_of_nonpos (by linarith : w - 2 ≤ 0),
    abs_of_nonpos (by linarith : w - 4 ≤ 0)]
  refine ⟨?_, clamp01_one (by linarith), clamp01_zero (by linarith)⟩
  rw [clamp01_id (by linarith) (by linarith)]; ring

theorem share_2 {w : ℚ} (h0 : 2 ≤ w) (h1 : w ≤ 3) :
    shareR w = 0 ∧ shareG w = 1 ∧ shareB w = w - 2 := by
  unfold shareR shareG shareB
  rw [abs_of_nonpos (by linarith : w - 3 ≤ 0), abs_of_nonneg (by linarith : 0 ≤ w - 2),
    abs_of_nonpos (by linarith : w - 4 ≤ 0)]
  refine ⟨clamp01_zero (by linarith), clamp01_one (by linarith), ?_⟩
  rw [clamp01_id (by linarith) (by linarith)]; ring

theorem share_3 {w : ℚ} (h0 : 3 ≤ w) (h1 : w ≤ 4) :
    shareR w = 0 ∧ shareG w = 4 - w ∧ shareB w = 1 := by
  unfold shareR shareG shareB
  rw [abs_of_nonneg (by linarith : 0 ≤ w - 3), abs_of_nonneg (by linarith : 0 ≤ w - 2),
    abs_of_nonpos (by linarith : w - 4 ≤ 0)]
  refine ⟨clamp01_zero (by linarith), ?_, clamp01_one (by linarith)⟩
  rw [clamp01_id (by linarith) (by linarith)]; ring

theorem share_4 {w : ℚ} (h0 : 4 ≤ w) (h1 : w ≤ 5) :
    shareR w = w - 4 ∧ shareG w = 0 ∧ shareB w = 1 := by
  unfold shareR shareG shareB
  rw [abs_of_nonneg (by linarith : 0 ≤ w - 3), abs_of_nonneg (by linarith : 0 ≤ w - 2),
    abs_of_nonneg (by linarith : 0 ≤ w - 4)]
  refine ⟨?_, clamp01_zero (by linarith), clamp01_one (by linarith)⟩
  rw [clamp01_id (by linarith) (by linarith)]; ring

theorem share_5 {w : ℚ} (h0 : 5 ≤ w) (h1 : w ≤ 6) :
    shareR w = 1 ∧ shareG w = 0 ∧ shareB w = 6 - w := by
  unfold shareR shareG shareB
  rw [abs_of_nonneg (by linarith : 0 ≤ w - 3), abs_of_nonneg (by linarith : 0 ≤ w - 2),
    abs_of_nonneg (by linarith : 0 ≤ w - 4)]
  refine ⟨clamp01_one (by linarith), clamp01_zero (by linarith), ?_⟩
  rw [clamp01_id (by linarith) (by linarith)]; ring

/-- The exact channels of `ToRGB` as `c` times a share of the hue, plus `m`. -/
theorem channels_share (h : HCT) (h0 : 0 ≤ h.Hue) (h1 : h.Hue < 360) :
    h.channels = ((h.cPart * shareR (h.Hue / 60) + h.mPart) * 255,
      (h.cPart * shareG (h.Hue / 60) + h.mPart) * 255,
      (h.cPart * shareB (h.Hue / 60) + h.mPart) * 255) := by
  rw [channels_eq]
  by_cases c0 : h.Hue < 60
  · obtain ⟨s1, s2, s3⟩ := share_0 (w := h.Hue / 60) (div_nonneg h0 (by norm_num))
      (by rw [div_le_iff₀ (by norm_num)]; linarith)
    have hx := xPart_rising h 0 (le_refl _) (by norm_num; exact h0) (by norm_num; exact c0)
    rw [if_pos c0, s1, s2, s3, hx]
    refine Prod.ext ?_ (Prod.ext ?_ ?_) <;> simp only [Int.cast_zero] <;> ring
  rw [if_neg c0]
  by_cases c1 : h.Hue < 120
  · obtain ⟨s1, s2, s3⟩ := share_1 (w := h.Hue / 60)
      (by rw [le_div_iff₀ (by norm_num)]; linarith)
      (by rw [div_le_iff₀ (by norm_num)]; linarith)
    have hx := xPart_falling h 0 (le_refl _) (by norm_num; linarith) (by norm_num; exact c1)
    rw [if_pos c1, s1, s2, s3, hx]
    refine Prod.ext ?_ (Prod.ext ?_ ?_) <;> simp only [Int.cast_zero] <;> ring
  rw [if_neg c1]
  by_cases c2 : h.Hue < 180
  · obtain ⟨s1, s2, s3⟩ := share_2 (w := h.Hue / 60)
      (by rw [le_div_iff₀ (by norm_num)]; linarith)
      (by rw [div_le_iff₀ (by norm_num)]; linarith)
    have hx := xPart_rising h 1 (by norm_num) (by norm_num; linarith) (by norm_num; linarith)
    rw [if_pos c2, s1, s2, s3, hx]
    refine Prod.ext ?_ (Prod.ext ?_ ?_) <;> simp only [Int.cast_one] <;> ring
  rw [if_neg c2]
  by_cases c3 : h.Hue < 240
  · obtain ⟨s1, s2, s3⟩ := share_3 (w := h.Hue / 60)
      (by rw [le_div_iff₀ (by norm_num)]; linarith)
      (by rw [div_le_iff₀ (by norm_num)]; linarith)
    have hx := xPart_falling h 1 (by norm_num) (by norm_num; linarith) (by norm_num; linarith)
    rw [if_pos c3, s1, s2, s3, hx]
    refine Prod.ext ?_ (Prod.ext ?_ ?_) <;> simp only [Int.cast_one] <;> ring
  rw [if_neg c3]
  by_cases c4 : h.Hue < 300
  · obtain ⟨s1, s2, s3⟩ := share_4 (w := h.Hue / 60)
      (by rw [le_div_iff₀ (by norm_num)]; linarith)
      (by rw [div_le_iff₀ (by norm_num)]; linarith)
    have hx := xPart_rising h 2 (by norm_num) (by norm_num; linarith) (by norm_num; linarith)
    rw [if_pos c4, s1, s2, s3, hx]
    refine Prod.ext ?_ (Prod.ext ?_ ?_) <;> simp only [Int.cast_ofNat] <;> ring
  rw [if_neg c4]
  obtain ⟨s1, s2, s3⟩ := share_5 (w := h.Hue / 60)
    (by rw [le_div_iff₀ (by norm_num)]; linarith)
    (by rw [div_le_iff₀ (by norm_num)]; linarith)
  have hx := xPart_falling h 2 (by norm_num) (by norm_num; linarith) (by norm_num; linarith)
  rw [s1, s2, s3, hx]
  refine Prod.ext ?_ (Prod.ext ?_ ?_) <;> simp only [Int.cast_ofNat] <;> ring

/-! ## The triangle wave after rounding -/

theorem channels64_eq (h : HCT) :
    h.channels64 =
      (if h.Hue < 60 then (h.out64 h.cPart64, h.out64 h.xPart64, h.out64 0)
       else if h.Hue < 120 then (h.out64 h.xPart64, h.out64 h.cPart64, h.out64 0)
       else if h.Hue < 180 then (h.out64 0, h.out64 h.cPart64, h.out64 h.xPart64)
       else if h.Hue < 240 then (h.out64 0, h.out64 h.xPart64, h.out64 h.cPart64)
       else if h.Hue < 300 then (h.out64 h.xPart64, h.out64 0, h.out64 h.cPart64)
       else (h.out64 h.cPart64, h.out64 0, h.out64 h.xPart64)) := by
  unfold HCT.channels64 HCT.out64 HCT.xPart64 HCT.mPart64 HCT.cPart64
  simp only []
  split_ifs <;> rfl

/-- Near a point of a rising edge the triangle wave is near the edge. -/
theorem triWave_rising {w v ε : ℚ} (n : ℤ) (hε : ε ≤ 1 / 2)
    (h1 : 2 * (n : ℚ) ≤ v) (h2 : v ≤ 2 * (n : ℚ) + 1) (hw0 : 0 ≤ w) (hw : |w - v| ≤ ε) :
    |triWave w - (v - 2 * (n : ℚ))| ≤ ε := by
  obtain ⟨w1, w2⟩ := abs_le.mp hw
  unfold triWave
  rcases lt_or_le w (2 * (n : ℚ)) with c | c
  · have e : fmod w 2 = w - ((n - 1 : ℤ) : ℚ) * 2 := by
      apply fmod_of_nonneg (n - 1) (by norm_num) hw0
      · push_cast; linarith
      · push_cast; linarith
    rw [e]
    push_cast
    rw [abs_of_nonneg (by linarith : 0 ≤ w - ((n : ℚ) - 1) * 2 - 1), abs_le]
    constructor <;> linarith
  · have e : fmod w 2 = w - (n : ℚ) * 2 := by
      apply fmod_of_nonneg n (by norm_num) hw0
      · linarith
      · linarith
    rw [e]
    rcases le_or_lt w (2 * (n : ℚ) + 1) with d | d
    · rw [abs_of_nonpos (by linarith : w - (n : ℚ) * 2 - 1 ≤ 0), abs_le]
      constructor <;> linarith
    · rw [abs_of_nonneg (by linarith : 0 ≤ w - (n : ℚ) * 2 - 1), abs_le]
      constructor <;> linarith

/-- Near a point of a falling edge the triangle wave is near the edge. -/
theorem triWave_falling {w v ε : ℚ} (n : ℤ) (hn : 0 ≤ n) (hε : ε ≤ 1 / 2)
    (h1 : 2 * (n : ℚ) + 1 ≤ v) (h2 : v ≤ 2 * (n : ℚ) + 2) (hw0 : 0 ≤ w) (hw : |w - v| ≤ ε) :
    |triWave w - (2 * (n : ℚ) + 2 - v)| ≤ ε := by
  obtain ⟨w1, w2⟩ := abs_le.mp hw
  have hn0 : (0 : ℚ) ≤ (n : ℚ) := by exact_mod_cast hn
  unfold triWave
  rcases lt_or_le w (2 * (n : ℚ) + 2) with c | c
  · have e : fmod w 2 = w - (n : ℚ) * 2 := by
      apply fmod_of_nonneg n (by norm_num) hw0
      · linarith
      · linarith
    rw [e]
    rcases le_or_lt w (2 * (n : ℚ) + 1) with d | d
    · rw [abs_of_nonpos (by linarith : w - (n : ℚ) * 2 - 1 ≤ 0), abs_le]
      constructor <;> linarith
    · rw [abs_of_nonneg (by linarith : 0 ≤ w - (n : ℚ) * 2 - 1), abs_le]
      constructor <;> linarith
  · have e : fmod w 2 = w - ((n + 1 : ℤ) : ℚ) * 2 := by
      apply fmod_of_nonneg (n + 1) (by norm_num) hw0
      · push_cast; linarith
      · push_cast; linarith
    rw [e]
    push_cast
    rw [abs_of_nonpos (by linarith : w - ((n : ℚ) + 1) * 2 - 1 ≤ 0), abs_le]
    constructor <;> linarith

/-- The rounded triangle wave is near the exact one. -/
theorem tri64_near {w : ℚ} (hw : 0 ≤ w) :
    |fl64 (1 - |fl64 (fmod w 2 - 1)|) - triWave w| ≤ 2 / 10 ^ 15 := by
  have f0 : 0 ≤ fmod w 2 := fmod_nonneg (by norm_num) hw
  have f1 : fmod w 2 < 2 := (fmod_bounds _ (by norm_num)).2
  have hu : |fmod w 2 - 1| ≤ 1 := abs_le.mpr ⟨by linarith, by linarith⟩
  have ha := fl64_err_2 (hu.trans (by norm_num))
  have hab : |(|fl64 (fmod w 2 - 1)| - |fmod w 2 - 1|)| ≤ 1 / 10 ^ 15 :=
    (abs_abs_sub_abs_le_abs_sub _ _).trans ha
  obtain ⟨b1, b2⟩ := abs_le.mp hab
  have hnn := abs_nonneg (fl64 (fmod w 2 - 1))
  have hd : |1 - |fl64 (fmod w 2 - 1)| - triWave w| ≤ 1 / 10 ^ 15 := by
    unfold triWave
    rw [abs_le]; constructor <;> linarith
  have hmag : abs (1 - |fl64 (fmod w 2 - 1)|) ≤ 2 := by
    rw [abs_le]
    have e : (1 : ℚ) / 10 ^ 15 ≤ 1 := by norm_num
    constructor <;> linarith
  have := fl64_near_2 hmag hd
  have e : (1 : ℚ) / 10 ^ 15 + 1 / 10 ^ 15 = 2 / 10 ^ 15 := by norm_num
  linarith

/-- The local `x` on a rising edge, after rounding. -/
theorem xPart64_rising (h : HCT) (n : ℤ) (hn : 0 ≤ n) (hn2 : n ≤ 2)
    (h1 : 120 * (n : ℚ) ≤ h.Hue) (h2 : h.Hue ≤ 120 * (n : ℚ) + 60) (hc : |h.cPart64| ≤ 2) :
    |h.xPart64 - h.cPart64 * (h.Hue / 60 - 2 * (n : ℚ))| ≤ 1 / 10 ^ 11 := by
  have hn0 : (0 : ℚ) ≤ (n : ℚ) := by exact_mod_cast hn
  have hn2' : (n : ℚ) ≤ 2 := by exact_mod_cast hn2
  have v1 : 2 * (n : ℚ) ≤ h.Hue / 60 := by rw [le_div_iff₀ (by norm_num)]; linarith
  have v2 : h.Hue / 60 ≤ 2 * (n : ℚ) + 1 := by rw [div_le_iff₀ (by norm_num)]; linarith
  have hv : |h.Hue / 60| ≤ 512 := by rw [abs_le]; constructor <;> linarith
  have hw := fl64_err_512 hv
  have hw0 : 0 ≤ fl64 (h.Hue / 60) := fl64_nonneg (by linarith)
  have ht := triWave_rising n (by norm_num) v1 v2 hw0 hw
  have ht2 := tri64_near hw0
  have hfac : |fl64 (1 - |fl64 (fmod (fl64 (h.Hue / 60)) 2 - 1)|) -
      (h.Hue / 60 - 2 * (n : ℚ))| ≤ 2 / 10 ^ 13 := by
    obtain ⟨a1, a2⟩ := abs_le.mp ht
    obtain ⟨b1, b2⟩ := abs_le.mp ht2
    have e : (1 : ℚ) / 10 ^ 13 + 2 / 10 ^ 15 ≤ 2 / 10 ^ 13 := by norm_num
    rw [abs_le]; constructor <;> linarith
  have hlin : |h.Hue / 60 - 2 * (n : ℚ)| ≤ 1 := by rw [abs_le]; constructor <;> linarith
  have hfm := abs_le_of_near hfac hlin
  have hp := mul_near (le_of_eq (by rw [sub_self, abs_zero] : |h.cPart64 - h.cPart64| = 0)) hfac
    hc hfm
  have hpm : |h.cPart64 * fl64 (1 - |fl64 (fmod (fl64 (h.Hue / 60)) 2 - 1)|)| ≤ 512 := by
    rw [abs_mul]
    have := mul_le_mul hc hfm (abs_nonneg _) (by norm_num)
    have e : (2 : ℚ) * (1 + 2 / 10 ^ 13) ≤ 512 := by norm_num
    linarith
  have := fl64_near_512 hpm hp
  unfold HCT.xPart64
  have e : (0 : ℚ) * (1 + 2 / 10 ^ 13) + 2 * (2 / 10 ^ 13) + 1 / 10 ^ 13 ≤ 1 / 10 ^ 11 := by
    norm_num
  linarith

/-- The local `x` on a falling edge, after rounding. -/
theorem xPart64_falling (h : HCT) (n : ℤ) (hn : 0 ≤ n) (hn2 : n ≤ 2)
    (h1 : 120 * (n : ℚ) + 60 ≤ h.Hue) (h2 : h.Hue ≤ 120 * (n : ℚ) + 120)
    (hc : |h.cPart64| ≤ 2) :
    |h.xPart64 - h.cPart64 * (2 * (n : ℚ) + 2 - h.Hue / 60)| ≤ 1 / 10 ^ 11 := by
  have hn0 : (0 : ℚ) ≤ (n : ℚ) := by exact_mod_cast hn
  have hn2' : (n : ℚ) ≤ 2 := by exact_mod_cast hn2
  have v1 : 2 * (n : ℚ) + 1 ≤ h.Hue / 60 := by rw [le_div_iff₀ (by norm_num)]; linarith
  have v2 : h.Hue / 60 ≤ 2 * (n : ℚ) + 2 := by rw [div_le_iff₀ (by norm_num)]; linarith
  have hv : |h.Hue / 60| ≤ 512 := by rw [abs_le]; constructor <;> linarith
  have hw := fl64_err_512 hv
  have hw0 : 0 ≤ fl64 (h.Hue / 60) := fl64_nonneg (by linarith)
  have ht := triWave_falling n hn (by norm_num) v1 v2 hw0 hw
  have ht2 := tri64_near hw0
  have hfac : |fl64 (1 - |fl64 (fmod (fl64 (h.Hue / 60)) 2 - 1)|) -
      (2 * (n : ℚ) + 2 - h.Hue / 60)| ≤ 2 / 10 ^ 13 := by
    obtain ⟨a1, a2⟩ := abs_le.mp ht
    obtain ⟨b1, b2⟩ := abs_le.mp ht2
    have e : (1 : ℚ) / 10 ^ 13 + 2 / 10 ^ 15 ≤ 2 / 10 ^ 13 := by norm_num
    rw [abs_le]; constructor <;> linarith
  have hlin : |2 * (n : ℚ) + 2 - h.Hue / 60| ≤ 1 := by rw [abs_le]; constructor <;> linarith
  have hfm := abs_le_of_near hfac hlin
  have hp := mul_near (le_of_eq (by rw [sub_self, abs_zero] : |h.cPart64 - h.cPart64| = 0)) hfac
    hc hfm
  have hpm : |h.cPart64 * fl64 (1 - |fl64 (fmod (fl64 (h.Hue / 60)) 2 - 1)|)| ≤ 512 := by
    rw [abs_mul]
    have := mul_le_mul hc hfm (abs_nonneg _) (by norm_num)
    have e : (2 : ℚ) * (1 + 2 / 10 ^ 13) ≤ 512 := by norm_num
    linarith
  have := fl64_near_512 hpm hp
  unfold HCT.xPart64
  have e : (0 : ℚ) * (1 + 2 / 10 ^ 13) + 2 * (2 / 10 ^ 13) + 1 / 10 ^ 13 ≤ 1 / 10 ^ 11 := by
    norm_num
  linarith

/-! ## The components and outputs of the rounded conversion -/

theorem min_one_near (a b : ℚ) : |min a 1 - min b 1| ≤ |a - b| := by
  have h1 := le_abs_self (a - b)
  have h2 := neg_abs_le (a - b)
  simp only [min_def]
  split_ifs <;> rw [abs_le] <;> constructor <;> linarith

/-- The locals `c` and `m` of `ToRGB` after rounding, for nearby inputs. -/
theorem cm64_near {h1 h : HCT} (hn : HCTNear h1 h) :
    |h1.cPart64 - h.cPart| ≤ 1 / 10 ^ 9 ∧ |h1.mPart64 - h.mPart| ≤ 1 / 10 ^ 9 ∧
      0 ≤ h.cPart ∧ h.cPart ≤ 1 ∧ 0 ≤ h.mPart ∧ h.mPart ≤ 1 := by
  obtain ⟨-, nC, nT, -, -, -, C0, C1, T0, T1⟩ := hn
  -- value
  have v0 : 0 ≤ h.Tone / 100 := div_nonneg T0 (by norm_num)
  have v1 : h.Tone / 100 ≤ 1 := by rw [div_le_one (by norm_num)]; exact T1
  have hvd : |h1.Tone / 100 - h.Tone / 100| ≤ 1 / 10 ^ 12 := by
    rw [← sub_div, abs_div, abs_of_pos (by norm_num : (0 : ℚ) < 100),
      div_le_iff₀ (by norm_num)]
    exact nT.trans (by norm_num)
  have hvm : |h1.Tone / 100| ≤ 2 := by
    have := abs_le_of_near hvd (abs_le.mpr ⟨by linarith, v1⟩)
    have e : (1 : ℚ) + 1 / 10 ^ 12 ≤ 2 := by norm_num
    linarith
  have hv := fl64_near_2 hvm hvd
  have hvb : |h.Tone / 100| ≤ 1 := abs_le.mpr ⟨by linarith, v1⟩
  have hv' := abs_le_of_near hv hvb
  -- saturation
  have s0 : 0 ≤ h.Chroma / 120 := div_nonneg C0 (by norm_num)
  have s1 : h.Chroma / 120 ≤ 1 := by rw [div_le_one (by norm_num)]; exact C1
  have hsd : |h1.Chroma / 120 - h.Chroma / 120| ≤ 1 / 10 ^ 10 := by
    rw [← sub_div, abs_div, abs_of_pos (by norm_num : (0 : ℚ) < 120),
      div_le_iff₀ (by norm_num)]
    exact nC.trans (by norm_num)
  have hsm : |h1.Chroma / 120| ≤ 2 := by
    have := abs_le_of_near hsd (abs_le.mpr ⟨by linarith, s1⟩)
    have e : (1 : ℚ) + 1 / 10 ^ 10 ≤ 2 := by norm_num
    linarith
  have hs0 := fl64_near_2 hsm hsd
  have hs : |min (fl64 (h1.Chroma / 120)) 1 - min (h.Chroma / 120) 1| ≤
      1 / 10 ^ 10 + 1 / 10 ^ 15 := (min_one_near _ _).trans hs0
  have hsb : |min (h.Chroma / 120) 1| ≤ 1 := by
    rw [abs_of_nonneg (le_min s0 zero_le_one)]; exact min_le_right _ _
  have hs' := abs_le_of_near hs hsb
  -- c
  have hp := mul_near hv hs hvb hs'
  have hpb : |h.Tone / 100 * min (h.Chroma / 120) 1| ≤ 1 := by
    rw [abs_mul]
    have := mul_le_mul hvb hsb (abs_nonneg _) (by norm_num)
    linarith
  have hpm : |fl64 (h1.Tone / 100) * min (fl64 (h1.Chroma / 120)) 1| ≤ 2 := by
    have := abs_le_of_near hp hpb
    have e : (1 : ℚ) + ((1 / 10 ^ 12 + 1 / 10 ^ 15) * (1 + (1 / 10 ^ 10 + 1 / 10 ^ 15)) +
      1 * (1 / 10 ^ 10 + 1 / 10 ^ 15)) ≤ 2 := by norm_num
    linarith
  have hc := fl64_near_2 hpm hp
  have hc9 : |h1.cPart64 - h.cPart| ≤ 2 / 10 ^ 10 := by
    unfold HCT.cPart64 HCT.cPart
    have e : ((1 : ℚ) / 10 ^ 12 + 1 / 10 ^ 15) * (1 + (1 / 10 ^ 10 + 1 / 10 ^ 15)) +
      1 * (1 / 10 ^ 10 + 1 / 10 ^ 15) + 1 / 10 ^ 15 ≤ 2 / 10 ^ 10 := by norm_num
    linarith
  obtain ⟨cb0, cb1⟩ := cPart_bounds h C0 T0
  -- m
  have hmd : |fl64 (h1.Tone / 100) - h1.cPart64 - (h.Tone / 100 - h.cPart)| ≤
      3 / 10 ^ 10 := by
    obtain ⟨a1, a2⟩ := abs_le.mp hv
    obtain ⟨b1, b2⟩ := abs_le.mp hc9
    have e : (1 : ℚ) / 10 ^ 12 + 1 / 10 ^ 15 + 2 / 10 ^ 10 ≤ 3 / 10 ^ 10 := by norm_num
    rw [abs_le]; constructor <;> linarith
  have hmb : |h.Tone / 100 - h.cPart| ≤ 1 := by rw [abs_le]; constructor <;> linarith
  have hmm : |fl64 (h1.Tone / 100) - h1.cPart64| ≤ 2 := by
    have := abs_le_of_near hmd hmb
    have e : (1 : ℚ) + 3 / 10 ^ 10 ≤ 2 := by norm_num
    linarith
  have hm := fl64_near_2 hmm hmd
  refine ⟨hc9.trans (by norm_num), ?_, cb0, by linarith, ?_, ?_⟩
  · unfold HCT.mPart64 HCT.mPart
    have e : (3 : ℚ) / 10 ^ 10 + 1 / 10 ^ 15 ≤ 1 / 10 ^ 9 := by norm_num
    linarith
  · unfold HCT.mPart; linarith
  · unfold HCT.mPart; linarith

/-- One output channel of `ToRGB` after rounding. -/
theorem out64_near (h1 : HCT) {comp c s s1 m : ℚ}
    (hcomp : |comp - h1.cPart64 * s1| ≤ 1 / 10 ^ 11) (hc : |h1.cPart64 - c| ≤ 1 / 10 ^ 9)
    (hs : |s1 - s| ≤ 1 / 10 ^ 9) (hm : |h1.mPart64 - m| ≤ 1 / 10 ^ 9) (hcb : |c| ≤ 1)
    (hsb : |s1| ≤ 1) (hv : |c * s + m| ≤ 1) :
    |h1.out64 comp - (c * s + m) * 255| ≤ 1 / 1000 := by
  have hp := mul_near hc hs hcb hsb
  have hsum : |comp + h1.mPart64 - (c * s + m)| ≤ 4 / 10 ^ 9 := by
    obtain ⟨a1, a2⟩ := abs_le.mp hcomp
    obtain ⟨b1, b2⟩ := abs_le.mp hp
    obtain ⟨c1, c2⟩ := abs_le.mp hm
    have e : (1 : ℚ) / 10 ^ 11 + (1 / 10 ^ 9 * 1 + 1 * (1 / 10 ^ 9)) + 1 / 10 ^ 9 ≤
      4 / 10 ^ 9 := by norm_num
    rw [abs_le]; constructor <;> linarith
  have hsm : |comp + h1.mPart64| ≤ 2 := by
    have := abs_le_of_near hsum hv
    have e : (1 : ℚ) + 4 / 10 ^ 9 ≤ 2 := by norm_num
    linarith
  have hy := fl64_near_2 hsm hsum
  have hyb := abs_le_of_near hy hv
  have hprod : |fl64 (comp + h1.mPart64) * 255 - (c * s + m) * 255| ≤
      255 * (4 / 10 ^ 9 + 1 / 10 ^ 15) := by
    rw [← sub_mul, abs_mul, abs_of_pos (by norm_num : (0 : ℚ) < 255), mul_comm]
    exact mul_le_mul_of_nonneg_left hy (by norm_num)
  have hpm : |fl64 (comp + h1.mPart64) * 255| ≤ 512 := by
    rw [abs_mul, abs_of_pos (by norm_num : (0 : ℚ) < 255)]
    have := mul_le_mul_of_nonneg_right hyb (by norm_num : (0 : ℚ) ≤ 255)
    have e : ((1 : ℚ) + (4 / 10 ^ 9 + 1 / 10 ^ 15)) * 255 ≤ 512 := by norm_num
    linarith
  have := fl64_near_512 hpm hprod
  unfold HCT.out64
  have e : (255 : ℚ) * (4 / 10 ^ 9 + 1 / 10 ^ 15) + 1 / 10 ^ 13 ≤ 1 / 1000 := by norm_num
  linarith

/-- In every sextant the three components chosen by `ToRGB` are, up to
rounding, `c` times the shares of the hue. -/
theorem comps64_near (h : HCT) (h0 : 0 ≤ h.Hue) (h1 : h.Hue ≤ 360) (hc : |h.cPart64| ≤ 2) :
    ∃ cr cg cb : ℚ, h.channels64 = (h.out64 cr, h.out64 cg, h.out64 cb) ∧
      |cr - h.cPart64 * shareR (h.Hue / 60)| ≤ 1 / 10 ^ 11 ∧
      |cg - h.cPart64 * shareG (h.Hue / 60)| ≤ 1 / 10 ^ 11 ∧
      |cb - h.cPart64 * shareB (h.Hue / 60)| ≤ 1 / 10 ^ 11 := by
  have z1 : |h.cPart64 - h.cPart64 * 1| ≤ 1 / 10 ^ 11 := by
    rw [mul_one, sub_self, abs_zero]; norm_num
  have z0 : |(0 : ℚ) - h.cPart64 * 0| ≤ 1 / 10 ^ 11 := by
    rw [mul_zero, sub_self, abs_zero]; norm_num
  rw [channels64_eq]
  by_cases c0 : h.Hue < 60
  · obtain ⟨s1, s2, s3⟩ := share_0 (w := h.Hue / 60) (div_nonneg h0 (by norm_num))
      (by rw [div_le_iff₀ (by norm_num)]; linarith)
    have hx := xPart64_rising h 0 (le_refl _) (by norm_num) (by norm_num; exact h0)
      (by norm_num; exact c0.le) hc
    rw [if_pos c0, s1, s2, s3]
    refine ⟨_, _, _, rfl, z1, ?_, z0⟩
    simpa using hx
  rw [if_neg c0]
  by_cases c1 : h.Hue < 120
  · obtain ⟨s1, s2, s3⟩ := share_1 (w := h.Hue / 60)
      (by rw [le_div_iff₀ (by norm_num)]; linarith)
      (by rw [div_le_iff₀ (by norm_num)]; linarith)
    have hx := xPart64_falling h 0 (le_refl _) (by norm_num) (by norm_num; linarith)
      (by norm_num; exact c1.le) hc
    rw [if_pos c1, s1, s2, s3]
    refine ⟨_, _, _, rfl, ?_, z1, z0⟩
    simpa using hx
  rw [if_neg c1]
  by_cases c2 : h.Hue < 180
  · obtain ⟨s1, s2, s3⟩ := share_2 (w := h.Hue / 60)
      (by rw [le_div_iff₀ (by norm_num)]; linarith)
      (by rw [div_le_iff₀ (by norm_num)]; linarith)
    have hx := xPart64_rising h 1 (by norm_num) (by norm_num) (by norm_num; linarith)
      (by norm_num; linarith) hc
    rw [if_pos c2, s1, s2, s3]
    refine ⟨_, _, _, rfl, z0, z1, ?_⟩
    simpa using hx
  rw [if_neg c2]
  by_cases c3 : h.Hue < 240
  · obtain ⟨s1, s2, s3⟩ := share_3 (w := h.Hue / 60)
      (by rw [le_div_iff₀ (by norm_num)]; linarith)
      (by rw [div_le_iff₀ (by norm_num)]; linarith)
    have hx := xPart64_falling h 1 (by norm_num) (by norm_num) (by norm_num; linarith)
      (by norm_num; linarith) hc
    have e : (2 : ℚ) * ((1 : ℤ) : ℚ) + 2 - h.Hue / 60 = 4 - h.Hue / 60 := by
      push_cast; ring
    rw [e] at hx
    rw [if_pos c3, s1, s2, s3]
    exact ⟨_, _, _, rfl, z0, hx, z1⟩
  rw [if_neg c3]
  by_cases c4 : h.Hue < 300
  · obtain ⟨s1, s2, s3⟩ := share_4 (w := h.Hue / 60)
      (by rw [le_div_iff₀ (by norm_num)]; linarith)
      (by rw [div_le_iff₀ (by norm_num)]; linarith)
    have hx := xPart64_rising h 2 (by norm_num) (by norm_num) (by norm_num; linarith)
      (by norm_num; linarith) hc
    have e : h.Hue / 60 - (2 : ℚ) * ((2 : ℤ) : ℚ) = h.Hue / 60 - 4 := by
      push_cast; ring
    rw [e] at hx
    rw [if_pos c4, s1, s2, s3]
    exact ⟨_, _, _, rfl, hx, z0, z1⟩
  rw [if_neg c4]
  obtain ⟨s1, s2, s3⟩ := share_5 (w := h.Hue / 60)
    (by rw [le_div_iff₀ (by norm_num)]; linarith)
    (by rw [div_le_iff₀ (by norm_num)]; linarith)
  have hx := xPart64_falling h 2 (by norm_num) (by norm_num) (by norm_num; linarith)
    (by norm_num; linarith) hc
  have e : (2 : ℚ) * ((2 : ℤ) : ℚ) + 2 - h.Hue / 60 = 6 - h.Hue / 60 := by
    push_cast; ring
  rw [e] at hx
  rw [s1, s2, s3]
  exact ⟨_, _, _, rfl, z1, z0, hx⟩

/-! ## The round trip after rounding -/

/-- A value within a thousandth of a byte converts to that byte or the one
below. -/
theorem toUint8_near {x : ℚ} (n : ℕ) (hn : n < 256) (h : |x - (n : ℚ)| ≤ 1 / 1000) :
    toUint8 x = n ∨ toUint8 x + 1 = n := by
  obtain ⟨h1, h2⟩ := abs_le.mp h
  rcases le_or_lt (n : ℚ) x with c | c
  · left
    exact toUint8_of_floor n hn c (by linarith)
  · rcases Nat.eq_zero_or_pos n with z | z
    · left
      subst z
      have e : truncQ x = 0 := by
        apply truncQ_of_neg 0 (by simpa using c)
        · norm_num at h1 ⊢; linarith
        · norm_num at c ⊢; exact c.le
      unfold toUint8
      rw [e]; rfl
    · right
      obtain ⟨k, rfl⟩ : ∃ k, n = k + 1 := ⟨n - 1, by omega⟩
      have e : toUint8 x = k := by
        apply toUint8_of_floor k (by omega)
        · push_cast at h1; linarith
        · push_cast at c; exact c
      rw [e]

/-- The three values that the rounded round trip converts to `uint8` are within
a thousandth of the original channels. -/
theorem channels64_near (r g b : ℕ) (hr : r < 256) (hg : g < 256) (hb : b < 256) :
    |(RGBToHCT64 r g b).channels64.1 - (r : ℚ)| ≤ 1 / 1000 ∧
      |(RGBToHCT64 r g b).channels64.2.1 - (g : ℚ)| ≤ 1 / 1000 ∧
      |(RGBToHCT64 r g b).channels64.2.2 - (b : ℚ)| ≤ 1 / 1000 := by
  have hn := RGBToHCT64_near r g b (by omega) (by omega) (by omega)
  obtain ⟨nc, nm, c0, c1, m0, m1⟩ := cm64_near hn
  obtain ⟨nH, -, -, H0, E0, E1, -, -, -, -⟩ := hn
  obtain ⟨a1, a2⟩ := abs_le.mp nH
  have hH1 : (RGBToHCT64 r g b).Hue ≤ 360 := by linarith
  have hcb : |(RGBToHCT r g b).cPart| ≤ 1 := abs_le.mpr ⟨by linarith, c1⟩
  have hc2 : |(RGBToHCT64 r g b).cPart64| ≤ 2 := by
    have := abs_le_of_near nc hcb
    have e : (1 : ℚ) + 1 / 10 ^ 9 ≤ 2 := by norm_num
    linarith
  obtain ⟨cr, cg, cb, hch, kr, kg, kb⟩ := comps64_near (RGBToHCT64 r g b) H0 hH1 hc2
  have hE := channels_share (RGBToHCT r g b) E0 (by linarith)
  rw [(exact_round_trip r g b hr hg hb).1] at hE
  have eR : ((RGBToHCT r g b).cPart * shareR ((RGBToHCT r g b).Hue / 60) +
      (RGBToHCT r g b).mPart) * 255 = (r : ℚ) := (congrArg Prod.fst hE).symm
  have eG : ((RGBToHCT r g b).cPart * shareG ((RGBToHCT r g b).Hue / 60) +
      (RGBToHCT r g b).mPart) * 255 = (g : ℚ) := (congrArg (fun p => p.2.1) hE).symm
  have eB : ((RGBToHCT r g b).cPart * shareB ((RGBToHCT r g b).Hue / 60) +
      (RGBToHCT r g b).mPart) * 255 = (b : ℚ) := (congrArg (fun p => p.2.2) hE).symm
  have hw : |(RGBToHCT64 r g b).Hue / 60 - (RGBToHCT r g b).Hue / 60| ≤ 1 / 10 ^ 9 := by
    rw [← sub_div, abs_div, abs_of_pos (by norm_num : (0 : ℚ) < 60),
      div_le_iff₀ (by norm_num)]
    exact nH.trans (by norm_num)
  have cr0 : (0 : ℚ) ≤ (r : ℚ) := Nat.cast_nonneg r
  have cg0 : (0 : ℚ) ≤ (g : ℚ) := Nat.cast_nonneg g
  have cb0 : (0 : ℚ) ≤ (b : ℚ) := Nat.cast_nonneg b
  have cr1 : (r : ℚ) ≤ 255 := by
    have : r ≤ 255 := by omega
    exact_mod_cast this
  have cg1 : (g : ℚ) ≤ 255 := by
    have : g ≤ 255 := by omega
    exact_mod_cast this
  have cb1 : (b : ℚ) ≤ 255 := by
    have : b ≤ 255 := by omega
    exact_mod_cast this
  rw [hch]
  refine ⟨?_, ?_, ?_⟩
  · rw [← eR]
    apply out64_near _ kr nc ((shareR_near _ _).trans hw) nm hcb (clamp01_abs _)
    rw [abs_le]; constructor <;> linarith
  · rw [← eG]
    apply out64_near _ kg nc ((shareG_near _ _).trans hw) nm hcb (clamp01_abs _)
    rw [abs_le]; constructor <;> linarith
  · rw [← eB]
    apply out64_near _ kb nc ((shareB_near _ _).trans hw) nm hcb (clamp01_abs _)
    rw [abs_le]; constructor <;> linarith

/-! ## The round trip within one unit -/

/-- C3 (amended): with the rounding of `float64` after every operation,
converting an 8-bit colour with `RGBToHCT` and back with `ToRGB` returns each of
the red, green and blue channels either unchanged or lower by one, and an alpha
of 255. -/
theorem C3_round_trip_within_one (r g b : ℕ) (hr : r < 256) (hg : g < 256) (hb : b < 256) :
    ((RGBToHCT64 r g b).ToRGB64.R = r ∨ (RGBToHCT64 r g b).ToRGB64.R + 1 = r) ∧
      ((RGBToHCT64 r g b).ToRGB64.G = g ∨ (RGBToHCT64 r g b).ToRGB64.G + 1 = g) ∧
      ((RGBToHCT64 r g b).ToRGB64.B = b ∨ (RGBToHCT64 r g b).ToRGB64.B + 1 = b) ∧
      (RGBToHCT64 r g b).ToRGB64.A = 255 := by
  obtain ⟨h1, h2, h3⟩ := channels64_near r g b hr hg hb
  exact ⟨toUint8_near r hr h1, toUint8_near g hg h2, toUint8_near b hb h3, rfl⟩

theorem C3_round_trip_within_one_witness :
    ((RGBToHCT64 200 100 50).ToRGB64.R = 200 ∨ (RGBToHCT64 200 100 50).ToRGB64.R + 1 = 200) ∧
      ((RGBToHCT64 200 100 50).ToRGB64.G = 100 ∨
        (RGBToHCT64 200 100 50).ToRGB64.G + 1 = 100) ∧
      ((RGBToHCT64 200 100 50).ToRGB64.B = 50 ∨ (RGBToHCT64 200 100 50).ToRGB64.B + 1 = 50) ∧
      (RGBToHCT64 200 100 50).ToRGB64.A = 255 :=
  C3_round_trip_within_one 200 100 50 (by decide) (by decide) (by decide)

end MaterialGtk
